import Mathlib

/-!
# Verification of the p2d pseudo-Boolean model counter / d-DNNF compiler

Shallow embedding of the p2d sources (`src/p2d/src/solving/*.rs`,
`src/p2d/src/partitioning/*.rs`, `src/p2d_opb/src/*.rs`) and proofs about it.

Modelling conventions:
* Rust `BTreeMap<usize, V>` is modelled by `SMap V`, an association list sorted
  strictly by key; iteration order of the list coincides with `BTreeMap`
  iteration order (ascending keys).  `BTreeSet<usize>` is `NSet`, a sorted list.
* `u128` values are modelled as `Nat`; the cast `i128 as u128` is modelled by
  `as_u128` (two's-complement bit cast).  Big integers (`BigUint`) are `Nat`.
* `f64` scores (VSIDS / DLCS) are modelled as exact rationals `Rat`; every
  operation on them exercised by the claims is exact at the values reached.
* The memoization cache keyed by a 64-bit `DefaultHasher` fingerprint is
  modelled by a map keyed by the exact data that the Rust code feeds into the
  hasher (the in-scope variable set and the `(index, sum_true)` pairs of the
  in-scope constraints); this is the standard collision-free reading of the
  fingerprint, which the spec itself assumes.
* Rust panics (`unwrap`, explicit `panic!`) and loops are modelled with
  `Option` results and `fuel`; `none` means the Rust computation would panic or
  the fuel did not suffice.
-/

namespace P2D

/-- Association list with `Nat` keys, sorted strictly by key: the model of
Rust's `BTreeMap<usize, V>`.  The list order equals BTreeMap iteration order. -/
def SMap (α : Type) : Type := List (Nat × α)

instance {α : Type} [DecidableEq α] : DecidableEq (SMap α) :=
  inferInstanceAs (DecidableEq (List (Nat × α)))

instance {α : Type} [Repr α] : Repr (SMap α) :=
  inferInstanceAs (Repr (List (Nat × α)))

namespace SMap

variable {α : Type}

def empty : SMap α := []

def find? : SMap α → Nat → Option α
  | [], _ => none
  | (k', v) :: rest, k => if k = k' then some v else find? rest k

def contains (m : SMap α) (k : Nat) : Bool := (m.find? k).isSome

def insert : SMap α → Nat → α → SMap α
  | [], k, v => [(k, v)]
  | (k', v') :: rest, k, v =>
    if k < k' then (k, v) :: (k', v') :: rest
    else if k = k' then (k, v) :: rest
    else (k', v') :: insert rest k v

def erase : SMap α → Nat → SMap α
  | [], _ => []
  | (k', v') :: rest, k => if k = k' then rest else (k', v') :: erase rest k

def keys (m : SMap α) : List Nat := m.map Prod.fst

def values (m : SMap α) : List α := m.map Prod.snd

def size (m : SMap α) : Nat := m.length

/-- The underlying entry list (BTreeMap iteration order). -/
def entries (m : SMap α) : List (Nat × α) := m

/-- Well-formedness: keys strictly increasing along the list. -/
def Sorted (m : SMap α) : Prop := List.Pairwise (· < ·) (keys m)

instance (m : SMap α) : Decidable m.Sorted :=
  inferInstanceAs (Decidable (List.Pairwise (· < ·) (keys m)))

end SMap

/-- Sorted duplicate-free list of naturals: the model of Rust's `BTreeSet<usize>`. -/
def NSet : Type := List Nat

instance : DecidableEq NSet := inferInstanceAs (DecidableEq (List Nat))

instance : Repr NSet := inferInstanceAs (Repr (List Nat))

namespace NSet

def empty : NSet := []

def contains (s : NSet) (k : Nat) : Bool :=
  match s with
  | [] => false
  | x :: rest => if k = x then true else contains rest k

def insert : NSet → Nat → NSet
  | [], k => [k]
  | x :: rest, k =>
    if k < x then k :: x :: rest
    else if k = x then x :: rest
    else x :: insert rest k

def erase : NSet → Nat → NSet
  | [], _ => []
  | x :: rest, k => if k = x then rest else x :: erase rest k

def size (s : NSet) : Nat := s.length

def toList (s : NSet) : List Nat := s

def Sorted (s : NSet) : Prop := List.Chain' (· < ·) s

end NSet

/-! ## Core data model (`pseudo_boolean_datastructure.rs`, `solver.rs` types) -/

/-- `ConstraintIndex` (solver.rs / pseudo_boolean_datastructure.rs). -/
inductive ConstraintIndex where
  | LearnedClauseIndex (i : Nat)
  | NormalConstraintIndex (i : Nat)
deriving DecidableEq, Repr

/-- `AssignmentKind` (solver.rs). -/
inductive AssignmentKind where
  | Propagated (ci : ConstraintIndex)
  | FirstDecision
  | SecondDecision
deriving DecidableEq, Repr

/-- `Literal` (pseudo_boolean_datastructure.rs): `factor` is the `u128`
coefficient, `positive` the polarity. -/
structure Literal where
  index : Nat
  factor : Nat
  positive : Bool
deriving DecidableEq, Repr

/-- `ConstraintType`. -/
inductive ConstraintType where
  | GreaterEqual
  | NotEqual
deriving DecidableEq, Repr

/-- `Constraint` (pseudo_boolean_datastructure.rs).  `degree` is the `i128`
right-hand side, `sum_true`/`sum_unassigned`/`factor_sum` are `u128`. -/
structure Constraint where
  index : ConstraintIndex
  literals : SMap Literal
  unassigned_literals : SMap Literal
  degree : Int
  sum_true : Nat
  sum_unassigned : Nat
  assignments : SMap (Bool × AssignmentKind × Nat)
  factor_sum : Nat
  hash_value : Nat
  hash_value_old : Bool
  constraint_type : ConstraintType
  max_literal : Literal
deriving DecidableEq, Repr

/-- `PropagationResult`. -/
inductive PropagationResult where
  | Satisfied
  | Unsatisfied
  | ImpliedLiteral (l : Literal)
  | ImpliedLiteralList (ls : List Literal)
  | NothingToPropagated
  | AlreadySatisfied
deriving DecidableEq, Repr

/-- The Rust cast `i128 as u128` (two's complement bit cast); the modulus is
the literal value of `2 ^ 128`, spelled out so that concrete instances
evaluate without deep recursion. -/
def as_u128 (d : Int) : Nat :=
  (d % (340282366920938463463374607431768211456 : Int)).toNat

namespace Constraint

/-- The loop body of `get_max_literal`: keep the running maximum, replacing
it only on a strictly larger factor. -/
def gm_step (acc : Literal) (p : Nat × Literal) : Literal :=
  if p.2.factor > acc.factor then
    { index := p.2.index, factor := p.2.factor, positive := p.2.positive }
  else acc

/-- `Constraint::get_max_literal`: scan `unassigned_literals` in key order and
keep the first literal with a strictly larger factor (start at factor 0). -/
def get_max_literal (c : Constraint) : Literal :=
  c.unassigned_literals.entries.foldl gm_step { index := 0, factor := 0, positive := false }

/-- Whether the constraint currently counts as satisfied; this is the test the
Rust code performs inline in `propagate` and `undo`. -/
def satisfied_now (c : Constraint) : Bool :=
  match c.constraint_type with
  | .GreaterEqual => decide (c.sum_true ≥ as_u128 c.degree)
  | .NotEqual => decide (c.sum_unassigned = 0) && decide (c.sum_true ≠ as_u128 c.degree)

/-- `Constraint::propagate`.  `none` models the `panic!` on a literal that is
not in the constraint. -/
def propagate (c : Constraint) (literal : Literal) (assignment_kind : AssignmentKind)
    (decision_level : Nat) : Option (PropagationResult × Constraint) :=
  match c.assignments.find? literal.index with
  | some (a, _, _) =>
    if a = literal.positive then some (.NothingToPropagated, c)
    else some (.Unsatisfied, c)
  | none =>
    let already_satisfied := c.satisfied_now
    if already_satisfied then some (.AlreadySatisfied, c)
    else
      match c.literals.find? literal.index with
      | none => none
      | some lic =>
        let c1 : Constraint :=
          { c with
            sum_true := if lic.positive = literal.positive then c.sum_true + lic.factor else c.sum_true,
            sum_unassigned := c.sum_unassigned - lic.factor,
            unassigned_literals := c.unassigned_literals.erase literal.index,
            assignments := c.assignments.insert literal.index
              (literal.positive, assignment_kind, decision_level),
            hash_value_old := true }
        match c1.constraint_type with
        | .NotEqual =>
          if c1.sum_unassigned = 0 ∧ c1.sum_true ≠ as_u128 c1.degree then
            some (if already_satisfied then .AlreadySatisfied else .Satisfied, c1)
          else if c1.sum_unassigned = 0 ∧ c1.sum_true = as_u128 c1.degree then
            some (.Unsatisfied, c1)
          else
            some (.NothingToPropagated, c1)
        | .GreaterEqual =>
          let c2 : Constraint := { c1 with max_literal := c1.get_max_literal }
          if c2.sum_true ≥ as_u128 c2.degree then
            some (if already_satisfied then .AlreadySatisfied else .Satisfied, c2)
          else if c2.sum_true + c2.sum_unassigned < as_u128 c2.degree then
            some (.Unsatisfied, c2)
          else if c2.sum_true + c2.sum_unassigned = as_u128 c2.degree then
            some (.ImpliedLiteralList (c2.unassigned_literals.values.map
              (fun l => { index := l.index, factor := l.factor, positive := l.positive })), c2)
          else if c2.sum_true + c2.sum_unassigned < as_u128 c2.degree + c2.max_literal.factor then
            some (.ImpliedLiteral c2.max_literal, c2)
          else
            some (.NothingToPropagated, c2)

/-- `Constraint::undo`: returns (transitioned from satisfied to active, new state). -/
def undo (c : Constraint) (variable_index : Nat) (variable_sign : Bool) : Bool × Constraint :=
  if c.assignments.contains variable_index then
    match c.literals.find? variable_index with
    | none => (false, c)
    | some literal =>
      let c1 : Constraint :=
        if literal.factor > c.max_literal.factor then { c with max_literal := literal } else c
      let satisfied_before_undo := c1.satisfied_now
      let c2 : Constraint :=
        { c1 with
          unassigned_literals := c1.unassigned_literals.insert variable_index literal,
          assignments := c1.assignments.erase variable_index,
          sum_unassigned := c1.sum_unassigned + literal.factor }
      let c3 : Constraint :=
        if literal.positive = variable_sign then { c2 with sum_true := c2.sum_true - literal.factor }
        else c2
      let satisfied_after_undo := c3.satisfied_now
      let c4 : Constraint := { c3 with hash_value_old := true }
      if satisfied_before_undo && !satisfied_after_undo then (true, c4) else (false, c4)
  else (false, c)

/-- `Constraint::simplify`: classification without mutation. -/
def simplify (c : Constraint) : PropagationResult :=
  match c.constraint_type with
  | .NotEqual =>
    if c.sum_unassigned = 0 ∧ c.sum_true ≠ as_u128 c.degree then .Satisfied
    else if c.sum_unassigned = 0 ∧ c.sum_true = as_u128 c.degree then .Unsatisfied
    else .NothingToPropagated
  | .GreaterEqual =>
    if c.sum_true ≥ as_u128 c.degree then .Satisfied
    else if c.sum_true + c.sum_unassigned < as_u128 c.degree then .Unsatisfied
    else if c.sum_true + c.sum_unassigned = as_u128 c.degree then
      .ImpliedLiteralList (c.unassigned_literals.values.map
        (fun l => { index := l.index, factor := l.factor, positive := l.positive }))
    else if c.sum_true + c.sum_unassigned < as_u128 c.degree + c.max_literal.factor then
      .ImpliedLiteral c.max_literal
    else .NothingToPropagated

/-- `Constraint::is_unsatisfied`. -/
def is_unsatisfied (c : Constraint) : Bool :=
  match c.constraint_type with
  | .GreaterEqual => decide (c.sum_true < as_u128 c.degree)
  | .NotEqual => decide (c.sum_unassigned ≠ 0) || decide (c.sum_true = as_u128 c.degree)

/-- `Constraint::calculate_reason`. -/
def calculate_reason (c : Constraint) (propagated_variable_index : Nat) :
    SMap (AssignmentKind × Bool × Nat) :=
  c.assignments.entries.foldl
    (fun result p =>
      if p.1 ≠ propagated_variable_index then
        result.insert p.1 (p.2.2.1, p.2.1, p.2.2.2)
      else result)
    SMap.empty

end Constraint

/-! ## OPB equations and normalization (`p2d_opb/src/lib.rs`,
`pseudo_boolean_datastructure.rs`) -/

/-- `EquationKind` (p2d_opb). -/
inductive EquationKind where
  | Eq
  | Ge
  | Le
  | G
  | L
  | NotEq
deriving DecidableEq, Repr

/-- `Summand` (p2d_opb): `factor` is the signed `i128` coefficient. -/
structure Summand where
  variable_index : Nat
  factor : Int
  positive : Bool
deriving DecidableEq, Repr

/-- `Equation` (p2d_opb). -/
structure Equation where
  lhs : List Summand
  rhs : Int
  kind : EquationKind
deriving DecidableEq, Repr

/-- `OPBFile` (p2d_opb).  `name_map` is kept as a plain association list; it
plays no role in solving or counting. -/
structure OPBFile where
  name_map : List (String × Nat)
  equations : List Equation
  max_name_index : Nat
  number_constraints : Nat
  number_variables : Nat
deriving DecidableEq, Repr

/-- `replace_equal_equations`: split `=` into a `>=` and a `<=` half. -/
def replace_equal_equations (equation : Equation) : List Equation :=
  if equation.kind = .Eq then
    [{ lhs := equation.lhs, rhs := equation.rhs, kind := .Ge },
     { lhs := equation.lhs, rhs := equation.rhs, kind := .Le }]
  else [equation]

/-- `replace_le_equations`: negate both sides and flip `<=` to `>=`. -/
def replace_le_equations (equation : Equation) : Equation :=
  if equation.kind = .Le then
    { lhs := equation.lhs.map (fun s =>
        { variable_index := s.variable_index, factor := -1 * s.factor,
          positive := s.positive }),
      rhs := -1 * equation.rhs,
      kind := .Ge }
  else equation

/-- `replace_l_equations`: negate both sides and flip `<` to `>`. -/
def replace_l_equations (equation : Equation) : Equation :=
  if equation.kind = .L then
    { lhs := equation.lhs.map (fun s =>
        { variable_index := s.variable_index, factor := -1 * s.factor,
          positive := s.positive }),
      rhs := -1 * equation.rhs,
      kind := .G }
  else equation

/-- `replace_g_equations`: turn `>` into `>=` by adding 1 to the right side. -/
def replace_g_equations (equation : Equation) : Equation :=
  if equation.kind = .G then
    { lhs := equation.lhs, rhs := equation.rhs + 1, kind := .Ge }
  else equation

/-- The inner `j` loop of `add_up_same_variables`: sum of the factors of the
later occurrences of variable `v`. -/
def sum_later_factors (v : Nat) (rest : List Summand) : Int :=
  rest.foldl (fun acc s => if s.variable_index = v then acc + s.factor else acc) 0

/-- The outer `i` loop of `add_up_same_variables` with its `visited` set. -/
def add_up_go (visited : List Nat) : List Summand → List Summand
  | [] => []
  | s :: rest =>
    if visited.contains s.variable_index then add_up_go visited rest
    else
      { variable_index := s.variable_index,
        factor := s.factor + sum_later_factors s.variable_index rest,
        positive := s.positive } :: add_up_go (s.variable_index :: visited) rest

/-- `add_up_same_variables`: merge repeated occurrences of a variable. -/
def add_up_same_variables (equation : Equation) : Equation :=
  { lhs := add_up_go [] equation.lhs, rhs := equation.rhs, kind := equation.kind }

/-- The summand rewriting of `replace_negative_factors`: a negative factor
`-k` on literal `L` becomes `+k` on `¬L`. -/
def replace_negative_summands : List Summand → List Summand
  | [] => []
  | s :: rest =>
    (if s.factor < 0 then
      { variable_index := s.variable_index, factor := -1 * s.factor,
        positive := !s.positive }
    else s) :: replace_negative_summands rest

/-- Total amount subtracted from the right-hand side by
`replace_negative_factors` (`new_equation.rhs -= s.factor` for each negative
summand). -/
def negative_factor_total : List Summand → Int
  | [] => 0
  | s :: rest => (if s.factor < 0 then s.factor else 0) + negative_factor_total rest

/-- `replace_negative_factors`. -/
def replace_negative_factors (equation : Equation) : Equation :=
  { lhs := replace_negative_summands equation.lhs,
    rhs := equation.rhs - negative_factor_total equation.lhs,
    kind := equation.kind }

/-- The normalization pipeline of `PseudoBooleanFormula::new`, in source
order: equality split, `<=` rewrite, `<` rewrite, `>` rewrite, same-variable
merge, negative-factor replacement. -/
def normalize_equations (equations : List Equation) : List Equation :=
  (((((equations.flatMap replace_equal_equations).map
    replace_le_equations).map
    replace_l_equations).map
    replace_g_equations).map
    add_up_same_variables).map
    replace_negative_factors

/-- `PseudoBooleanFormula` (pseudo_boolean_datastructure.rs). -/
structure PseudoBooleanFormula where
  constraints : List Constraint
  number_variables : Nat
  constraints_by_variable : List (List Nat)
  name_map : List (String × Nat)
deriving DecidableEq, Repr

/-- `constraints_by_variable.get_mut(i).unwrap().push(x)`: push `x` onto the
`i`-th inner list, `none` when `i` is out of bounds (Rust would panic). -/
def pushAt : List (List Nat) → Nat → Nat → Option (List (List Nat))
  | [], _, _ => none
  | l :: rest, 0, x => some ((l ++ [x]) :: rest)
  | l :: rest, n + 1, x => (pushAt rest n x).map (l :: ·)

/-- `get_constraint_type_from_equation`; `none` models the panic on a kind
that should have been removed by normalization. -/
def get_constraint_type_from_equation (equation : Equation) : Option ConstraintType :=
  match equation.kind with
  | .Ge => some .GreaterEqual
  | .NotEq => some .NotEqual
  | _ => none

/-- The body of the `for summand in equation.lhs` loop of
`PseudoBooleanFormula::new`: insert the summand into `literals` and
`unassigned_literals` and record the incidence in
`constraints_by_variable` (`none` when Rust would panic on an
out-of-bounds variable index). -/
def add_summand_step (constraint_counter : Nat)
    (st : Option (Constraint × List (List Nat))) (summand : Summand) :
    Option (Constraint × List (List Nat)) :=
  match st with
  | none => none
  | some (c, cbv) =>
    match pushAt cbv summand.variable_index constraint_counter with
    | none => none
    | some cbv2 =>
      some ({ c with
        literals := c.literals.insert summand.variable_index
          { index := summand.variable_index, factor := as_u128 summand.factor,
            positive := summand.positive },
        unassigned_literals := c.unassigned_literals.insert summand.variable_index
          { index := summand.variable_index, factor := as_u128 summand.factor,
            positive := summand.positive } }, cbv2)

/-- The body of the `for equation in equation_list` loop of
`PseudoBooleanFormula::new`: build one `Constraint` from a normalized
equation and record its variable incidences.  The accumulator carries the
constraints built so far and `constraints_by_variable`. -/
def add_equation_to_formula (acc : List Constraint × List (List Nat))
    (equation : Equation) : Option (List Constraint × List (List Nat)) :=
  let constraint_counter := acc.1.length
  match get_constraint_type_from_equation equation with
  | none => none
  | some ctype =>
    let fsum := as_u128 (equation.lhs.foldl (fun a s => a + s.factor) 0)
    let c0 : Constraint :=
      { degree := if equation.rhs < 0 then 0 else equation.rhs
        sum_true := 0
        sum_unassigned := fsum
        literals := SMap.empty
        unassigned_literals := SMap.empty
        assignments := SMap.empty
        factor_sum := fsum
        index := .NormalConstraintIndex constraint_counter
        hash_value := 0
        hash_value_old := true
        constraint_type := ctype
        max_literal := { index := 0, factor := 0, positive := false } }
    match equation.lhs.foldl (add_summand_step constraint_counter) (some (c0, acc.2)) with
    | none => none
    | some (c1, cbv) =>
      some (acc.1 ++ [{ c1 with max_literal := c1.get_max_literal }], cbv)

/-- `PseudoBooleanFormula::new`: normalize, check for leftover negative
factors (a panic in Rust, `none` here), then build all constraints. -/
def PseudoBooleanFormula.new (opb_file : OPBFile) : Option PseudoBooleanFormula :=
  let equation_list := normalize_equations opb_file.equations
  if equation_list.any (fun e => e.lhs.any (fun s => decide (s.factor < 0))) then none
  else
    match equation_list.foldlM add_equation_to_formula
      (([], List.replicate opb_file.max_name_index []) :
        List Constraint × List (List Nat)) with
    | none => none
    | some (cs, cbv) =>
      some { constraints := cs
             number_variables := opb_file.max_name_index
             constraints_by_variable := cbv
             name_map := opb_file.name_map }

/-! ## Solver embedding (`solver.rs`, `ddnnf.rs`, `hypergraph.rs`,
`disconnected_component_datastructure.rs`)

Modelling conventions for this section:
* `BigUint` model counts are `Nat`; `u32`/`usize` counters are `Nat`.
* The `f64` VSIDS/DLCS scores are `ℚ`; every score this development
  evaluates is reached by exact `f64` arithmetic (small integer sums and
  quotients), where `f64` and `ℚ` agree.  (Rust's `x/0.0` is `inf`, `ℚ`'s
  is `0`; both compare `≥ 0`, which is the only use of such a score.)
* Rust `Vec` writes `v[i] = x` are `listSet` (identity when out of bounds;
  Rust panics there, but every write below follows a bounds-established
  `get` on a vector of the same length, so the cases agree on all states
  this development evaluates), `Vec::push`/`pop` append and drop at the
  end, and a `VecDeque` is a list popped at the head and pushed at the end.
* Rust panics (`unwrap` on a missing element, `panic!`) are `none`; loops
  whose termination Rust does not establish take explicit fuel and return
  `none` when it runs out.
* The functions behind `#[cfg(feature = ...)]` gates `cache`,
  `disconnected_components` and `clause_learning` are included: the crate
  enables all three by default (Cargo default features).
* The statistics field `time_to_compute` (wall-clock milliseconds) and the
  `show_progress` console output are omitted: they record physical time
  and terminal text, not solver data.
-/

/-- Rust's `v[i] = x` on a `Vec`: replace the `i`-th element, identity when
`i` is out of bounds (see the section comment). -/
def listSet {α : Type} : List α → Nat → α → List α
  | [], _, _ => []
  | _ :: rest, 0, x => x :: rest
  | y :: rest, n + 1, x => y :: listSet rest n x

/-- `Statistics` (solver.rs), without the wall-clock field. -/
structure Statistics where
  cache_hits : Nat
  cache_entries : Nat
  learned_clauses : Nat
  propagations_from_learned_clauses : Nat
deriving DecidableEq, Repr

/-- `VariableAssignment` (solver.rs). -/
structure VariableAssignment where
  decision_level : Nat
  variable_index : Nat
  variable_sign : Bool
  assignment_kind : AssignmentKind
deriving DecidableEq, Repr

/-- `Component` (disconnected_component_datastructure.rs).  The Rust field
`variables` is `vars` here: `variables` is a (deprecated) Lean command
token and cannot name a field. -/
structure Component where
  constraint_indexes_in_scope : NSet
  vars : NSet
  number_unsat_constraints : Nat
  number_unassigned_variables : Nat
deriving DecidableEq, Repr

/-- `ComponentBasedFormula` (disconnected_component_datastructure.rs). -/
structure ComponentBasedFormula where
  components : List Component
  current_component : Nat
  previous_number_unsat_constraints : Nat
  previous_number_unassigned_variables : Nat
  previous_variables_in_scope : NSet
  previous_constraint_indexes_in_scope : NSet
deriving DecidableEq, Repr

/-- `AssignmentStackEntry` (solver.rs). -/
inductive AssignmentStackEntry where
  | Assignment (a : VariableAssignment)
  | ComponentBranch (b : ComponentBasedFormula)
deriving DecidableEq, Repr

/-- `DDNNFLiteral` (ddnnf.rs): `index` is the 0-based variable index. -/
structure DDNNFLiteral where
  index : Nat
  positive : Bool
deriving DecidableEq, Repr

/-- `DDNNFNode` (ddnnf.rs); the `Rc` sharing is by-value here. -/
inductive DDNNFNode where
  | TrueLeave
  | FalseLeave
  | LiteralLeave (l : DDNNFLiteral)
  | AndNode (children : List DDNNFNode) (id : Nat)
  | OrNode (children : List DDNNFNode) (id : Nat)

/-- `matches!(n, FalseLeave)`. -/
def DDNNFNode.isFalse : DDNNFNode → Bool
  | .FalseLeave => true
  | _ => false

/-- `matches!(n, TrueLeave)`. -/
def DDNNFNode.isTrue : DDNNFNode → Bool
  | .TrueLeave => true
  | _ => false

/-- `matches!(n, LiteralLeave(_))`. -/
def DDNNFNode.isLiteral : DDNNFNode → Bool
  | .LiteralLeave _ => true
  | _ => false

/-- `DDNNF` (ddnnf.rs). -/
structure DDNNF where
  root_node : DDNNFNode
  number_variables : Nat

/-- `SolverResult` (solver.rs). -/
structure SolverResult where
  model_count : Nat
  ddnnf : DDNNF

/-- The data the free function `calculate_hash`
(pseudo_boolean_datastructure.rs) feeds into the 64-bit `DefaultHasher`:
the in-scope variable set and, per in-scope constraint, `(index, sum_true)`.
The cache key is this data itself rather than a 64-bit digest, i.e. the
hash is modelled as injective (collision-free), which is the reading the
spec's cache contract assumes. -/
abbrev CacheKey : Type := NSet × List (Nat × Nat)

/-- The external PaToH partitioner behind
`hypergraph_partitioning::partition` (an FFI call into a binary library
whose code is not part of this repository).  Modelled from the spec: the
spec treats the partitioner as an opaque cut oracle, so it is a parameter
mapping `(number_vertices, number_nets, pins, x_pins)` to the list of cut
net indices (`edges_to_remove`, the only component of its result the
caller uses). -/
abbrev PartitionOracle : Type := Nat → Nat → List Nat → List Nat → List Nat

/-- `Solver` (solver.rs); stacks keep their top at the list head except
`next_variables`, which stays a Rust `Vec` (push/pop at the end).  The
`progress`/`last_progress`/`progress_split` fields (console progress
display) are omitted. -/
structure Solver where
  pseudo_boolean_formula : PseudoBooleanFormula
  assignment_stack : List AssignmentStackEntry
  assignments : List (Option (Nat × Bool))
  decision_level : Nat
  learned_clauses : List Constraint
  learned_clauses_by_variables : List (List Nat)
  result_stack : List Nat
  ddnnf_stack : List DDNNFNode
  number_unsat_constraints : Nat
  number_unassigned_variables : Nat
  cache : List (CacheKey × (Nat × DDNNFNode))
  statistics : Statistics
  variable_in_scope : NSet
  constraint_indexes_in_scope : NSet
  next_variables : List Nat
  vsids_scores : List Rat
  dlcs_scores : List Rat
  unique_id : Nat

/-- The inner DLCS seeding of the constraint loop of `Solver::new`
(`dlcs_scores[i] = factor/degree`; the `f64` quotient maps to the exact
rational, see the section comment). -/
def Solver.new_dlcs (c : Constraint) (s : Solver) (p : Nat × Literal) : Solver :=
  { s with dlcs_scores :=
      listSet s.dlcs_scores p.1 ((p.2.factor : Rat) / (c.degree : Rat)) }

/-- One step of the constraint loop of `Solver::new`: record the normal
constraint index in scope and seed the DLCS scores of its literals. -/
def Solver.new_seed (s : Solver) (c : Constraint) : Solver :=
  c.literals.entries.foldl (Solver.new_dlcs c)
    (match c.index with
     | .NormalConstraintIndex i =>
       { s with constraint_indexes_in_scope := s.constraint_indexes_in_scope.insert i }
     | _ => s)

/-- `Solver::new`: the `0..number_variables` initialisation loop yields
`List.replicate`/`List.range` states; the constraint loop seeds the
in-scope set and the DLCS scores. -/
def Solver.new (pseudo_boolean_formula : PseudoBooleanFormula) : Solver :=
  let number_unsat_constraints := pseudo_boolean_formula.constraints.length
  let number_variables := pseudo_boolean_formula.number_variables
  let base : Solver :=
    { pseudo_boolean_formula := pseudo_boolean_formula
      assignment_stack := []
      assignments := List.replicate number_variables none
      decision_level := 0
      learned_clauses := []
      learned_clauses_by_variables := List.replicate number_variables []
      result_stack := []
      ddnnf_stack := []
      number_unsat_constraints := number_unsat_constraints
      number_unassigned_variables := number_variables
      cache := []
      statistics := { cache_hits := 0, cache_entries := 0, learned_clauses := 0,
                      propagations_from_learned_clauses := 0 }
      variable_in_scope := List.range number_variables
      constraint_indexes_in_scope := NSet.empty
      next_variables := []
      vsids_scores := List.replicate number_variables 1
      dlcs_scores := List.replicate number_variables 0
      unique_id := 0 }
  pseudo_boolean_formula.constraints.foldl Solver.new_seed base

/-- `Solver::get_unique_id`: returns the current id and increments it. -/
def Solver.get_unique_id (s : Solver) : Nat × Solver :=
  (s.unique_id, { s with unique_id := s.unique_id + 1 })

/-- The free `calculate_hash` (pseudo_boolean_datastructure.rs) as an
injective key (see `CacheKey`); its `assigments` and `n` parameters are
unused in Rust and dropped here.  `none` models the `unwrap` panic on an
in-scope constraint index without a constraint. -/
def calculate_hash (variables_in_scope : NSet) (t : PseudoBooleanFormula)
    (constraint_indexes_in_scope : NSet) : Option CacheKey :=
  match constraint_indexes_in_scope.toList.mapM
      (fun ci => (t.constraints[ci]?).map (fun c => (ci, c.sum_true))) with
  | none => none
  | some pairs => some (variables_in_scope, pairs)

/-- `HashMap::get` on the cache: first entry with this key (insertion
prepends, so the first match is the most recent one, matching the map's
replace-on-insert semantics). -/
def cacheFind : List (CacheKey × (Nat × DDNNFNode)) → CacheKey → Option (Nat × DDNNFNode)
  | [], _ => none
  | (k, v) :: rest, key => if k = key then some v else cacheFind rest key

/-- `Solver::cache` (the method; named `cache_insert` because the field
already carries the Rust name). -/
def Solver.cache_insert (s : Solver) (mc : Nat) (node : DDNNFNode) : Option Solver :=
  if s.number_unsat_constraints > 0 then
    match calculate_hash s.variable_in_scope s.pseudo_boolean_formula
        s.constraint_indexes_in_scope with
    | none => none
    | some key =>
      some { s with cache := (key, (mc, node)) :: s.cache,
                    statistics := { s.statistics with
                      cache_entries := s.statistics.cache_entries + 1 } }
  else some s

/-- `Solver::get_cached_result`. -/
def Solver.get_cached_result (s : Solver) : Option (Option (Nat × DDNNFNode)) :=
  match calculate_hash s.variable_in_scope s.pseudo_boolean_formula
      s.constraint_indexes_in_scope with
  | none => none
  | some key => some (cacheFind s.cache key)

/-- One entry of the propagation queue of `Solver::propagate`:
`(index, sign, kind, from_learned_clause)`. -/
abbrev PropQueueEntry : Type := Nat × Bool × AssignmentKind × Bool

/-- The `for constraint_index in constraints_by_variable[index]` loop of
`Solver::propagate`: propagate the assignment into each normal constraint,
collecting implied literals onto the queue; `.inl` is the early `return
Some(NormalConstraintIndex(..))` on a violated constraint. -/
def Solver.propagate_constraints (index : Nat) (sign : Bool) (kind : AssignmentKind) :
    Solver → List PropQueueEntry → List Nat →
    Option ((ConstraintIndex × Solver) ⊕ (Solver × List PropQueueEntry))
  | s, queue, [] => some (.inr (s, queue))
  | s, queue, ci :: rest =>
    match (s.pseudo_boolean_formula.constraints[ci]?) with
    | none => none
    | some c =>
      match c.propagate ⟨index, 0, sign⟩ kind s.decision_level with
      | none => none
      | some (result, c') =>
        let s1 : Solver :=
          { s with pseudo_boolean_formula :=
              { s.pseudo_boolean_formula with
                constraints := listSet s.pseudo_boolean_formula.constraints ci c' } }
        match result with
        | .Satisfied =>
          Solver.propagate_constraints index sign kind
            { s1 with number_unsat_constraints := s1.number_unsat_constraints - 1,
                      constraint_indexes_in_scope := s1.constraint_indexes_in_scope.erase ci }
            queue rest
        | .Unsatisfied => some (.inl (.NormalConstraintIndex ci, s1))
        | .ImpliedLiteral l =>
          Solver.propagate_constraints index sign kind s1
            (queue ++ [(l.index, l.positive, .Propagated (.NormalConstraintIndex ci), false)])
            rest
        | .ImpliedLiteralList ls =>
          Solver.propagate_constraints index sign kind s1
            (queue ++ ls.map
              (fun l => (l.index, l.positive,
                AssignmentKind.Propagated (.NormalConstraintIndex ci), false)))
            rest
        | .NothingToPropagated => Solver.propagate_constraints index sign kind s1 queue rest
        | .AlreadySatisfied => Solver.propagate_constraints index sign kind s1 queue rest

/-- The `for constraint_index in learned_clauses_by_variables[index]` loop
of `Solver::propagate` (learned clauses do not touch the unsat counter). -/
def Solver.propagate_learned (index : Nat) (sign : Bool) (kind : AssignmentKind) :
    Solver → List PropQueueEntry → List Nat →
    Option ((ConstraintIndex × Solver) ⊕ (Solver × List PropQueueEntry))
  | s, queue, [] => some (.inr (s, queue))
  | s, queue, ci :: rest =>
    match (s.learned_clauses[ci]?) with
    | none => none
    | some c =>
      match c.propagate ⟨index, 0, sign⟩ kind s.decision_level with
      | none => none
      | some (result, c') =>
        let s1 : Solver := { s with learned_clauses := listSet s.learned_clauses ci c' }
        match result with
        | .Satisfied => Solver.propagate_learned index sign kind s1 queue rest
        | .Unsatisfied => some (.inl (.LearnedClauseIndex ci, s1))
        | .ImpliedLiteral l =>
          Solver.propagate_learned index sign kind s1
            (queue ++ [(l.index, l.positive, .Propagated (.LearnedClauseIndex ci), true)])
            rest
        | .ImpliedLiteralList ls =>
          Solver.propagate_learned index sign kind s1
            (queue ++ ls.map
              (fun l => (l.index, l.positive,
                AssignmentKind.Propagated (.LearnedClauseIndex ci), true)))
            rest
        | .NothingToPropagated => Solver.propagate_learned index sign kind s1 queue rest
        | .AlreadySatisfied => Solver.propagate_learned index sign kind s1 queue rest

/-- The `while !propagation_queue.is_empty()` loop of `Solver::propagate`.
`none` is a panic (`unwrap` out of bounds, or the `panic!` on a conflicting
re-assignment) or fuel exhaustion; `some (conflict?, s)` is the Rust return
value together with the mutated solver. -/
def Solver.propagate_loop : Solver → List PropQueueEntry → Nat →
    Option (Option ConstraintIndex × Solver)
  | _, _, 0 => none
  | s, [], _ + 1 => some (none, s)
  | s, (index, sign, kind, from_learned) :: queue, fuel + 1 =>
    if s.variable_in_scope.contains index = false then
      Solver.propagate_loop s queue fuel
    else
      match (s.assignments[index]?) with
      | none => none
      | some (some (_, oldSign)) =>
        if oldSign = sign then Solver.propagate_loop s queue fuel else none
      | some none =>
        let s1 : Solver :=
          { s with
            statistics :=
              if from_learned then
                { s.statistics with propagations_from_learned_clauses :=
                    s.statistics.propagations_from_learned_clauses + 1 }
              else s.statistics,
            number_unassigned_variables := s.number_unassigned_variables - 1,
            variable_in_scope := s.variable_in_scope.erase index,
            assignment_stack :=
              .Assignment { assignment_kind := kind, decision_level := s.decision_level,
                            variable_index := index, variable_sign := sign }
                :: s.assignment_stack,
            assignments := listSet s.assignments index (some (index, sign)) }
        match (s1.pseudo_boolean_formula.constraints_by_variable[index]?) with
        | none => none
        | some cis =>
          match Solver.propagate_constraints index sign kind s1 queue cis with
          | none => none
          | some (.inl (conflict, s2)) => some (some conflict, s2)
          | some (.inr (s2, queue2)) =>
            match (s2.learned_clauses_by_variables[index]?) with
            | none => none
            | some lcis =>
              match Solver.propagate_learned index sign kind s2 queue2 lcis with
              | none => none
              | some (.inl (conflict, s3)) => some (some conflict, s3)
              | some (.inr (s3, queue3)) => Solver.propagate_loop s3 queue3 fuel

/-- `Solver::propagate`. -/
def Solver.propagate (s : Solver) (variable_index : Nat) (variable_sign : Bool)
    (assignment_kind : AssignmentKind) (fuel : Nat) :
    Option (Option ConstraintIndex × Solver) :=
  Solver.propagate_loop s [(variable_index, variable_sign, assignment_kind, false)] fuel

/-- The constraint loop of `Solver::undo_last_assignment`: undo in each
incident constraint, re-adding it to the unsat count and scope when the
undo reports a satisfied-to-active transition. -/
def Solver.undo_in_constraints (la : VariableAssignment) :
    Solver → List Nat → Option Solver
  | s, [] => some s
  | s, ci :: rest =>
    match (s.pseudo_boolean_formula.constraints[ci]?) with
    | none => none
    | some c =>
      let r := c.undo la.variable_index la.variable_sign
      let s1 : Solver :=
        { s with pseudo_boolean_formula :=
            { s.pseudo_boolean_formula with
              constraints := listSet s.pseudo_boolean_formula.constraints ci r.2 } }
      let s2 : Solver :=
        if r.1 then
          { s1 with number_unsat_constraints := s1.number_unsat_constraints + 1,
                    constraint_indexes_in_scope := s1.constraint_indexes_in_scope.insert ci }
        else s1
      Solver.undo_in_constraints la s2 rest

/-- The learned-clause loop of `Solver::undo_last_assignment` (the returned
flag is ignored there). -/
def Solver.undo_in_learned (la : VariableAssignment) :
    Solver → List Nat → Option Solver
  | s, [] => some s
  | s, ci :: rest =>
    match (s.learned_clauses[ci]?) with
    | none => none
    | some c =>
      Solver.undo_in_learned la
        { s with learned_clauses :=
            listSet s.learned_clauses ci (c.undo la.variable_index la.variable_sign).2 }
        rest

/-- `Solver::undo_last_assignment`: pops the stack unconditionally; only an
`Assignment` top element is undone (a popped `ComponentBranch` is dropped,
mirroring the Rust `if let` around the popped value). -/
def Solver.undo_last_assignment (s : Solver) : Option Solver :=
  match s.assignment_stack with
  | [] => none
  | .ComponentBranch _ :: rest => some { s with assignment_stack := rest }
  | .Assignment la :: rest =>
    let s1 : Solver :=
      { s with assignment_stack := rest,
               assignments := listSet s.assignments la.variable_index none,
               number_unassigned_variables := s.number_unassigned_variables + 1,
               variable_in_scope := s.variable_in_scope.insert la.variable_index }
    match (s1.pseudo_boolean_formula.constraints_by_variable[la.variable_index]?) with
    | none => none
    | some cis =>
      match Solver.undo_in_constraints la s1 cis with
      | none => none
      | some s2 =>
        match (s2.learned_clauses_by_variables[la.variable_index]?) with
        | none => none
        | some lcis => Solver.undo_in_learned la s2 lcis

/-- The fold body of the `next_variables` maximum search in
`Solver::get_next_variable`, including the `panic!("test")` on a negative
DLCS score (`none`); the accumulator is `(max_index, max_value)`. -/
def Solver.gnv_fold (s : Solver) (acc : Option (Option Nat × Option Rat)) (k : Nat) :
    Option (Option Nat × Option Rat) :=
  match acc with
  | none => none
  | some (mi, mv) =>
    match (s.dlcs_scores[k]?) with
    | none => none
    | some d =>
      if d < 0 then none
      else
        match (s.vsids_scores[k]?) with
        | none => none
        | some v =>
          match mv with
          | none => some (some k, some v)
          | some value => if v > value then some (some k, some v) else some (mi, mv)

/-- The fold body of the fallback scan of `Solver::get_next_variable`:
over every unsatisfied constraint's unassigned literals still in scope,
keep the first index with the strictly largest VSIDS score. -/
def Solver.gnv_base_fold (s : Solver) (acc : Option (Option Nat × Option Rat))
    (c : Constraint) : Option (Option Nat × Option Rat) :=
  if c.is_unsatisfied then
    c.unassigned_literals.entries.foldl
      (fun a p =>
        match a with
        | none => none
        | some (mi, mv) =>
          if s.variable_in_scope.contains p.2.index then
            match (s.vsids_scores[p.2.index]?) with
            | none => none
            | some v =>
              match mv with
              | none => some (some p.2.index, some v)
              | some value => if v > value then some (some p.2.index, some v) else some (mi, mv)
          else a)
      acc
  else acc

/-- The fallback scan of `Solver::get_next_variable` over all constraints. -/
def Solver.gnv_base (s : Solver) : Option (Option Nat × Solver) :=
  match s.pseudo_boolean_formula.constraints.foldl (Solver.gnv_base_fold s)
      (some (none, none)) with
  | none => none
  | some (mi, _) => some (mi, s)

/-- `Solver::get_next_variable` (the commented-out score rescaling is
absent, as in the source). -/
def Solver.get_next_variable (s : Solver) : Option (Option Nat × Solver) :=
  if s.next_variables.length = 1 then
    some (s.next_variables.getLast?, { s with next_variables := s.next_variables.dropLast })
  else if s.next_variables.length > 0 then
    match s.next_variables.foldl (Solver.gnv_fold s) (some (none, none)) with
    | none => none
    | some (some mi, _) => some (some mi, s)
    | some (none, _) => Solver.gnv_base { s with next_variables := [] }
  else Solver.gnv_base s

/-- `Solver::decide`. -/
def Solver.decide (s : Solver) : Option (Option (Nat × Bool) × Solver) :=
  if s.number_unassigned_variables = 0 then some (none, s)
  else
    match s.get_next_variable with
    | none => none
    | some (none, s1) => some (none, s1)
    | some (some vi, s1) =>
      some (some (vi, true), { s1 with decision_level := s1.decision_level + 1 })

/-- The classification pass of `Solver::simplify` over all constraints:
`false` is the early `return false` on a violated constraint; otherwise the
collected propagation set is returned with the adjusted solver. -/
def Solver.simplify_scan : Solver → List Constraint →
    List (Nat × Bool × ConstraintIndex) →
    Bool × Solver × List (Nat × Bool × ConstraintIndex)
  | s, [], pset => (true, s, pset)
  | s, c :: rest, pset =>
    match c.simplify with
    | .Satisfied =>
      let s1 : Solver :=
        { s with number_unsat_constraints := s.number_unsat_constraints - 1 }
      let s2 : Solver :=
        match c.index with
        | .NormalConstraintIndex i =>
          { s1 with constraint_indexes_in_scope := s1.constraint_indexes_in_scope.erase i }
        | _ => s1
      Solver.simplify_scan s2 rest pset
    | .Unsatisfied => (false, s, pset)
    | .ImpliedLiteral l => Solver.simplify_scan s rest (pset ++ [(l.index, l.positive, c.index)])
    | .ImpliedLiteralList ls =>
      Solver.simplify_scan s rest
        (pset ++ ls.map (fun l => (l.index, l.positive, c.index)))
    | _ => Solver.simplify_scan s rest pset

/-- The propagation pass of `Solver::simplify`: `false` on the first
conflict. -/
def Solver.simplify_propagate : Solver → List (Nat × Bool × ConstraintIndex) → Nat →
    Option (Bool × Solver)
  | s, [], _ => some (true, s)
  | s, (i, sign, ci) :: rest, fuel =>
    match s.propagate i sign (.Propagated ci) fuel with
    | none => none
    | some (some _, s1) => some (false, s1)
    | some (none, s1) => Solver.simplify_propagate s1 rest fuel

/-- `Solver::simplify`. -/
def Solver.simplify (s : Solver) (fuel : Nat) : Option (Bool × Solver) :=
  match Solver.simplify_scan s s.pseudo_boolean_formula.constraints [] with
  | (false, s1, _) => some (false, s1)
  | (true, s1, pset) => Solver.simplify_propagate s1 pset fuel

/-- `Hypergraph` (hypergraph.rs). -/
structure Hypergraph where
  pins : List Nat
  x_pins : List Nat
  variable_index_map : List Nat
  variable_index_map_reverse : SMap Nat
  current_variable_index : Nat
  constraint_index_map : List Nat
  constraint_index_map_reverse : SMap Nat
  current_constraint_index : Nat
  single_variables : NSet
deriving DecidableEq, Repr

/-- The inner collection loop of `Hypergraph::new`: the normal-constraint
indices of the unsatisfied constraints incident to one variable. -/
def Solver.hg_tmp_constraints (s : Solver) : List Nat → Option (List Nat)
  | [] => some []
  | ci :: rest =>
    match (s.pseudo_boolean_formula.constraints[ci]?) with
    | none => none
    | some c =>
      match Solver.hg_tmp_constraints s rest with
      | none => none
      | some tl =>
        if c.is_unsatisfied then
          match c.index with
          | .NormalConstraintIndex i => some (i :: tl)
          | _ => some tl
        else some tl

/-- The `for constraint_index in tmp_constraint_indexes` loop of
`Hypergraph::new`: map each constraint index to a hypergraph vertex
(allocating one on first sight) and record the pin. -/
def hg_add_constraints (hg : Hypergraph) : List Nat → Hypergraph
  | [] => hg
  | ci :: rest =>
    match hg.constraint_index_map_reverse.find? ci with
    | some v => hg_add_constraints { hg with pins := hg.pins ++ [v] } rest
    | none =>
      hg_add_constraints
        { hg with
          constraint_index_map := hg.constraint_index_map ++ [ci],
          constraint_index_map_reverse :=
            hg.constraint_index_map_reverse.insert ci hg.current_constraint_index,
          current_constraint_index := hg.current_constraint_index + 1,
          pins := hg.pins ++ [hg.current_constraint_index] }
        rest

/-- The outer loop of `Hypergraph::new` over the in-scope variables: an
unassigned variable with incident active constraints becomes a net; one
without goes to `single_variables`. -/
def Solver.hg_scan_variables (s : Solver) : Hypergraph → List Nat → Option Hypergraph
  | hg, [] => some hg
  | hg, v :: rest =>
    match (s.assignments[v]?) with
    | none => none
    | some (some _) => Solver.hg_scan_variables s hg rest
    | some none =>
      match (s.pseudo_boolean_formula.constraints_by_variable[v]?) with
      | none => none
      | some cis =>
        match Solver.hg_tmp_constraints s cis with
        | none => none
        | some tmp =>
          if tmp.length > 0 then
            let hg1 : Hypergraph :=
              { hg with
                variable_index_map := hg.variable_index_map ++ [v],
                variable_index_map_reverse :=
                  hg.variable_index_map_reverse.insert v hg.current_variable_index,
                current_variable_index := hg.current_variable_index + 1 }
            let hg2 := hg_add_constraints hg1 tmp
            Solver.hg_scan_variables s
              { hg2 with x_pins := hg2.x_pins ++ [hg2.pins.length] } rest
          else
            Solver.hg_scan_variables s
              { hg with single_variables := hg.single_variables.insert v } rest

/-- `Hypergraph::new`. -/
def Hypergraph.new (s : Solver) : Option Hypergraph :=
  Solver.hg_scan_variables s
    { pins := [], x_pins := [0], variable_index_map := [],
      variable_index_map_reverse := SMap.empty, current_variable_index := 0,
      constraint_index_map := [], constraint_index_map_reverse := SMap.empty,
      current_constraint_index := 0, single_variables := NSet.empty }
    s.variable_in_scope.toList

/-- Push `pins[lo], pins[lo+1], …` (`count` of them) onto the visit stack,
as the `for i in x_pins[h]..x_pins[h+1]` loop of
`Hypergraph::find_disconnected_components` does. -/
def fdc_push_range (pins : List Nat) : Nat → Nat → List Nat → Option (List Nat)
  | _, 0, acc => some acc
  | lo, n + 1, acc =>
    match (pins[lo]?) with
    | none => none
    | some p => fdc_push_range pins (lo + 1) n (acc ++ [p])

/-- Push all hypergraph neighbours of a visited constraint vertex: for each
unassigned literal of the constraint, all pins of that variable's net. -/
def fdc_neighbors (hg : Hypergraph) (c : Constraint) (to_visit : List Nat) :
    Option (List Nat) :=
  c.unassigned_literals.entries.foldl
    (fun acc p =>
      match acc with
      | none => none
      | some tv =>
        match hg.variable_index_map_reverse.find? p.1 with
        | none => none
        | some hgi =>
          match (hg.x_pins[hgi]?), (hg.x_pins[hgi + 1]?) with
          | some lo, some hi => fdc_push_range hg.pins lo (hi - lo) tv
          | _, _ => none)
    (some to_visit)

/-- Scan `partvec` from `last_visited` for the first unlabelled vertex (the
`for i in last_visited..partvec.len()` seed search). -/
def fdc_scan (partvec : List (Option Nat)) : Nat → Nat → Option Nat
  | _, 0 => none
  | lv, n + 1 =>
    match (partvec[lv]?) with
    | some none => some lv
    | _ => fdc_scan partvec (lv + 1) n

/-- The `loop` of `Hypergraph::find_disconnected_components`.  State:
`(partvec, number_visited, last_visited, current_partition_label,
to_visit)`; the visit stack is a Rust `Vec` popped at the end.  When the
seed search finds nothing the Rust loop spins forever, modelled by
recursing on an empty stack until the fuel runs out. -/
def fdc_loop (hg : Hypergraph) (s : Solver) :
    List (Option Nat) → Nat → Nat → Nat → List Nat → Nat → Option (Option (List Nat))
  | _, _, _, _, _, 0 => none
  | partvec, nv, lv, label, to_visit, fuel + 1 =>
    match to_visit.getLast? with
    | some ci =>
      let tv := to_visit.dropLast
      match (partvec[ci]?) with
      | none => none
      | some (some _) => fdc_loop hg s partvec nv lv label tv fuel
      | some none =>
        let partvec1 := listSet partvec ci (some label)
        match (hg.constraint_index_map[ci]?) with
        | none => none
        | some cio =>
          match (s.pseudo_boolean_formula.constraints[cio]?) with
          | none => none
          | some c =>
            match fdc_neighbors hg c tv with
            | none => none
            | some tv2 => fdc_loop hg s partvec1 (nv + 1) lv label tv2 fuel
    | none =>
      if nv = partvec.length then
        match partvec.mapM id with
        | none => none
        | some final =>
          if label = 0 ∧ hg.single_variables.size = 0 then some none
          else some (some final)
      else
        match fdc_scan partvec lv (partvec.length - lv) with
        | none => fdc_loop hg s partvec nv lv label [] fuel
        | some i => fdc_loop hg s partvec nv i (label + 1) [i] fuel

/-- `Hypergraph::find_disconnected_components`: `some none` is the Rust
`None` (no usable partition), `some (some partvec)` a found partition. -/
def Hypergraph.find_disconnected_components (hg : Hypergraph) (s : Solver)
    (fuel : Nat) : Option (Option (List Nat)) :=
  if hg.current_constraint_index ≤ 1 then some none
  else fdc_loop hg s (List.replicate hg.current_constraint_index none) 0 0 0 [0] fuel

/-- `Hypergraph::get_variables_for_cut`, with the external partitioner as
an oracle parameter (see `PartitionOracle`). -/
def Hypergraph.get_variables_for_cut (hg : Hypergraph) (oracle : PartitionOracle) :
    Option (List Nat) :=
  if hg.current_constraint_index ≤ 1 ∨ hg.current_variable_index ≤ 1 then some []
  else
    (oracle hg.current_constraint_index hg.current_variable_index hg.pins hg.x_pins).mapM
      (fun e => hg.variable_index_map[e]?)

/-- The unassigned-literal loop of `Hypergraph::create_partition`: add each
variable to the component once, counting it. -/
def cp_add_vars (comp : Component) : List (Nat × Literal) → Component
  | [] => comp
  | p :: rest =>
    if comp.vars.contains p.1 then cp_add_vars comp rest
    else
      cp_add_vars
        { comp with number_unassigned_variables := comp.number_unassigned_variables + 1,
                    vars := comp.vars.insert p.1 }
        rest

/-- The `partvec.iter().enumerate()` loop of `Hypergraph::create_partition`:
fold each constraint vertex into its partition's component. -/
def cp_loop (hg : Hypergraph) (s : Solver) :
    List Component → List (Nat × Nat) → Option (List Component)
  | comps, [] => some comps
  | comps, (index, pnum) :: rest =>
    match (hg.constraint_index_map[index]?) with
    | none => none
    | some ci =>
      match (comps[pnum]?) with
      | none => none
      | some comp =>
        match (s.pseudo_boolean_formula.constraints[ci]?) with
        | none => none
        | some c =>
          if c.is_unsatisfied then
            let comp1 : Component :=
              { comp with number_unsat_constraints := comp.number_unsat_constraints + 1,
                          constraint_indexes_in_scope :=
                            comp.constraint_indexes_in_scope.insert ci }
            let comp2 := cp_add_vars comp1 c.unassigned_literals.entries
            cp_loop hg s (listSet comps pnum comp2) rest
          else cp_loop hg s comps rest

/-- `Hypergraph::create_partition`: one component per partition label, plus
one shared extra component holding all `single_variables` when there are
any. -/
def Hypergraph.create_partition (hg : Hypergraph) (s : Solver) (partvec : List Nat) :
    Option ComponentBasedFormula :=
  let number_partitions := (partvec.foldl (fun acc p => if p > acc then p else acc) 0) + 1
  let comps0 : List Component :=
    List.replicate number_partitions
      { vars := NSet.empty, number_unassigned_variables := 0,
        number_unsat_constraints := 0, constraint_indexes_in_scope := NSet.empty }
  match cp_loop hg s comps0 partvec.enum with
  | none => none
  | some comps =>
    let comps2 : List Component :=
      if hg.single_variables.size > 0 then
        comps ++ [{ vars := hg.single_variables,
                    number_unsat_constraints := 0,
                    number_unassigned_variables := hg.single_variables.size,
                    constraint_indexes_in_scope := NSet.empty }]
      else comps
    some { components := comps2, current_component := 0,
           previous_number_unsat_constraints := s.number_unsat_constraints,
           previous_number_unassigned_variables := s.number_unassigned_variables,
           previous_variables_in_scope := s.variable_in_scope,
           previous_constraint_indexes_in_scope := s.constraint_indexes_in_scope }

/-- The `next_variables` retain-filter at the top of
`Solver::to_disconnected_components` (keep unassigned in-scope variables;
`none` on an out-of-bounds `assignments` access). -/
def Solver.tdc_filter (s : Solver) : List Nat → Option (List Nat)
  | [] => some []
  | x :: rest =>
    match (s.assignments[x]?) with
    | none => none
    | some a =>
      match Solver.tdc_filter s rest with
      | none => none
      | some tl =>
        if a.isNone && s.variable_in_scope.contains x then some (x :: tl) else some tl

/-- `Solver::to_disconnected_components`. -/
def Solver.to_disconnected_components (oracle : PartitionOracle) (s : Solver)
    (fuel : Nat) : Option (Option ComponentBasedFormula × Solver) :=
  match Solver.tdc_filter s s.next_variables with
  | none => none
  | some nv =>
    let s1 : Solver := { s with next_variables := nv }
    if s1.number_unsat_constraints > 1 then
      match Hypergraph.new s1 with
      | none => none
      | some hg =>
        match hg.find_disconnected_components s1 fuel with
        | none => none
        | some (some partvec) =>
          match hg.create_partition s1 partvec with
          | none => none
          | some cbf => some (some cbf, s1)
        | some none =>
          if s1.next_variables.isEmpty then
            match hg.get_variables_for_cut oracle with
            | none => none
            | some nv2 => some (none, { s1 with next_variables := s1.next_variables ++ nv2 })
          else some (none, s1)
    else some (none, s1)

/-- `Solver::branch_components`: on a found decomposition, install the
first component's scope and push the `ComponentBranch` frame. -/
def Solver.branch_components (oracle : PartitionOracle) (s : Solver) (fuel : Nat) :
    Option (Bool × Solver) :=
  match Solver.to_disconnected_components oracle s fuel with
  | none => none
  | some (none, s1) => some (false, s1)
  | some (some cbf, s1) =>
    match (cbf.components[0]?) with
    | none => none
    | some comp0 =>
      some (true,
        { s1 with
          number_unsat_constraints := comp0.number_unsat_constraints,
          number_unassigned_variables := comp0.number_unassigned_variables,
          variable_in_scope := comp0.vars,
          constraint_indexes_in_scope := comp0.constraint_indexes_in_scope,
          assignment_stack := .ComponentBranch cbf :: s1.assignment_stack })

/-- One reason-set entry of `Solver::analyze`: `(kind, sign, decision_level)`. -/
abbrev AnEntry : Type := AssignmentKind × Bool × Nat

/-- The initial fold of `Solver::analyze` over the conflicting constraint's
assignment map: split into propagated/decision reason sets, counting
current-level propagated reasons and flagging a current-level decision. -/
def an_init (dl : Nat)
    (acc : List (Option AnEntry) × List (Option AnEntry) × Nat × Bool)
    (p : Nat × AnEntry) :
    List (Option AnEntry) × List (Option AnEntry) × Nat × Bool :=
  let (rp, rd, npr, dnf) := acc
  match p.2.1 with
  | .Propagated _ =>
    (listSet rp p.1 (some p.2), rd, if dl = p.2.2.2 then npr + 1 else npr, dnf)
  | _ =>
    (rp, listSet rd p.1 (some p.2), npr, dnf || decide (dl = p.2.2.2))

/-- The `for (index, …) in new_reasons` fold inside the analyze loop.
`seen` is the state before the current variable is marked seen (Rust marks
it only after this fold). -/
def an_reasons (dl : Nat) (seen : List Bool)
    (acc : List (Option AnEntry) × List (Option AnEntry) × Nat × Bool)
    (p : Nat × AnEntry) :
    Option (List (Option AnEntry) × List (Option AnEntry) × Nat × Bool) :=
  let (rp, rd, npr, dnf) := acc
  match p.2.1 with
  | .Propagated _ =>
    match (seen[p.1]?) with
    | none => none
    | some sb =>
      if sb then some acc
      else if dl = p.2.2.2 then
        match (rp[p.1]?) with
        | none => none
        | some cur =>
          some (listSet rp p.1 (some p.2), rd, if cur = none then npr + 1 else npr, dnf)
      else some (listSet rp p.1 (some p.2), rd, npr, dnf)
  | _ => some (rp, listSet rd p.1 (some p.2), npr, dnf || decide (dl = p.2.2.2))

/-- The `while` loop of `Solver::analyze`.  `entry` is the stack element
fetched at the end of the previous iteration (Rust fetches the next entry
eagerly, panicking even when the loop is about to exit); `counter` is the
1-based distance of `entry` from the top of the assignment stack. -/
def Solver.an_loop (s : Solver) :
    AssignmentStackEntry → List (Option AnEntry) → List (Option AnEntry) →
    List Bool → Nat → Nat → Bool → Nat →
    Option (List (Option AnEntry) × List (Option AnEntry))
  | _, _, _, _, _, _, _, 0 => none
  | entry, rp, rd, seen, counter, npr, dnf, fuel + 1 =>
    if npr > 1 ∨ (dnf ∧ npr > 0) then
      match entry with
      | .ComponentBranch _ => none
      | .Assignment a =>
        let nvi := a.variable_index
        match (seen[nvi]?), (rp[nvi]?) with
        | some sb, some cur =>
          if !sb ∧ cur ≠ none then
            match a.assignment_kind with
            | .Propagated nci =>
              let rp1 := listSet rp nvi none
              let npr1 := npr - 1
              match ((match nci with
                     | .NormalConstraintIndex i =>
                       (s.pseudo_boolean_formula.constraints[i]?).map
                         (fun c => c.calculate_reason nvi)
                     | .LearnedClauseIndex i =>
                       (s.learned_clauses[i]?).map
                         (fun c => c.calculate_reason nvi)) :
                    Option (SMap AnEntry)) with
              | none => none
              | some new_reasons =>
                match new_reasons.entries.foldl
                    (fun acc p => acc.bind (fun st => an_reasons s.decision_level seen st p))
                    (some (rp1, rd, npr1, dnf)) with
                | none => none
                | some (rp2, rd2, npr2, dnf2) =>
                  match (s.assignment_stack[counter]?) with
                  | none => none
                  | some e2 =>
                    Solver.an_loop s e2 rp2 rd2 (listSet seen nvi true)
                      (counter + 1) npr2 dnf2 fuel
            | _ => none
          else
            match (s.assignment_stack[counter]?) with
            | none => none
            | some e2 =>
              Solver.an_loop s e2 rp rd (listSet seen nvi true) (counter + 1) npr dnf fuel
        | _, _ => none
    else some (rp, rd)

/-- The constraint-building folds at the end of `Solver::analyze`: one
unit-factor literal per surviving reason entry, with the polarity opposite
the recorded sign, and the reason entry itself in `assignments`. -/
def an_build_fold (acc : Constraint) (p : Nat × Option AnEntry) : Constraint :=
  match p.2 with
  | none => acc
  | some (kind, sign, dl) =>
    { acc with
      literals := acc.literals.insert p.1 { index := p.1, positive := !sign, factor := 1 },
      assignments := acc.assignments.insert p.1 (sign, kind, dl),
      factor_sum := acc.factor_sum + 1 }

/-- The VSIDS bump over the learned constraint's literals (`degree -
sum_true` is `1` for every constraint built here, so the `f64` quotient is
exact). -/
def an_vsids_fold (c : Constraint) (scores : Option (List Rat)) (p : Nat × Literal) :
    Option (List Rat) :=
  match scores with
  | none => none
  | some sc =>
    match (sc[p.2.index]?) with
    | none => none
    | some tmp =>
      some (listSet sc p.2.index
        (tmp + (p.2.factor : Rat) / ((c.degree - (c.sum_true : Int)) : Rat)))

/-- `Solver::analyze` (Rust returns `Option<Constraint>` but every path
yields `Some`; `none` here models only panics and fuel exhaustion). -/
def Solver.analyze (s : Solver) (conflicting_variable_indexes : SMap AnEntry)
    (fuel : Nat) : Option (Constraint × Solver) :=
  let n := s.pseudo_boolean_formula.number_variables
  match conflicting_variable_indexes.entries.foldl (an_init s.decision_level)
      (List.replicate n none, List.replicate n none, 0, false) with
  | (rp0, rd0, npr0, dnf0) =>
    match (s.assignment_stack[0]?) with
    | none => none
    | some e0 =>
      match Solver.an_loop s e0 rp0 rd0 (List.replicate n false) 1 npr0 dnf0 fuel with
      | none => none
      | some (rp, rd) =>
        let c0 : Constraint :=
          { assignments := SMap.empty,
            index := .LearnedClauseIndex s.learned_clauses.length,
            unassigned_literals := SMap.empty, literals := SMap.empty,
            sum_true := 0, sum_unassigned := 0, degree := 1, factor_sum := 0,
            hash_value := 0, hash_value_old := true,
            constraint_type := .GreaterEqual,
            max_literal := { index := 0, factor := 0, positive := false } }
        let c1 := rp.enum.foldl an_build_fold c0
        let c2 := rd.enum.foldl an_build_fold c1
        match c2.literals.entries.foldl (an_vsids_fold c2) (some s.vsids_scores) with
        | none => none
        | some scores =>
          some ({ c2 with max_literal := c2.get_max_literal },
                { s with vsids_scores := scores })

/-- `Solver::safe_conflict_clause`. -/
def Solver.safe_conflict_clause (s : Solver) (constraint_index : ConstraintIndex)
    (fuel : Nat) : Option Solver :=
  match (match constraint_index with
         | .NormalConstraintIndex i => s.pseudo_boolean_formula.constraints[i]?
         | .LearnedClauseIndex i => s.learned_clauses[i]?) with
  | none => none
  | some constraint =>
    let variable_index : SMap AnEntry :=
      constraint.assignments.entries.foldl
        (fun m p => m.insert p.1 (p.2.2.1, p.2.1, p.2.2.2)) SMap.empty
    match s.analyze variable_index fuel with
    | none => none
    | some (learned_constraint, s1) =>
      match learned_constraint.index with
      | .LearnedClauseIndex ci =>
        match learned_constraint.assignments.entries.foldlM
            (fun lbv p => pushAt lbv p.1 ci) s1.learned_clauses_by_variables with
        | none => none
        | some lbv =>
          some { s1 with learned_clauses_by_variables := lbv,
                         learned_clauses := s1.learned_clauses ++ [learned_constraint] }
      | _ => some s1

/-- The outcome of one iteration of the `loop` in `Solver::backtrack`:
`done b s` is a `return b`, `next s` falls through to the next iteration. -/
inductive BtStep where
  | done (b : Bool) (s : Solver)
  | next (s : Solver)

/-- The done-case pop loop of the `ComponentBranch` arm of
`Solver::backtrack`: pop `n` results and nodes, multiplying the counts and
collecting the children in pop order (flagging a `FalseLeave` child). -/
def bt_pop_components : Nat → Nat → List DDNNFNode → Bool → List Nat → List DDNNFNode →
    Option (Nat × List DDNNFNode × Bool × List Nat × List DDNNFNode)
  | 0, acc, children, zf, rs, dd => some (acc, children, zf, rs, dd)
  | n + 1, acc, children, zf, rs, dd =>
    match rs, dd with
    | r :: rs1, d :: dd1 =>
      bt_pop_components n (acc * r) (children ++ [d]) (zf || d.isFalse) rs1 dd1
    | _, _ => none

/-- The decision-level-0 arm of `Solver::backtrack` after the `FalseLeave`
early return: extend an `AndNode` with the undone literal (collapsing to
`FalseLeave` when a child is already false) or wrap any other node with it. -/
def bt_dl0_node (la : VariableAssignment) (s1 : Solver) (node : DDNNFNode) : Solver :=
  match node with
  | .AndNode child_list _ =>
    if child_list.any DDNNFNode.isFalse then
      { s1 with ddnnf_stack := .FalseLeave :: s1.ddnnf_stack }
    else
      let (nid, sa) := s1.get_unique_id
      { sa with ddnnf_stack :=
          .AndNode (child_list ++
              [.LiteralLeave ⟨la.variable_index, la.variable_sign⟩]) nid
            :: sa.ddnnf_stack }
  | _ =>
    let (nid, sa) := s1.get_unique_id
    { sa with ddnnf_stack :=
        .AndNode [node, .LiteralLeave ⟨la.variable_index, la.variable_sign⟩] nid
          :: sa.ddnnf_stack }

/-- The `Propagated` arm of `Solver::backtrack`: extend or wrap the popped
node with the undone literal (keeping `FalseLeave`, dropping a `TrueLeave`
operand). -/
def bt_prop_node (la : VariableAssignment) (s1 : Solver) (node : DDNNFNode) : Solver :=
  match node with
  | .AndNode child_list _ =>
    let (nid, sa) := s1.get_unique_id
    { sa with ddnnf_stack :=
        .AndNode (child_list ++
            [.LiteralLeave ⟨la.variable_index, la.variable_sign⟩]) nid
          :: sa.ddnnf_stack }
  | .FalseLeave => { s1 with ddnnf_stack := .FalseLeave :: s1.ddnnf_stack }
  | _ =>
    let children : List DDNNFNode := if node.isTrue then [] else [node]
    let (nid, sa) := s1.get_unique_id
    { sa with ddnnf_stack :=
        .AndNode (children ++
            [.LiteralLeave ⟨la.variable_index, la.variable_sign⟩]) nid
          :: sa.ddnnf_stack }

/-- The `d1` transformation of the `SecondDecision` arm (it consumes the
loop-top `node_id` and never touches the solver). -/
def bt_d1 (la : VariableAssignment) (node_id : Nat) (d1 : DDNNFNode) : DDNNFNode :=
  match d1 with
  | .TrueLeave => .LiteralLeave ⟨la.variable_index, la.variable_sign⟩
  | .FalseLeave => .FalseLeave
  | .AndNode child_list _ =>
    .AndNode (child_list ++
      [.LiteralLeave ⟨la.variable_index, la.variable_sign⟩]) node_id
  | other =>
    .AndNode [.LiteralLeave ⟨la.variable_index, la.variable_sign⟩, other] node_id

/-- The `d2` transformation of the `SecondDecision` arm (fresh ids for the
new `AndNode`s, the flipped literal). -/
def bt_d2 (la : VariableAssignment) (s : Solver) (d2 : DDNNFNode) : DDNNFNode × Solver :=
  match d2 with
  | .TrueLeave => (.LiteralLeave ⟨la.variable_index, !la.variable_sign⟩, s)
  | .FalseLeave => (.FalseLeave, s)
  | .AndNode child_list _ =>
    let (nid, sb) := s.get_unique_id
    (.AndNode (child_list ++
        [.LiteralLeave ⟨la.variable_index, !la.variable_sign⟩]) nid, sb)
  | other =>
    let (nid, sb) := s.get_unique_id
    (.AndNode [.LiteralLeave ⟨la.variable_index, !la.variable_sign⟩, other] nid, sb)

/-- The branch combination of the `SecondDecision` arm: drop false
branches, or build the `OrNode` over both. -/
def bt_or_res (s : Solver) (d1t d2t : DDNNFNode) : DDNNFNode × Solver :=
  if d1t.isFalse && d2t.isFalse then (.FalseLeave, s)
  else if d2t.isFalse then (d1t, s)
  else if d1t.isFalse then (d2t, s)
  else
    let (nid, sb) := s.get_unique_id
    (.OrNode [d1t, d2t] nid, sb)

/-- The body of one iteration of the `loop` in `Solver::backtrack`, after
the iteration's `get_unique_id` call: `node_id` is the drawn id, `s` the
solver with the id counter already advanced (`fuel` is handed to the
nested `propagate`/`safe_conflict_clause` calls). -/
def Solver.backtrack_core (node_id : Nat) (s : Solver) (fuel : Nat) : Option BtStep :=
  match s.assignment_stack.head? with
  | none => some (.done false s)
  | some (.Assignment la) =>
    if la.decision_level = 0 then
      match s.ddnnf_stack with
      | [] => none
      | node :: dd =>
        let s1 : Solver := { s with ddnnf_stack := dd }
        if node.isFalse then
          some (.done false { s1 with ddnnf_stack := .FalseLeave :: s1.ddnnf_stack })
        else
          match (bt_dl0_node la s1 node).undo_last_assignment with
          | none => none
          | some s3 => some (.next s3)
    else
      match la.assignment_kind with
      | .Propagated _ =>
        match s.ddnnf_stack with
        | [] => none
        | node :: dd =>
          let s1 : Solver := { s with ddnnf_stack := dd }
          match (bt_prop_node la s1 node).undo_last_assignment with
          | none => none
          | some s3 => some (.next s3)
      | .FirstDecision =>
        let index := la.variable_index
        let sign := la.variable_sign
        match s.undo_last_assignment with
        | none => none
        | some s1 =>
          match s1.propagate index (!sign) .SecondDecision fuel with
          | none => none
          | some (none, s2) => some (.done true s2)
          | some (some ci, s2) =>
            match s2.safe_conflict_clause ci fuel with
            | none => none
            | some s3 =>
              some (.next { s3 with result_stack := 0 :: s3.result_stack,
                                    ddnnf_stack := .FalseLeave :: s3.ddnnf_stack })
      | .SecondDecision =>
        match s.result_stack with
        | r1 :: r2 :: rs =>
          let res := r1 + r2
          let s1 : Solver := { s with result_stack := res :: rs }
          match s1.ddnnf_stack with
          | [] => none
          | d1 :: dd1 =>
            let s2 : Solver := { s1 with ddnnf_stack := dd1 }
            let d1t := bt_d1 la node_id d1
            match s2.ddnnf_stack with
            | [] => none
            | d2 :: dd2 =>
              let s3 : Solver := { s2 with ddnnf_stack := dd2 }
              let d2s := bt_d2 la s3 d2
              let drs := bt_or_res d2s.2 d1t d2s.1
              let s4 : Solver :=
                { drs.2 with ddnnf_stack := drs.1 :: drs.2.ddnnf_stack,
                             next_variables := [],
                             decision_level := drs.2.decision_level - 1 }
              match s4.undo_last_assignment with
              | none => none
              | some s5 =>
                match s5.cache_insert res drs.1 with
                | none => none
                | some s6 => some (.next s6)
        | _ => none
  | some (.ComponentBranch lb) =>
    if lb.current_component = lb.components.length - 1 then
      match bt_pop_components lb.components.length 1 [] false s.result_stack s.ddnnf_stack with
      | none => none
      | some (branch_result, child_nodes, zero_flag, rs, dd) =>
        let node : DDNNFNode :=
          if zero_flag then .FalseLeave else .AndNode child_nodes node_id
        some (.next { s with
          ddnnf_stack := node :: dd,
          result_stack := branch_result :: rs,
          next_variables := [],
          number_unassigned_variables := lb.previous_number_unassigned_variables,
          number_unsat_constraints := lb.previous_number_unsat_constraints,
          variable_in_scope := lb.previous_variables_in_scope,
          constraint_indexes_in_scope := lb.previous_constraint_indexes_in_scope,
          assignment_stack := s.assignment_stack.tail })
    else
      match (lb.components[lb.current_component + 1]?) with
      | none => none
      | some comp =>
        some (.done true { s with
          number_unassigned_variables := comp.number_unassigned_variables,
          number_unsat_constraints := comp.number_unsat_constraints,
          variable_in_scope := comp.vars,
          constraint_indexes_in_scope := comp.constraint_indexes_in_scope,
          assignment_stack :=
            .ComponentBranch { lb with current_component := lb.current_component + 1 }
              :: s.assignment_stack.tail })

/-- One iteration of the `loop` in `Solver::backtrack`: draw the
iteration's unique id, then run the body. -/
def Solver.backtrack_step (s0 : Solver) (fuel : Nat) : Option BtStep :=
  let p := s0.get_unique_id
  Solver.backtrack_core p.1 p.2 fuel

/-- `Solver::backtrack`: iterate `backtrack_step` until it returns. -/
def Solver.backtrack : Solver → Nat → Option (Bool × Solver)
  | _, 0 => none
  | s, fuel + 1 =>
    match s.backtrack_step fuel with
    | none => none
    | some (.done b s1) => some (b, s1)
    | some (.next s1) => Solver.backtrack s1 fuel

/-- The `return SolverResult { … }` epilogue of `Solver::count` after a
failed backtrack: pop the final count and root node. -/
def Solver.count_finish (s : Solver) : Option SolverResult :=
  match s.result_stack, s.ddnnf_stack with
  | mc :: _, node :: _ =>
    some { model_count := mc,
           ddnnf := { root_node := node,
                      number_variables := s.pseudo_boolean_formula.number_variables } }
  | _, _ => none

/-- One iteration of the main `loop` of `Solver::count`: `.inl` is a
`return` with the final result, `.inr` the state entering the next
iteration. -/
def Solver.count_step (oracle : PartitionOracle) (s : Solver) (fuel : Nat) :
    Option (SolverResult ⊕ Solver) :=
  if s.number_unsat_constraints = 0 then
    let s1 : Solver :=
      { s with result_stack := 2 ^ s.number_unassigned_variables :: s.result_stack,
               ddnnf_stack := .TrueLeave :: s.ddnnf_stack,
               next_variables := [] }
    match s1.backtrack fuel with
    | none => none
    | some (false, s2) => (s2.count_finish).map Sum.inl
    | some (true, s2) => some (.inr s2)
  else
    match s.get_cached_result with
    | none => none
    | some (some (mc, node)) =>
      let s1 : Solver :=
        { s with ddnnf_stack := node :: s.ddnnf_stack,
                 result_stack := mc :: s.result_stack,
                 next_variables := [],
                 statistics := { s.statistics with
                   cache_hits := s.statistics.cache_hits + 1 } }
      match s1.backtrack fuel with
      | none => none
      | some (false, s2) => (s2.count_finish).map Sum.inl
      | some (true, s2) => some (.inr s2)
    | some none =>
      match s.branch_components oracle fuel with
      | none => none
      | some (true, s1) => some (.inr s1)
      | some (false, s1) =>
        match s1.decide with
        | none => none
        | some (none, s2) =>
          let s3 : Solver :=
            { s2 with result_stack := 0 :: s2.result_stack,
                      ddnnf_stack := .FalseLeave :: s2.ddnnf_stack,
                      next_variables := [] }
          match s3.backtrack fuel with
          | none => none
          | some (false, s4) => (s4.count_finish).map Sum.inl
          | some (true, s4) => some (.inr s4)
        | some (some (vi, vs), s2) =>
          match s2.propagate vi vs .FirstDecision fuel with
          | none => none
          | some (none, s3) => some (.inr s3)
          | some (some ci, s3) =>
            match s3.safe_conflict_clause ci fuel with
            | none => none
            | some s4 =>
              let s5 : Solver :=
                { s4 with result_stack := 0 :: s4.result_stack,
                          ddnnf_stack := .FalseLeave :: s4.ddnnf_stack,
                          next_variables := [] }
              match s5.backtrack fuel with
              | none => none
              | some (false, s6) => (s6.count_finish).map Sum.inl
              | some (true, s6) => some (.inr s6)

/-- The main `loop` of `Solver::count`. -/
def Solver.count_loop (oracle : PartitionOracle) : Solver → Nat → Option SolverResult
  | _, 0 => none
  | s, fuel + 1 =>
    match s.count_step oracle fuel with
    | none => none
    | some (.inl res) => some res
    | some (.inr s1) => Solver.count_loop oracle s1 fuel

/-- `Solver::count`. -/
def Solver.count (oracle : PartitionOracle) (s : Solver) (fuel : Nat) :
    Option SolverResult :=
  match s.simplify fuel with
  | none => none
  | some (false, s1) =>
    some { model_count := 0,
           ddnnf := { root_node := .FalseLeave,
                      number_variables := s1.pseudo_boolean_formula.number_variables } }
  | some (true, s1) => Solver.count_loop oracle s1 fuel

/-- `Solver::solve` (the wall-clock and learned-clause statistics updates
around `count` are bookkeeping on fields this model omits or does not
read). -/
def Solver.solve (oracle : PartitionOracle) (s : Solver) (fuel : Nat) :
    Option SolverResult :=
  s.count oracle fuel

/-- `DDNNFPrinter` (ddnnf.rs). -/
structure DDNNFPrinter where
  ddnnf : DDNNF
  true_sink_id : Option Nat
  false_sink_id : Option Nat
  current_node_id : Nat
  id_map : SMap Nat
  edge_counter : Nat
  node_counter : Nat

/-- One `format!("{}{} ", sign, id)` fragment of the printer. -/
def litStr (sign : Bool) (id : Nat) : String :=
  (if sign then "" else "-") ++ toString id ++ " "

/-- The implied-literal fragments appended to an edge line. -/
def impliedStr (ls : List (Nat × Bool)) : String :=
  ls.foldl (fun acc p => acc ++ litStr p.2 p.1) ""

/-- A pending unit of work of `DDNNFPrinter::print_node`: either a
recursive `print_node` call (`visit node parent_id implied`) or the inline
edge the `OrNode` arm prints for a `LiteralLeave` child (`orLit`). -/
inductive PrintJob where
  | visit (node : DDNNFNode) (parent_id : Nat) (implied : List (Nat × Bool))
  | orLit (or_id : Nat) (lit : DDNNFLiteral) (local_implied : List (Nat × Bool))

/-- `DDNNFPrinter::print_node`, as a worklist over `PrintJob`s: the
recursive calls become jobs processed depth-first in source order, so the
output string and printer state evolve exactly as in the recursion.  `none`
is the `panic!` on a free-standing `LiteralLeave` or fuel exhaustion. -/
def DDNNFPrinter.print_jobs : DDNNFPrinter → List PrintJob → Nat →
    Option (String × DDNNFPrinter)
  | p, [], _ => some ("", p)
  | _, _ :: _, 0 => none
  | p, job :: jobs, fuel + 1 =>
    match job with
    | .orLit or_id lit local_implied =>
      let ps : DDNNFPrinter × String :=
        if p.true_sink_id = none then
          let tid := p.current_node_id + 1
          ({ p with true_sink_id := some tid, current_node_id := tid,
                    node_counter := p.node_counter + 1 },
           "t " ++ toString tid ++ " 0\n")
        else (p, "")
      match ps.1.true_sink_id with
      | none => none
      | some ts =>
        (DDNNFPrinter.print_jobs ps.1 jobs fuel).map (fun r =>
          (ps.2 ++ toString or_id ++ " " ++ toString ts ++ " "
            ++ litStr lit.positive (lit.index + 1)
            ++ impliedStr local_implied ++ "0\n" ++ r.1, r.2))
    | .visit node parent_id implied_literals =>
      match node with
      | .TrueLeave =>
        let ps : DDNNFPrinter × String :=
          if p.true_sink_id = none then
            let tid := p.current_node_id + 1
            ({ p with true_sink_id := some tid, current_node_id := tid },
             "t " ++ toString tid ++ " 0\n")
          else (p, "")
        if parent_id > 0 then
          match ps.1.true_sink_id with
          | none => none
          | some ts =>
            (DDNNFPrinter.print_jobs
                { ps.1 with edge_counter := ps.1.edge_counter + 1,
                            node_counter := ps.1.node_counter + 1 } jobs fuel).map
              (fun r =>
                (ps.2 ++ toString parent_id ++ " " ++ toString ts ++ " "
                  ++ impliedStr implied_literals ++ "0\n" ++ r.1, r.2))
        else
          (DDNNFPrinter.print_jobs ps.1 jobs fuel).map (fun r => (ps.2 ++ r.1, r.2))
      | .FalseLeave =>
        let ps : DDNNFPrinter × String :=
          if p.false_sink_id = none then
            let fid := p.current_node_id + 1
            ({ p with false_sink_id := some fid, current_node_id := fid,
                      node_counter := p.node_counter + 1 },
             "f " ++ toString fid ++ " 0\n")
          else (p, "")
        if parent_id > 0 then
          match ps.1.false_sink_id with
          | none => none
          | some fs =>
            (DDNNFPrinter.print_jobs
                { ps.1 with edge_counter := ps.1.edge_counter + 1,
                            node_counter := ps.1.node_counter + 1 } jobs fuel).map
              (fun r =>
                (ps.2 ++ toString parent_id ++ " " ++ toString fs ++ " 0\n" ++ r.1, r.2))
        else
          (DDNNFPrinter.print_jobs ps.1 jobs fuel).map (fun r => (ps.2 ++ r.1, r.2))
      | .LiteralLeave _ => none
      | .AndNode child_list node_id =>
        match p.id_map.find? node_id with
        | some existing_id =>
          (DDNNFPrinter.print_jobs { p with edge_counter := p.edge_counter + 1 }
              jobs fuel).map
            (fun r =>
              (toString parent_id ++ " " ++ toString existing_id ++ " "
                ++ impliedStr implied_literals ++ "0\n" ++ r.1, r.2))
        | none =>
          let local_implied : List (Nat × Bool) :=
            child_list.foldl
              (fun acc c =>
                match c with
                | .LiteralLeave lit => acc ++ [(lit.index + 1, lit.positive)]
                | _ => acc) []
          let non_literal_count := child_list.countP (fun c => !c.isLiteral)
          if non_literal_count = 0 then
            let ps : DDNNFPrinter × String :=
              if p.true_sink_id = none then
                let tid := p.current_node_id + 1
                ({ p with true_sink_id := some tid, current_node_id := tid,
                          node_counter := p.node_counter + 1 },
                 "t " ++ toString tid ++ " 0\n")
              else (p, "")
            match ps.1.true_sink_id with
            | none => none
            | some ts =>
              if parent_id = 0 then
                let id := ps.1.current_node_id + 1
                let p2 : DDNNFPrinter :=
                  { ps.1 with current_node_id := id, id_map := ps.1.id_map.insert node_id id }
                (DDNNFPrinter.print_jobs p2 jobs fuel).map (fun r =>
                  (ps.2 ++ "a " ++ toString id ++ " 0\n" ++ toString id ++ " "
                    ++ toString ts ++ " " ++ impliedStr local_implied
                    ++ impliedStr implied_literals ++ "0\n" ++ r.1, r.2))
              else
                (DDNNFPrinter.print_jobs ps.1 jobs fuel).map (fun r =>
                  (ps.2 ++ toString parent_id ++ " " ++ toString ts ++ " "
                    ++ impliedStr local_implied ++ impliedStr implied_literals
                    ++ "0\n" ++ r.1, r.2))
          else if non_literal_count = 1 then
            let tps : Nat × DDNNFPrinter × String :=
              if parent_id = 0 then
                let id := p.current_node_id + 1
                (id, { p with current_node_id := id, id_map := p.id_map.insert node_id id },
                 "a " ++ toString id ++ " 0\n")
              else (parent_id, p, "")
            let child_jobs : List PrintJob :=
              (child_list.filter (fun c => !c.isLiteral)).map
                (fun c => .visit c tps.1 (implied_literals ++ local_implied))
            (DDNNFPrinter.print_jobs tps.2.1 (child_jobs ++ jobs) fuel).map
              (fun r => (tps.2.2 ++ r.1, r.2))
          else
            let id := p.current_node_id + 1
            let p1 : DDNNFPrinter :=
              { p with current_node_id := id, id_map := p.id_map.insert node_id id }
            let pre : String :=
              "a " ++ toString id ++ " 0\n" ++
                (if parent_id ≠ 0 then
                  toString parent_id ++ " " ++ toString id ++ " "
                    ++ impliedStr implied_literals ++ "0\n"
                 else "")
            let child_jobs : List PrintJob :=
              (child_list.filter (fun c => !c.isLiteral)).map
                (fun c => .visit c id local_implied)
            (DDNNFPrinter.print_jobs p1 (child_jobs ++ jobs) fuel).map
              (fun r => (pre ++ r.1, r.2))
      | .OrNode child_list node_id =>
        match p.id_map.find? node_id with
        | some existing_id =>
          (DDNNFPrinter.print_jobs { p with edge_counter := p.edge_counter + 1 }
              jobs fuel).map
            (fun r =>
              (toString parent_id ++ " " ++ toString existing_id ++ " "
                ++ impliedStr implied_literals ++ "0\n" ++ r.1, r.2))
        | none =>
          let id := p.current_node_id + 1
          let p1 : DDNNFPrinter :=
            { p with current_node_id := id, id_map := p.id_map.insert node_id id }
          let pre0 : String := "o " ++ toString id ++ " 0\n"
          let pls : String × List (Nat × Bool) :=
            if parent_id ≠ 0 then
              (pre0 ++ toString parent_id ++ " " ++ toString id ++ " "
                ++ impliedStr implied_literals ++ "0\n", [])
            else (pre0, implied_literals)
          let child_jobs : List PrintJob :=
            child_list.map
              (fun c =>
                match c with
                | .LiteralLeave lit => PrintJob.orLit id lit pls.2
                | other => PrintJob.visit other id pls.2)
          (DDNNFPrinter.print_jobs p1 (child_jobs ++ jobs) fuel).map
            (fun r => (pls.1 ++ r.1, r.2))

/-- `DDNNFPrinter::print` (the `println!` node-count line goes to the
console, not the returned string). -/
def DDNNFPrinter.print (p : DDNNFPrinter) (fuel : Nat) : Option (String × DDNNFPrinter) :=
  match p.ddnnf.root_node with
  | .FalseLeave =>
    some ("o 1 0\n" ++ "f 2 0\n" ++ "1 2 1 0\n",
          { p with node_counter := p.node_counter + 2 })
  | root => p.print_jobs [.visit root 0 []] fuel

/-- A fresh printer for a d-DNNF, as the callers construct it. -/
def DDNNFPrinter.new (d : DDNNF) : DDNNFPrinter :=
  { ddnnf := d, true_sink_id := none, false_sink_id := none, current_node_id := 0,
    id_map := SMap.empty, edge_counter := 0, node_counter := 0 }

/-! ## Specification predicates and propagation scripts -/

/-- Constraint well-formedness: the invariants established by
`PseudoBooleanFormula::new` and maintained by `propagate`/`undo`, phrased
over the entry lists so that every component is decidable. -/
structure Constraint.WF (c : Constraint) : Prop where
  sorted_literals : c.literals.Sorted
  sorted_unassigned : c.unassigned_literals.Sorted
  sorted_assignments : c.assignments.Sorted
  un_sub : ∀ p ∈ c.unassigned_literals.entries, c.literals.find? p.1 = some p.2
  as_sub : ∀ p ∈ c.assignments.entries, (c.literals.find? p.1).isSome = true
  partition_un : ∀ p ∈ c.literals.entries, c.assignments.find? p.1 = none →
    (c.unassigned_literals.find? p.1).isSome = true
  partition_as : ∀ p ∈ c.unassigned_literals.entries, c.assignments.find? p.1 = none
  sum_unassigned_eq :
    c.sum_unassigned = ((c.unassigned_literals.values.map Literal.factor)).sum

/-- Equality of all `Constraint` fields except the memoized hash fields
(`hash_value`, `hash_value_old`) and the cached `max_literal`. -/
def EqExceptMaxHash (c d : Constraint) : Prop :=
  c.index = d.index ∧ c.literals = d.literals ∧
  c.unassigned_literals = d.unassigned_literals ∧ c.degree = d.degree ∧
  c.sum_true = d.sum_true ∧ c.sum_unassigned = d.sum_unassigned ∧
  c.assignments = d.assignments ∧ c.factor_sum = d.factor_sum ∧
  c.constraint_type = d.constraint_type

/-- Equality of all `Constraint` fields except the memoized hash fields —
the "byte-for-byte excluding memoized hash" equivalence of claim C3 as
stated (it includes `max_literal`). -/
def EqExceptHash (c d : Constraint) : Prop :=
  EqExceptMaxHash c d ∧ c.max_literal = d.max_literal

/-- One entry of a propagation script: the literal handed to
`Constraint::propagate` together with its kind and decision level. -/
abbrev PropOp : Type := Literal × AssignmentKind × Nat

/-- Run a script of *successful* `Constraint::propagate` calls: each call
must actually perform an assignment, i.e. pass the two early-exit checks at
the top of `propagate` (variable not yet assigned in the constraint,
constraint not already satisfied); scripts with an early-exit call are
rejected (`none`). -/
def propagateSeq (c : Constraint) : List PropOp → Option Constraint
  | [] => some c
  | (l, k, dl) :: rest =>
    if c.assignments.contains l.index then none
    else if c.satisfied_now then none
    else
      match c.propagate l k dl with
      | none => none
      | some (_, c') => propagateSeq c' rest

/-- Undo the script's assignments in reverse order via `Constraint::undo`. -/
def undoSeq (c : Constraint) (ops : List PropOp) : Constraint :=
  ops.reverse.foldl (fun d p => (d.undo p.1.index p.1.positive).2) c

/-! ## Concrete fixtures for counterexamples and witnesses -/

/-- The `GreaterEqual` constraint `2·x0 + 2·x1 ≥ 3` in its freshly built
state (as `PseudoBooleanFormula::new` would build it). -/
def cTie : Constraint :=
  { index := .NormalConstraintIndex 0
    literals := [(0, ⟨0, 2, true⟩), (1, ⟨1, 2, true⟩)]
    unassigned_literals := [(0, ⟨0, 2, true⟩), (1, ⟨1, 2, true⟩)]
    degree := 3
    sum_true := 0
    sum_unassigned := 4
    assignments := []
    factor_sum := 4
    hash_value := 0
    hash_value_old := true
    constraint_type := .GreaterEqual
    max_literal := ⟨0, 2, true⟩ }

/-- The propagation step used against `cTie`: assign `x0 := true` as a first
decision at level 1 (the solver always passes `factor: 0` here). -/
def cTieOp : PropOp := (⟨0, 0, true⟩, .FirstDecision, 1)

/-- `cTie` after propagating `cTieOp`: `x0` moves to `assignments`,
`sum_true = 2`, `sum_unassigned = 2`, and `max_literal` is recomputed to the
remaining literal `x1`. -/
def cTieAfter : Constraint :=
  { index := .NormalConstraintIndex 0
    literals := [(0, ⟨0, 2, true⟩), (1, ⟨1, 2, true⟩)]
    unassigned_literals := [(1, ⟨1, 2, true⟩)]
    degree := 3
    sum_true := 2
    sum_unassigned := 2
    assignments := [(0, (true, .FirstDecision, 1))]
    factor_sum := 4
    hash_value := 0
    hash_value_old := true
    constraint_type := .GreaterEqual
    max_literal := ⟨1, 2, true⟩ }

/-- A `GreaterEqual` constraint `x0 + x1 ≥ 1` that is already satisfied by
the assignment `x0 := true`; used to exercise the `AlreadySatisfied` early
exit of `propagate`. -/
def cSatGE : Constraint :=
  { index := .NormalConstraintIndex 0
    literals := [(0, ⟨0, 1, true⟩), (1, ⟨1, 1, true⟩)]
    unassigned_literals := [(1, ⟨1, 1, true⟩)]
    degree := 1
    sum_true := 1
    sum_unassigned := 1
    assignments := [(0, (true, .FirstDecision, 1))]
    factor_sum := 2
    hash_value := 0
    hash_value_old := true
    constraint_type := .GreaterEqual
    max_literal := ⟨1, 1, true⟩ }

/-- Pointwise growth of `constraints_by_variable`: every recorded incidence
list only gains entries. -/
def cbv_le (a b : List (List Nat)) : Prop :=
  ∀ (v : Nat) (l : List Nat), a[v]? = some l →
    ∃ l' : List Nat, b[v]? = some l' ∧ l ⊆ l'

/-- A one-equation OPB file `1 x1 >= -1;` whose right-hand side stays
negative after normalization, exercising the degree clamp of
`PseudoBooleanFormula::new`. -/
def exNegFile : OPBFile :=
  { name_map := [("x1", 0)]
    equations := [{ lhs := [{ variable_index := 0, factor := 1, positive := true }],
                    rhs := -1, kind := .Ge }]
    max_name_index := 1
    number_constraints := 1
    number_variables := 1 }

/-- The formula `PseudoBooleanFormula::new` builds from `exNegFile`: one
trivially-true `GreaterEqual` constraint with clamped degree 0, kept with
its incidence for `x1`. -/
def exNegFormula : PseudoBooleanFormula :=
  { constraints :=
      [{ index := .NormalConstraintIndex 0
         literals := [(0, ⟨0, 1, true⟩)]
         unassigned_literals := [(0, ⟨0, 1, true⟩)]
         degree := 0
         sum_true := 0
         sum_unassigned := 1
         assignments := []
         factor_sum := 1
         hash_value := 0
         hash_value_old := true
         constraint_type := .GreaterEqual
         max_literal := ⟨0, 1, true⟩ }]
    number_variables := 1
    constraints_by_variable := [[0]]
    name_map := [("x1", 0)] }

/-- The shape invariant of the constraint `Solver::analyze` builds: a
`GreaterEqual` degree-1 constraint whose literal map has exactly one
unit-factor literal per recorded reason entry, with the polarity opposite
the recorded assigned sign. -/
def LearnedShape (c : Constraint) : Prop :=
  c.constraint_type = .GreaterEqual ∧ c.degree = 1 ∧
  (∀ k : Nat, (c.literals.find? k).isSome = (c.assignments.find? k).isSome) ∧
  (∀ (k : Nat) (e : Bool × AssignmentKind × Nat), c.assignments.find? k = some e →
    c.literals.find? k = some { index := k, factor := 1, positive := !e.1 })

/-- The stack-parity invariant of claim C9: the model-count stack and the
d-DNNF stack are equally deep. -/
def StacksBalanced (s : Solver) : Prop :=
  s.result_stack.length = s.ddnnf_stack.length

/-- A partition oracle that always cuts nothing; used to instantiate runs
whose control flow never reaches the external partitioner. -/
def nullPartition : PartitionOracle := fun _ _ _ _ => []

/-- Both result-carrying stacks unchanged between two solver states (the
frame property of the operations that never touch them). -/
def StacksEq (a b : Solver) : Prop :=
  b.result_stack = a.result_stack ∧ b.ddnnf_stack = a.ddnnf_stack

/-- The solver carried by either outcome of the inner propagation loops. -/
def psOut : (ConstraintIndex × Solver) ⊕ (Solver × List PropQueueEntry) → Solver
  | .inl (_, s) => s
  | .inr (s, _) => s

/-- The solver carried by a backtrack-step outcome. -/
def btOut : BtStep → Solver
  | .done _ s => s
  | .next s => s

/-- Modelled from the spec: the `OPBFile` that `p2d_opb::parse` returns for
the spec's worked input `"#variable= 2 #constraint= 1\nx1 + x2 >= 1;"`.
The pest grammar `opb.pest` is not among the repository's files, so the
tokenization is taken from the spec's description of the OPB format; the
semantic actions follow `parser.rs`: a bare summand gets factor `1`,
`positive := true`, variables are numbered in order of first occurrence
(`x1 ↦ 0`, `x2 ↦ 1`, `max_name_index = 2`), and the header fills
`number_variables`/`number_constraints`. -/
def exC1File : OPBFile :=
  { name_map := [("x1", 0), ("x2", 1)]
    equations := [{ lhs := [{ variable_index := 0, factor := 1, positive := true },
                            { variable_index := 1, factor := 1, positive := true }],
                    rhs := 1, kind := .Ge }]
    max_name_index := 2
    number_constraints := 1
    number_variables := 2 }

/-- Modelled from the spec (see `exC1File` for the parsing conventions): a
parsed OPB file with one trivially satisfied constraint `x1 + x2 >= 0`,
and two active disjoint constraints `x3 + x4 >= 1;` and `x5 + x6 >= 1;`.
After bootstrap simplification `x1` and `x2` are in scope, unassigned and
in no active constraint, so component decomposition collects them as
`single_variables`. -/
def exC5File : OPBFile :=
  { name_map := [("x1", 0), ("x2", 1), ("x3", 2), ("x4", 3), ("x5", 4), ("x6", 5)]
    equations :=
      [{ lhs := [{ variable_index := 0, factor := 1, positive := true },
                 { variable_index := 1, factor := 1, positive := true }],
         rhs := 0, kind := .Ge },
       { lhs := [{ variable_index := 2, factor := 1, positive := true },
                 { variable_index := 3, factor := 1, positive := true }],
         rhs := 1, kind := .Ge },
       { lhs := [{ variable_index := 4, factor := 1, positive := true },
                 { variable_index := 5, factor := 1, positive := true }],
         rhs := 1, kind := .Ge }]
    max_name_index := 6
    number_constraints := 3
    number_variables := 6 }

/-- A hypergraph whose only content is the single-variable set `{7, 9}`,
used to exercise the shared-single-variables component of
`Hypergraph::create_partition` directly (with an empty partition vector). -/
def exC5Hg : Hypergraph :=
  { pins := [], x_pins := [0], variable_index_map := [],
    variable_index_map_reverse := SMap.empty, current_variable_index := 0,
    constraint_index_map := [], constraint_index_map_reverse := SMap.empty,
    current_constraint_index := 0, single_variables := [7, 9] }

/-- A one-variable solver state right after the first decision `x0 := true`
at level 1 (no constraints), used to exercise `Solver::analyze` on a
reason set holding that decision. -/
def exC8Solver : Solver :=
  { pseudo_boolean_formula :=
      { constraints := [], number_variables := 1, constraints_by_variable := [[]],
        name_map := [] }
    assignment_stack := [.Assignment { decision_level := 1, variable_index := 0,
                                       variable_sign := true,
                                       assignment_kind := .FirstDecision }]
    assignments := [some (0, true)]
    decision_level := 1
    learned_clauses := []
    learned_clauses_by_variables := [[]]
    result_stack := []
    ddnnf_stack := []
    number_unsat_constraints := 0
    number_unassigned_variables := 0
    cache := []
    statistics := { cache_hits := 0, cache_entries := 0, learned_clauses := 0,
                    propagations_from_learned_clauses := 0 }
    variable_in_scope := []
    constraint_indexes_in_scope := []
    next_variables := []
    vsids_scores := [1]
    dlcs_scores := [1]
    unique_id := 0 }

/-- The conflicting-variable map handed to `Solver::analyze` in the
`exC8Solver` scenario: the single decision `x0 := true` at level 1. -/
def exC8Cvi : SMap AnEntry := [(0, (.FirstDecision, true, 1))]

/-! ## Theorems

Everything from here on is a proof about the definitions above; no further
definitions of modelled code appear below (only `Prop`-valued specification
predicates stated inline in theorem statements).
-/

namespace SMap

variable {α : Type}

theorem find?_cons_self {rest : SMap α} {k : Nat} {v : α} :
    find? ((k, v) :: rest) k = some v := by
  simp [find?]

theorem erase_cons_self {rest : SMap α} {k : Nat} {v : α} :
    erase ((k, v) :: rest) k = rest := by
  simp [erase]

theorem insert_cons_self {rest : SMap α} {k : Nat} {v v' : α} :
    insert ((k, v') :: rest) k v = (k, v) :: rest := by
  simp [insert]

theorem find?_mem {m : SMap α} {k : Nat} {v : α} (h : m.find? k = some v) :
    (k, v) ∈ m.entries := by
  induction m with
  | nil => simp [find?] at h
  | cons p rest ih =>
    obtain ⟨k', v'⟩ := p
    by_cases hk : k = k'
    · subst hk
      rw [find?_cons_self] at h
      obtain rfl : v' = v := Option.some.inj h
      exact List.mem_cons_self _ _
    · simp only [find?, if_neg hk] at h
      exact List.mem_cons_of_mem _ (ih h)

theorem mem_keys_of_find? {m : SMap α} {k : Nat} {v : α} (h : m.find? k = some v) :
    k ∈ m.keys := by
  have := find?_mem h
  simp only [keys, List.mem_map]
  exact ⟨(k, v), this, rfl⟩

theorem find?_isSome_of_mem {m : SMap α} {k : Nat} {v : α} (h : (k, v) ∈ m.entries) :
    (m.find? k).isSome := by
  induction m with
  | nil => simp [entries] at h
  | cons p rest ih =>
    obtain ⟨k', v'⟩ := p
    by_cases hk : k = k'
    · simp [find?, hk]
    · simp only [find?, if_neg hk]
      rcases List.mem_cons.mp h with h1 | h2
      · exact absurd (congrArg Prod.fst h1) hk
      · exact ih h2

theorem find?_insert_self (m : SMap α) (k : Nat) (v : α) :
    (m.insert k v).find? k = some v := by
  induction m with
  | nil => simp [insert, find?]
  | cons p rest ih =>
    obtain ⟨k', v'⟩ := p
    by_cases h1 : k < k'
    · simp [insert, h1, find?]
    · by_cases h2 : k = k'
      · simp [insert, h1, h2, find?]
      · simp [insert, h1, h2, find?, ih]

theorem find?_insert_ne (m : SMap α) (k : Nat) (v : α) {j : Nat} (hj : j ≠ k) :
    (m.insert k v).find? j = m.find? j := by
  induction m with
  | nil => simp [insert, find?, hj]
  | cons p rest ih =>
    obtain ⟨k', v'⟩ := p
    by_cases h1 : k < k'
    · simp [insert, h1, find?, hj]
    · by_cases h2 : k = k'
      · subst h2
        simp [insert, h1, find?, hj]
      · by_cases h3 : j = k'
        · simp [insert, h1, h2, find?, h3]
        · simp [insert, h1, h2, find?, h3, ih]

theorem find?_erase_ne (m : SMap α) (k : Nat) {j : Nat} (hj : j ≠ k) :
    (m.erase k).find? j = m.find? j := by
  induction m with
  | nil => simp [erase]
  | cons p rest ih =>
    obtain ⟨k', v'⟩ := p
    by_cases h1 : k = k'
    · subst h1
      simp [erase, find?, hj]
    · by_cases h2 : j = k'
      · simp [erase, h1, find?, h2]
      · simp [erase, h1, find?, h2, ih]

theorem not_mem_keys_find? {m : SMap α} {k : Nat} (h : k ∉ m.keys) : m.find? k = none := by
  induction m with
  | nil => rfl
  | cons p rest ih =>
    obtain ⟨k', v'⟩ := p
    simp only [keys, List.map_cons, List.mem_cons] at h
    push_neg at h
    simp only [find?, if_neg h.1]
    exact ih h.2

theorem sorted_cons_iff {p : Nat × α} {rest : SMap α} :
    Sorted ((p :: rest : List (Nat × α)) : SMap α) ↔
      (∀ j ∈ keys rest, p.1 < j) ∧ Sorted rest := by
  simp [Sorted, keys, List.pairwise_cons]

theorem find?_erase_self {m : SMap α} (hs : m.Sorted) (k : Nat) :
    (m.erase k).find? k = none := by
  induction m with
  | nil => rfl
  | cons p rest ih =>
    obtain ⟨k', v'⟩ := p
    rw [sorted_cons_iff] at hs
    by_cases h1 : k = k'
    · subst h1
      rw [erase_cons_self]
      refine not_mem_keys_find? fun hmem => ?_
      exact absurd (hs.1 k hmem) (lt_irrefl k)
    · simp only [erase, if_neg h1, find?, if_neg h1]
      exact ih hs.2

theorem erase_insert_of_find?_none {m : SMap α} {k : Nat} (v : α) (h : m.find? k = none) :
    (m.insert k v).erase k = m := by
  induction m with
  | nil => simp [insert, erase]
  | cons p rest ih =>
    obtain ⟨k', v'⟩ := p
    by_cases h1 : k < k'
    · simp [insert, h1, erase]
    · by_cases h2 : k = k'
      · simp [find?, h2] at h
      · simp only [find?, if_neg h2] at h
        simp [insert, h1, h2, erase, ih h]

theorem insert_prepend_of_lt {m : SMap α} {k : Nat} (v : α)
    (h : ∀ j ∈ m.keys, k < j) : m.insert k v = (k, v) :: m := by
  cases m with
  | nil => rfl
  | cons p rest =>
    obtain ⟨k', v'⟩ := p
    have : k < k' := h k' (by simp [keys])
    simp [insert, this]

theorem insert_erase_of_find? {m : SMap α} {k : Nat} {v : α} (hs : m.Sorted)
    (h : m.find? k = some v) : (m.erase k).insert k v = m := by
  induction m with
  | nil => simp [find?] at h
  | cons p rest ih =>
    obtain ⟨k', v'⟩ := p
    rw [sorted_cons_iff] at hs
    by_cases h1 : k = k'
    · subst h1
      rw [find?_cons_self] at h
      obtain rfl : v' = v := Option.some.inj h
      rw [erase_cons_self]
      exact insert_prepend_of_lt _ hs.1
    · simp only [find?, if_neg h1] at h
      have hk' : k' < k := hs.1 k (mem_keys_of_find? h)
      simp only [erase, if_neg h1, insert,
        if_neg (by omega : ¬ k < k'), if_neg h1]
      rw [ih hs.2 h]

theorem sorted_tail {p : Nat × α} {rest : SMap α} (h : Sorted (p :: rest : SMap α)) :
    Sorted rest := (sorted_cons_iff.mp h).2

theorem mem_keys_erase {m : SMap α} {k j : Nat} (h : j ∈ (m.erase k).keys) : j ∈ m.keys := by
  induction m with
  | nil => exact h
  | cons p rest ih =>
    obtain ⟨k', v'⟩ := p
    by_cases h1 : k = k'
    · subst h1
      rw [erase_cons_self] at h
      exact List.mem_cons_of_mem _ h
    · simp only [erase, if_neg h1, keys, List.map_cons, List.mem_cons] at h ⊢
      rcases h with h2 | h3
      · exact Or.inl h2
      · exact Or.inr (ih h3)

theorem mem_keys_insert {m : SMap α} {k j : Nat} {v : α}
    (h : j ∈ (m.insert k v).keys) : j ∈ m.keys ∨ j = k := by
  induction m with
  | nil =>
    simp only [insert, keys, List.map_cons, List.map_nil, List.mem_singleton] at h
    exact Or.inr h
  | cons p rest ih =>
    obtain ⟨k', v'⟩ := p
    by_cases h1 : k < k'
    · simp only [insert, if_pos h1, keys, List.map_cons, List.mem_cons] at h ⊢
      tauto
    · by_cases h2 : k = k'
      · subst h2
        rw [insert_cons_self] at h
        simp only [keys, List.map_cons, List.mem_cons] at h ⊢
        tauto
      · simp only [insert, if_neg h1, if_neg h2, keys, List.map_cons, List.mem_cons] at h ⊢
        rcases h with h3 | h4
        · exact Or.inl (Or.inl h3)
        · rcases ih h4 with h5 | h6
          · exact Or.inl (Or.inr h5)
          · exact Or.inr h6

theorem sorted_erase {m : SMap α} (hs : m.Sorted) (k : Nat) : (m.erase k).Sorted := by
  induction m with
  | nil => exact hs
  | cons p rest ih =>
    obtain ⟨k', v'⟩ := p
    rw [sorted_cons_iff] at hs
    by_cases h1 : k = k'
    · subst h1
      rw [erase_cons_self]
      exact hs.2
    · simp only [erase, if_neg h1]
      rw [sorted_cons_iff]
      exact ⟨fun j hj => hs.1 j (mem_keys_erase hj), ih hs.2⟩

theorem sorted_insert {m : SMap α} (hs : m.Sorted) (k : Nat) (v : α) :
    (m.insert k v).Sorted := by
  induction m with
  | nil => simp [Sorted, insert, keys]
  | cons p rest ih =>
    obtain ⟨k', v'⟩ := p
    rw [sorted_cons_iff] at hs
    by_cases h1 : k < k'
    · simp only [insert, if_pos h1]
      rw [sorted_cons_iff]
      refine ⟨fun j hj => ?_, sorted_cons_iff.mpr hs⟩
      simp only [keys, List.map_cons, List.mem_cons] at hj
      rcases hj with h2 | h3
      · omega
      · have := hs.1 j h3
        omega
    · by_cases h2 : k = k'
      · subst h2
        rw [insert_cons_self, sorted_cons_iff]
        exact hs
      · simp only [insert, if_neg h1, if_neg h2]
        rw [sorted_cons_iff]
        refine ⟨fun j hj => ?_, ih hs.2⟩
        rcases mem_keys_insert hj with h3 | h4
        · exact hs.1 j h3
        · omega

end SMap

namespace SMap

variable {α : Type}

theorem find?_of_mem_sorted {m : SMap α} (hs : m.Sorted) {k : Nat} {v : α}
    (h : (k, v) ∈ m.entries) : m.find? k = some v := by
  induction m with
  | nil => simp [entries] at h
  | cons p rest ih =>
    obtain ⟨k', v'⟩ := p
    rw [sorted_cons_iff] at hs
    rcases List.mem_cons.mp h with h1 | h2
    · injection h1 with ha hb
      subst ha
      subst hb
      exact find?_cons_self
    · have hkmem : k ∈ keys rest := by
        simp only [keys, List.mem_map]
        exact ⟨(k, v), h2, rfl⟩
      have hlt : k' < k := hs.1 k hkmem
      have hne : k ≠ k' := by omega
      simp only [find?, if_neg hne]
      exact ih hs.2 h2

theorem mem_entries_insert {m : SMap α} {k : Nat} {v : α} {p : Nat × α}
    (h : p ∈ (m.insert k v).entries) : p ∈ m.entries ∨ p = (k, v) := by
  induction m with
  | nil =>
    simp only [insert, entries, List.mem_singleton] at h
    exact Or.inr h
  | cons q rest ih =>
    obtain ⟨k', v'⟩ := q
    by_cases h1 : k < k'
    · simp only [insert, if_pos h1, entries, List.mem_cons] at h
      rcases h with h2 | h3 | h4
      · exact Or.inr h2
      · exact Or.inl (List.mem_cons.mpr (Or.inl h3))
      · exact Or.inl (List.mem_cons.mpr (Or.inr h4))
    · by_cases h2 : k = k'
      · subst h2
        rw [insert_cons_self] at h
        rcases List.mem_cons.mp h with h3 | h4
        · exact Or.inr h3
        · exact Or.inl (List.mem_cons_of_mem _ h4)
      · simp only [insert, if_neg h1, if_neg h2] at h
        rcases List.mem_cons.mp h with h3 | h4
        · exact Or.inl (List.mem_cons.mpr (Or.inl h3))
        · rcases ih h4 with h5 | h6
          · exact Or.inl (List.mem_cons.mpr (Or.inr h5))
          · exact Or.inr h6

theorem mem_entries_erase {m : SMap α} {k : Nat} {p : Nat × α}
    (h : p ∈ (m.erase k).entries) : p ∈ m.entries := by
  induction m with
  | nil => exact h
  | cons q rest ih =>
    obtain ⟨k', v'⟩ := q
    by_cases h1 : k = k'
    · subst h1
      rw [erase_cons_self] at h
      exact List.mem_cons_of_mem _ h
    · simp only [erase, if_neg h1] at h
      rcases List.mem_cons.mp h with h2 | h3
      · exact List.mem_cons.mpr (Or.inl h2)
      · exact List.mem_cons.mpr (Or.inr (ih h3))

theorem mem_entries_erase_key {m : SMap α} (hs : m.Sorted) {k : Nat} {p : Nat × α}
    (h : p ∈ (m.erase k).entries) : p.1 ≠ k := by
  obtain ⟨a, b⟩ := p
  intro hk
  simp only at hk
  have h2 := find?_of_mem_sorted (sorted_erase hs k) h
  rw [hk, find?_erase_self hs] at h2
  exact Option.noConfusion h2

theorem wsum_erase (w : α → Nat) {m : SMap α} {k : Nat} {v : α}
    (h : m.find? k = some v) :
    (((m.erase k).values.map w)).sum + w v = ((m.values.map w)).sum := by
  induction m with
  | nil => simp [find?] at h
  | cons p rest ih =>
    obtain ⟨k', v'⟩ := p
    by_cases h1 : k = k'
    · subst h1
      rw [find?_cons_self] at h
      obtain rfl : v' = v := Option.some.inj h
      rw [erase_cons_self]
      simp [values]
      omega
    · simp only [find?, if_neg h1] at h
      simp only [erase, if_neg h1, values, List.map_cons, List.sum_cons]
      have := ih h
      simp only [values] at this
      omega

end SMap

namespace Constraint

theorem gm_fold_acc_le (es : List (Nat × Literal)) :
    ∀ acc : Literal, acc.factor ≤ (es.foldl gm_step acc).factor := by
  induction es with
  | nil => intro acc; simp
  | cons p rest ih =>
    intro acc
    simp only [List.foldl_cons]
    by_cases h : p.2.factor > acc.factor
    · have h2 : gm_step acc p =
          { index := p.2.index, factor := p.2.factor, positive := p.2.positive } := by
        simp [gm_step, h]
      rw [h2]
      have := ih ({ index := p.2.index, factor := p.2.factor, positive := p.2.positive } : Literal)
      simp at this
      omega
    · have h2 : gm_step acc p = acc := by simp [gm_step, h]
      rw [h2]
      exact ih acc

theorem gm_fold_mem_le (es : List (Nat × Literal)) :
    ∀ (acc : Literal), ∀ p ∈ es, p.2.factor ≤ (es.foldl gm_step acc).factor := by
  induction es with
  | nil => intro acc p hp; simp at hp
  | cons q rest ih =>
    intro acc p hp
    simp only [List.foldl_cons]
    rcases List.mem_cons.mp hp with rfl | h2
    · by_cases h : p.2.factor > acc.factor
      · have he : gm_step acc p =
            { index := p.2.index, factor := p.2.factor, positive := p.2.positive } := by
          simp [gm_step, h]
        rw [he]
        have h3 := gm_fold_acc_le rest
          ({ index := p.2.index, factor := p.2.factor, positive := p.2.positive } : Literal)
        simpa using h3
      · have he : gm_step acc p = acc := by simp [gm_step, h]
        rw [he]
        have h3 := gm_fold_acc_le rest acc
        omega
    · exact ih (gm_step acc q) p h2

theorem gm_fold_result (es : List (Nat × Literal)) :
    ∀ acc : Literal, es.foldl gm_step acc = acc ∨
      ∃ p ∈ es, es.foldl gm_step acc = p.2 := by
  induction es with
  | nil => intro acc; exact Or.inl rfl
  | cons q rest ih =>
    intro acc
    simp only [List.foldl_cons]
    by_cases h : q.2.factor > acc.factor
    · have h2 : gm_step acc q = q.2 := by
        simp only [gm_step, if_pos h]
      rw [h2]
      rcases ih q.2 with h3 | ⟨p, hp, h4⟩
      · exact Or.inr ⟨q, List.mem_cons_self _ _, h3⟩
      · exact Or.inr ⟨p, List.mem_cons_of_mem _ hp, h4⟩
    · have h2 : gm_step acc q = acc := by simp [gm_step, h]
      rw [h2]
      rcases ih acc with h3 | ⟨p, hp, h4⟩
      · exact Or.inl h3
      · exact Or.inr ⟨p, List.mem_cons_of_mem _ hp, h4⟩

/-- Every unassigned literal's factor is bounded by `get_max_literal`'s. -/
theorem get_max_literal_ge (c : Constraint) :
    ∀ l ∈ c.unassigned_literals.values, l.factor ≤ c.get_max_literal.factor := by
  intro l hl
  simp only [SMap.values, List.mem_map] at hl
  obtain ⟨p, hp, rfl⟩ := hl
  exact gm_fold_mem_le c.unassigned_literals.entries _ p hp

/-- When its factor is positive, `get_max_literal` is an actual unassigned
literal of the constraint. -/
theorem get_max_literal_mem (c : Constraint) (h : c.get_max_literal.factor ≠ 0) :
    c.get_max_literal ∈ c.unassigned_literals.values := by
  rcases gm_fold_result c.unassigned_literals.entries
      { index := 0, factor := 0, positive := false } with h1 | ⟨p, hp, h2⟩
  · exfalso
    apply h
    unfold get_max_literal
    rw [h1]
  · unfold get_max_literal
    rw [h2]
    simp only [SMap.values, List.mem_map]
    exact ⟨p, hp, rfl⟩

end Constraint

namespace Constraint

/-- In a well-formed constraint, a variable that is in `literals` but not in
`assignments` is unassigned, with the same literal record. -/
theorem WF.find?_unassigned {c : Constraint} (hwf : c.WF) {k : Nat} {lic : Literal}
    (hlit : c.literals.find? k = some lic) (has : c.assignments.find? k = none) :
    c.unassigned_literals.find? k = some lic := by
  have hmem := SMap.find?_mem hlit
  have hsome := hwf.partition_un _ hmem has
  rcases ho : c.unassigned_literals.find? k with _ | l
  · rw [ho] at hsome
    simp at hsome
  · have := hwf.un_sub _ (SMap.find?_mem ho)
    simp only at this
    rw [hlit] at this
    obtain rfl : lic = l := Option.some.inj this
    rfl

/-- The factor of an unassigned literal is bounded by `sum_unassigned`. -/
theorem WF.factor_le_sum_unassigned {c : Constraint} (hwf : c.WF) {k : Nat}
    {lic : Literal} (h : c.unassigned_literals.find? k = some lic) :
    lic.factor ≤ c.sum_unassigned := by
  have := SMap.wsum_erase Literal.factor h
  rw [hwf.sum_unassigned_eq]
  omega

/-- Frame of a successful `propagate` call: the fields of the post-state in
terms of the pre-state.  (`max_literal` and the hash fields are the only
fields not pinned down here.) -/
theorem propagate_frame {c : Constraint} {l : Literal} {k : AssignmentKind}
    {dl : Nat} {lic : Literal} {r : PropagationResult} {c' : Constraint}
    (h1 : c.assignments.find? l.index = none)
    (h2 : c.satisfied_now = false)
    (h3 : c.literals.find? l.index = some lic)
    (hp : c.propagate l k dl = some (r, c')) :
    c'.index = c.index ∧ c'.literals = c.literals ∧
    c'.unassigned_literals = c.unassigned_literals.erase l.index ∧
    c'.degree = c.degree ∧
    c'.sum_true = (if lic.positive = l.positive then c.sum_true + lic.factor
      else c.sum_true) ∧
    c'.sum_unassigned = c.sum_unassigned - lic.factor ∧
    c'.assignments = c.assignments.insert l.index (l.positive, k, dl) ∧
    c'.factor_sum = c.factor_sum ∧ c'.constraint_type = c.constraint_type := by
  unfold propagate at hp
  rw [h1, h2, h3] at hp
  simp only [Bool.false_eq_true, if_false] at hp
  rcases htype : c.constraint_type with _ | _ <;> rw [htype] at hp <;>
    simp only at hp
  case GreaterEqual =>
    have hsnd := congrArg (Option.map Prod.snd) hp
    simp only [apply_ite (Option.map (Prod.snd : PropagationResult × Constraint → Constraint)),
      Option.map_some', ite_self] at hsnd
    have hc := Option.some.inj hsnd
    subst hc
    exact ⟨rfl, rfl, rfl, rfl, rfl, rfl, rfl, rfl, rfl⟩
  case NotEqual =>
    have hsnd := congrArg (Option.map Prod.snd) hp
    simp only [apply_ite (Option.map (Prod.snd : PropagationResult × Constraint → Constraint)),
      Option.map_some', ite_self] at hsnd
    have hc := Option.some.inj hsnd
    subst hc
    exact ⟨rfl, rfl, rfl, rfl, rfl, rfl, rfl, rfl, rfl⟩

end Constraint

namespace Constraint

/-- `propagate` preserves constraint well-formedness. -/
theorem propagate_wf {c : Constraint} {l : Literal} {k : AssignmentKind}
    {dl : Nat} {lic : Literal} {r : PropagationResult} {c' : Constraint}
    (hwf : c.WF)
    (h1 : c.assignments.find? l.index = none)
    (h2 : c.satisfied_now = false)
    (h3 : c.literals.find? l.index = some lic)
    (hp : c.propagate l k dl = some (r, c')) : c'.WF := by
  obtain ⟨hidx, hlits, hun, hdeg, hst, hsu, has, hfs, hct⟩ :=
    propagate_frame h1 h2 h3 hp
  have hfindun : c.unassigned_literals.find? l.index = some lic :=
    hwf.find?_unassigned h3 h1
  constructor
  · rw [hlits]
    exact hwf.sorted_literals
  · rw [hun]
    exact SMap.sorted_erase hwf.sorted_unassigned _
  · rw [has]
    exact SMap.sorted_insert hwf.sorted_assignments _ _
  · intro p hmem
    rw [hun] at hmem
    rw [hlits]
    exact hwf.un_sub p (SMap.mem_entries_erase hmem)
  · intro p hmem
    rw [has] at hmem
    rw [hlits]
    rcases SMap.mem_entries_insert hmem with hold | hnew
    · exact hwf.as_sub p hold
    · subst hnew
      show (c.literals.find? l.index).isSome = true
      rw [h3]
      rfl
  · intro p hmem hnone
    rw [hlits] at hmem
    rw [has] at hnone
    rw [hun]
    by_cases hpk : p.1 = l.index
    · exfalso
      rw [hpk, SMap.find?_insert_self] at hnone
      exact Option.noConfusion hnone
    · rw [SMap.find?_insert_ne _ _ _ hpk] at hnone
      rw [SMap.find?_erase_ne _ _ hpk]
      exact hwf.partition_un p hmem hnone
  · intro p hmem
    rw [hun] at hmem
    rw [has]
    have hpk : p.1 ≠ l.index :=
      SMap.mem_entries_erase_key hwf.sorted_unassigned hmem
    rw [SMap.find?_insert_ne _ _ _ hpk]
    exact hwf.partition_as p (SMap.mem_entries_erase hmem)
  · rw [hsu, hun]
    have hws := SMap.wsum_erase Literal.factor hfindun
    have hse := hwf.sum_unassigned_eq
    omega

/-- Frame of an `undo` call on an assigned variable that the constraint
contains: the fields of the post-state in terms of the pre-state
(`max_literal` and the hash fields are the only fields not pinned down). -/
theorem undo_fields {c : Constraint} {vi : Nat} (vs : Bool) {lit : Literal}
    (hc : c.assignments.contains vi = true) (hl : c.literals.find? vi = some lit) :
    (c.undo vi vs).2.index = c.index ∧
    (c.undo vi vs).2.literals = c.literals ∧
    (c.undo vi vs).2.unassigned_literals = c.unassigned_literals.insert vi lit ∧
    (c.undo vi vs).2.degree = c.degree ∧
    (c.undo vi vs).2.sum_true =
      (if lit.positive = vs then c.sum_true - lit.factor else c.sum_true) ∧
    (c.undo vi vs).2.sum_unassigned = c.sum_unassigned + lit.factor ∧
    (c.undo vi vs).2.assignments = c.assignments.erase vi ∧
    (c.undo vi vs).2.factor_sum = c.factor_sum ∧
    (c.undo vi vs).2.constraint_type = c.constraint_type := by
  have hres : (c.undo vi vs).2 =
      { index := c.index, literals := c.literals,
        unassigned_literals := c.unassigned_literals.insert vi lit,
        degree := c.degree,
        sum_true := if lit.positive = vs then c.sum_true - lit.factor else c.sum_true,
        sum_unassigned := c.sum_unassigned + lit.factor,
        assignments := c.assignments.erase vi,
        factor_sum := c.factor_sum,
        hash_value := c.hash_value,
        hash_value_old := true,
        constraint_type := c.constraint_type,
        max_literal :=
          if lit.factor > c.max_literal.factor then lit else c.max_literal } := by
    simp only [undo, hc, hl, if_true]
    split <;> split <;> split <;> rfl
  rw [hres]
  exact ⟨rfl, rfl, rfl, rfl, rfl, rfl, rfl, rfl, rfl⟩

end Constraint

/-- C10: if a constraint is already satisfied before `Constraint::propagate`
is called (for `GreaterEqual`: `sum_true ≥ degree`; for `NotEqual`:
`sum_unassigned = 0` and `sum_true ≠ degree`) and the propagated variable is
not yet assigned in it, then `propagate` returns `AlreadySatisfied` and
leaves every field of the constraint unchanged — the returned state is the
input state itself, so in particular the literal is not moved from
`unassigned_literals` to `assignments` and the sums are untouched. -/
theorem C10_already_satisfied_frame (c : Constraint) (l : Literal)
    (k : AssignmentKind) (dl : Nat)
    (h1 : c.assignments.find? l.index = none)
    (h2 : (c.constraint_type = .GreaterEqual ∧ as_u128 c.degree ≤ c.sum_true) ∨
      (c.constraint_type = .NotEqual ∧ c.sum_unassigned = 0 ∧
        c.sum_true ≠ as_u128 c.degree)) :
    c.propagate l k dl = some (.AlreadySatisfied, c) := by
  have hsat : c.satisfied_now = true := by
    rcases h2 with ⟨ht, hge⟩ | ⟨ht, hz, hne⟩
    · simp [Constraint.satisfied_now, ht, hge]
    · simp [Constraint.satisfied_now, ht, hz, hne]
  unfold Constraint.propagate
  rw [h1, hsat]
  simp

/-- Witness for C10 on the concrete constraint `x0 + x1 ≥ 1` with `x0` true:
propagating `x1` reports `AlreadySatisfied` and returns the state unchanged. -/
theorem C10_already_satisfied_frame_witness :
    cSatGE.assignments.find? 1 = none ∧
    cSatGE.propagate ⟨1, 0, true⟩ .FirstDecision 1 =
      some (.AlreadySatisfied, cSatGE) :=
  ⟨by decide,
    C10_already_satisfied_frame cSatGE ⟨1, 0, true⟩ .FirstDecision 1 (by decide)
      (Or.inl ⟨rfl, by decide⟩)⟩

/-- C4: for a `GreaterEqual` constraint that is not already satisfied and
whose propagated variable is not yet assigned in it, `propagate` classifies
in this priority order, after updating the sums: `sum_true ≥ degree` gives
`Satisfied`; else `sum_true + sum_unassigned < degree` gives `Unsatisfied`;
else `sum_true + sum_unassigned = degree` returns the list of all remaining
unassigned literals as implied; else
`sum_true + sum_unassigned < degree + max_literal.factor` returns the single
max-factor unassigned literal as implied (it is a remaining unassigned
literal of maximal factor); otherwise `NothingToPropagated`. -/
theorem C4_ge_propagate_classification (c : Constraint) (l : Literal)
    (k : AssignmentKind) (dl : Nat) (lic : Literal)
    (htype : c.constraint_type = .GreaterEqual)
    (h1 : c.assignments.find? l.index = none)
    (hnotsat : ¬ as_u128 c.degree ≤ c.sum_true)
    (h3 : c.literals.find? l.index = some lic) :
    ∃ r c', c.propagate l k dl = some (r, c') ∧
      c'.sum_true = (if lic.positive = l.positive then c.sum_true + lic.factor
        else c.sum_true) ∧
      c'.sum_unassigned = c.sum_unassigned - lic.factor ∧
      c'.unassigned_literals = c.unassigned_literals.erase l.index ∧
      (as_u128 c.degree ≤ c'.sum_true → r = .Satisfied) ∧
      (¬ as_u128 c.degree ≤ c'.sum_true →
        c'.sum_true + c'.sum_unassigned < as_u128 c.degree → r = .Unsatisfied) ∧
      (¬ as_u128 c.degree ≤ c'.sum_true →
        c'.sum_true + c'.sum_unassigned = as_u128 c.degree →
        r = .ImpliedLiteralList c'.unassigned_literals.values) ∧
      (¬ as_u128 c.degree ≤ c'.sum_true →
        as_u128 c.degree < c'.sum_true + c'.sum_unassigned →
        c'.sum_true + c'.sum_unassigned <
          as_u128 c.degree + c'.max_literal.factor →
        r = .ImpliedLiteral c'.max_literal ∧
        c'.max_literal ∈ c'.unassigned_literals.values ∧
        ∀ l' ∈ c'.unassigned_literals.values, l'.factor ≤ c'.max_literal.factor) ∧
      (¬ as_u128 c.degree ≤ c'.sum_true →
        as_u128 c.degree < c'.sum_true + c'.sum_unassigned →
        ¬ c'.sum_true + c'.sum_unassigned <
          as_u128 c.degree + c'.max_literal.factor →
        r = .NothingToPropagated) := by
  have hsat : c.satisfied_now = false := by
    simp [Constraint.satisfied_now, htype, hnotsat]
  have hmapid : ∀ xs : List Literal,
      xs.map (fun l => Literal.mk l.index l.factor l.positive) = xs := by
    intro xs
    simp
  rcases hp : c.propagate l k dl with _ | rc
  · exfalso
    unfold Constraint.propagate at hp
    rw [h1, hsat, h3] at hp
    simp only [htype] at hp
    repeat' split at hp
    all_goals exact Option.noConfusion hp
  · obtain ⟨r, c'⟩ := rc
    obtain ⟨hidx, hlits, hun, hdeg, hst, hsu, has, hfs, hct⟩ :=
      Constraint.propagate_frame h1 hsat h3 hp
    have hmaxeq : c'.max_literal = c'.get_max_literal := by
      have hp2 := hp
      unfold Constraint.propagate at hp2
      rw [h1, hsat, h3] at hp2
      simp only [htype] at hp2
      have hsnd := congrArg (Option.map Prod.snd) hp2
      simp only [apply_ite
        (Option.map (Prod.snd : PropagationResult × Constraint → Constraint)),
        Option.map_some', ite_self] at hsnd
      have hc := Option.some.inj hsnd
      subst hc
      rfl
    have hclass :
        (as_u128 c.degree ≤ c'.sum_true → r = .Satisfied) ∧
        (¬ as_u128 c.degree ≤ c'.sum_true →
          c'.sum_true + c'.sum_unassigned < as_u128 c.degree →
          r = .Unsatisfied) ∧
        (¬ as_u128 c.degree ≤ c'.sum_true →
          c'.sum_true + c'.sum_unassigned = as_u128 c.degree →
          r = .ImpliedLiteralList c'.unassigned_literals.values) ∧
        (¬ as_u128 c.degree ≤ c'.sum_true →
          as_u128 c.degree < c'.sum_true + c'.sum_unassigned →
          c'.sum_true + c'.sum_unassigned <
            as_u128 c.degree + c'.max_literal.factor →
          r = .ImpliedLiteral c'.max_literal) ∧
        (¬ as_u128 c.degree ≤ c'.sum_true →
          as_u128 c.degree < c'.sum_true + c'.sum_unassigned →
          ¬ c'.sum_true + c'.sum_unassigned <
            as_u128 c.degree + c'.max_literal.factor →
          r = .NothingToPropagated) := by
      unfold Constraint.propagate at hp
      rw [h1, hsat, h3] at hp
      simp only [Bool.false_eq_true, if_false, htype] at hp
      set st := (if lic.positive = l.positive then c.sum_true + lic.factor
        else c.sum_true) with hgen
      split at hp
      · rename_i hA
        rw [Option.some.injEq, Prod.mk.injEq] at hp
        obtain ⟨hr, hc⟩ := hp
        subst hr
        subst hc
        dsimp only
        exact ⟨fun _ => rfl,
          fun h2 _ => absurd hA h2,
          fun h2 _ => absurd hA h2,
          fun h2 _ _ => absurd hA h2,
          fun h2 _ _ => absurd hA h2⟩
      · rename_i hA
        split at hp
        · rename_i hB
          rw [Option.some.injEq, Prod.mk.injEq] at hp
          obtain ⟨hr, hc⟩ := hp
          subst hr
          subst hc
          dsimp only at hB ⊢
          exact ⟨fun h2 => absurd h2 hA,
            fun _ _ => rfl,
            fun _ h3' => by omega,
            fun _ h3' _ => by omega,
            fun _ h3' _ => by omega⟩
        · rename_i hB
          split at hp
          · rename_i hC
            rw [Option.some.injEq, Prod.mk.injEq] at hp
            obtain ⟨hr, hc⟩ := hp
            subst hr
            subst hc
            dsimp only at hC ⊢
            refine ⟨fun h2 => absurd h2 hA,
              fun _ h3' => by omega,
              fun _ _ => ?_,
              fun _ h3' _ => by omega,
              fun _ h3' _ => by omega⟩
            rw [hmapid]
          · rename_i hC
            split at hp
            · rename_i hD
              rw [Option.some.injEq, Prod.mk.injEq] at hp
              obtain ⟨hr, hc⟩ := hp
              subst hr
              subst hc
              dsimp only at hD ⊢
              exact ⟨fun h2 => absurd h2 hA,
                fun _ h3' => by omega,
                fun _ h3' => by omega,
                fun _ _ _ => rfl,
                fun _ _ h4 => absurd hD h4⟩
            · rename_i hD
              rw [Option.some.injEq, Prod.mk.injEq] at hp
              obtain ⟨hr, hc⟩ := hp
              subst hr
              subst hc
              dsimp only at hD ⊢
              exact ⟨fun h2 => absurd h2 hA,
                fun _ h3' => by omega,
                fun _ h3' => by omega,
                fun _ _ h4 => absurd h4 hD,
                fun _ _ _ => rfl⟩
    obtain ⟨hc1, hc2, hc3, hc4, hc5⟩ := hclass
    refine ⟨r, c', rfl, hst, hsu, hun, hc1, hc2, hc3, ?_, hc5⟩
    intro hA hB hD
    refine ⟨hc4 hA hB hD, ?_, ?_⟩
    · rw [hmaxeq]
      apply Constraint.get_max_literal_mem
      rw [← hmaxeq]
      omega
    · rw [hmaxeq]
      exact Constraint.get_max_literal_ge c'

/-- Witness for C4 on the concrete constraint `2·x0 + 2·x1 ≥ 3`: propagating
`x0 := true` succeeds and classifies. -/
theorem C4_ge_propagate_classification_witness :
    cTie.constraint_type = .GreaterEqual ∧
    cTie.assignments.find? 0 = none ∧
    ¬ as_u128 cTie.degree ≤ cTie.sum_true ∧
    cTie.literals.find? 0 = some ⟨0, 2, true⟩ ∧
    ∃ r c', cTie.propagate ⟨0, 0, true⟩ .FirstDecision 1 = some (r, c') := by
  refine ⟨rfl, by decide, by decide, by decide, ?_⟩
  obtain ⟨r, c', hsome, _⟩ := C4_ge_propagate_classification cTie ⟨0, 0, true⟩
    .FirstDecision 1 ⟨0, 2, true⟩ rfl (by decide) (by decide) (by decide)
  exact ⟨r, c', hsome⟩

/-- C3 counterexample: for the constraint `2·x0 + 2·x1 ≥ 3` (`cTie`),
propagating `x0 := true` and then undoing it does not restore the constraint
byte-for-byte: the cached `max_literal` ends as the tied-factor literal `x1`
although it started as `x0`, because `Constraint::undo` replaces
`max_literal` only on a strictly larger factor.  Every other field outside
the memoized hash is restored. -/
theorem C3_counterexample :
    propagateSeq cTie [cTieOp] = some cTieAfter ∧
    (undoSeq cTieAfter [cTieOp]).max_literal ≠ cTie.max_literal ∧
    ¬ EqExceptHash (undoSeq cTieAfter [cTieOp]) cTie := by
  refine ⟨by decide, by decide, ?_⟩
  intro heq
  exact absurd heq.2 (by decide)

/-- C3 (amended): for every well-formed constraint and every script of
successful `Constraint::propagate` calls followed by the matching
`Constraint::undo` calls in reverse order, every field of the constraint
except the memoized hash fields (`hash_value`, `hash_value_old`) and the
cached `max_literal` returns byte-for-byte to its initial value. -/
theorem C3_propagate_undo_roundtrip (ops : List PropOp) :
    ∀ (c cN : Constraint), c.WF → propagateSeq c ops = some cN →
      EqExceptMaxHash (undoSeq cN ops) c := by
  induction ops with
  | nil =>
    intro c cN hwf h
    simp only [propagateSeq] at h
    obtain rfl := Option.some.inj h
    exact ⟨rfl, rfl, rfl, rfl, rfl, rfl, rfl, rfl, rfl⟩
  | cons op rest ih =>
    intro c cN hwf h
    obtain ⟨l, k, dl⟩ := op
    simp only [propagateSeq] at h
    by_cases hg1 : c.assignments.contains l.index = true
    · rw [if_pos hg1] at h
      exact Option.noConfusion h
    · rw [if_neg hg1] at h
      by_cases hg2 : c.satisfied_now = true
      · rw [if_pos hg2] at h
        exact Option.noConfusion h
      · rw [if_neg hg2] at h
        have hg2' : c.satisfied_now = false := by
          revert hg2
          cases c.satisfied_now <;> simp
        have h1 : c.assignments.find? l.index = none := by
          rcases ho : c.assignments.find? l.index with _ | v
          · rfl
          · exfalso
            apply hg1
            show (c.assignments.find? l.index).isSome = true
            rw [ho]
            rfl
        rcases hp : c.propagate l k dl with _ | rc
        · rw [hp] at h
          exact Option.noConfusion h
        · obtain ⟨r, c1⟩ := rc
          rw [hp] at h
          have hlic : ∃ lic, c.literals.find? l.index = some lic := by
            rcases hfl : c.literals.find? l.index with _ | lic
            · exfalso
              unfold Constraint.propagate at hp
              rw [h1, hg2', hfl] at hp
              simp at hp
            · exact ⟨lic, rfl⟩
          obtain ⟨lic, h3⟩ := hlic
          obtain ⟨hidx, hlits, hun, hdeg, hst, hsu, has, hfs, hct⟩ :=
            Constraint.propagate_frame h1 hg2' h3 hp
          have hwf1 : c1.WF := Constraint.propagate_wf hwf h1 hg2' h3 hp
          have hrest := ih c1 cN hwf1 h
          have hshape : undoSeq cN ((l, k, dl) :: rest) =
              ((undoSeq cN rest).undo l.index l.positive).2 := by
            simp [undoSeq, List.foldl_append]
          rw [hshape]
          obtain ⟨ed_idx, ed_lits, ed_un, ed_deg, ed_st, ed_su, ed_as, ed_fs,
            ed_ct⟩ := hrest
          have hdcont : (undoSeq cN rest).assignments.contains l.index = true := by
            show ((undoSeq cN rest).assignments.find? l.index).isSome = true
            rw [ed_as, has, SMap.find?_insert_self]
            rfl
          have hdlit : (undoSeq cN rest).literals.find? l.index = some lic := by
            rw [ed_lits, hlits, h3]
          obtain ⟨eu_idx, eu_lits, eu_un, eu_deg, eu_st, eu_su, eu_as, eu_fs,
            eu_ct⟩ := Constraint.undo_fields l.positive hdcont hdlit
          have hfindun : c.unassigned_literals.find? l.index = some lic :=
            hwf.find?_unassigned h3 h1
          have hfle : lic.factor ≤ c.sum_unassigned :=
            hwf.factor_le_sum_unassigned hfindun
          refine ⟨?_, ?_, ?_, ?_, ?_, ?_, ?_, ?_, ?_⟩
          · rw [eu_idx, ed_idx, hidx]
          · rw [eu_lits, ed_lits, hlits]
          · rw [eu_un, ed_un, hun]
            exact SMap.insert_erase_of_find? hwf.sorted_unassigned hfindun
          · rw [eu_deg, ed_deg, hdeg]
          · rw [eu_st, ed_st, hst]
            by_cases hpl : lic.positive = l.positive
            · rw [if_pos hpl, if_pos hpl]
              omega
            · rw [if_neg hpl, if_neg hpl]
          · rw [eu_su, ed_su, hsu]
            omega
          · rw [eu_as, ed_as, has]
            exact SMap.erase_insert_of_find?_none _ h1
          · rw [eu_fs, ed_fs, hfs]
          · rw [eu_ct, ed_ct, hct]

/-- Witness for the amended C3 on `cTie`: propagate `x0 := true` then undo
it; all fields except `max_literal` and the hash fields are restored. -/
theorem C3_propagate_undo_roundtrip_witness :
    cTie.WF ∧ EqExceptMaxHash (undoSeq cTieAfter [cTieOp]) cTie := by
  have hwf : cTie.WF := by
    constructor <;> decide
  exact ⟨hwf, C3_propagate_undo_roundtrip [cTieOp] cTie cTieAfter hwf (by decide)⟩

theorem map_self {α : Type} {f : α → α} :
    ∀ {xs : List α}, (∀ a ∈ xs, f a = a) → xs.map f = xs := by
  intro xs
  induction xs with
  | nil => intro _; rfl
  | cons x rest ih =>
    intro h
    simp only [List.map_cons]
    rw [h x (List.mem_cons_self _ _), ih fun a ha => h a (List.mem_cons_of_mem _ ha)]

theorem flatMap_singleton {α : Type} {f : α → List α} :
    ∀ {xs : List α}, (∀ a ∈ xs, f a = [a]) → xs.flatMap f = xs := by
  intro xs
  induction xs with
  | nil => intro _; rfl
  | cons x rest ih =>
    intro h
    simp only [List.flatMap_cons]
    rw [h x (List.mem_cons_self _ _), ih fun a ha => h a (List.mem_cons_of_mem _ ha)]
    rfl

theorem add_up_kind (e : Equation) : (add_up_same_variables e).kind = e.kind := rfl

theorem replace_neg_kind (e : Equation) :
    (replace_negative_factors e).kind = e.kind := rfl

theorem rewrites_kind (x : Equation) (hx : x.kind ≠ .Eq) :
    (replace_g_equations (replace_l_equations (replace_le_equations x))).kind = .Ge ∨
    (replace_g_equations (replace_l_equations (replace_le_equations x))).kind = .NotEq := by
  cases hk : x.kind <;>
    simp [replace_le_equations, replace_l_equations, replace_g_equations, hk] at hx ⊢

/-- After the full normalization pipeline every equation is `>=` or `!=`. -/
theorem norm_kind (l : List Equation) :
    ∀ e ∈ normalize_equations l, e.kind = .Ge ∨ e.kind = .NotEq := by
  intro e he
  unfold normalize_equations at he
  simp only [List.mem_map] at he
  obtain ⟨e4, ⟨e3, ⟨e2, ⟨e1, ⟨e0, he0, rfl⟩, rfl⟩, rfl⟩, rfl⟩, rfl⟩ := he
  rw [replace_neg_kind, add_up_kind]
  apply rewrites_kind
  obtain ⟨a, _, hmem⟩ := List.mem_flatMap.mp he0
  unfold replace_equal_equations at hmem
  split at hmem
  · simp only [List.mem_cons, List.mem_singleton] at hmem
    rcases hmem with rfl | rfl | h
    · simp
    · simp
    · simp at h
  · rename_i hk
    simp only [List.mem_singleton] at hmem
    subst hmem
    exact hk

theorem rns_vars (ls : List Summand) :
    (replace_negative_summands ls).map Summand.variable_index =
      ls.map Summand.variable_index := by
  induction ls with
  | nil => rfl
  | cons s rest ih =>
    simp only [replace_negative_summands, List.map_cons, ih]
    congr 1
    split <;> rfl

theorem contains_iff_mem_nat (visited : List Nat) (v : Nat) :
    visited.contains v = true ↔ v ∈ visited := by
  simp [List.contains_iff_exists_mem_beq, Nat.beq_eq_true_eq]

theorem add_up_go_nodup (ls : List Summand) : ∀ visited : List Nat,
    ((add_up_go visited ls).map Summand.variable_index).Nodup ∧
    ∀ v ∈ (add_up_go visited ls).map Summand.variable_index, v ∉ visited := by
  induction ls with
  | nil =>
    intro visited
    simp [add_up_go]
  | cons s rest ih =>
    intro visited
    by_cases hv : visited.contains s.variable_index = true
    · simp only [add_up_go, hv, if_true]
      exact ih visited
    · simp only [add_up_go, hv, Bool.false_eq_true, if_false, List.map_cons]
      obtain ⟨ih1, ih2⟩ := ih (s.variable_index :: visited)
      refine ⟨List.nodup_cons.mpr ⟨fun hmem => ?_, ih1⟩, ?_⟩
      · exact (ih2 _ hmem) (List.mem_cons_self _ _)
      · intro v hvm
        rcases List.mem_cons.mp hvm with rfl | hvm2
        · intro hin
          exact hv ((contains_iff_mem_nat _ _).mpr hin)
        · intro hin
          exact (ih2 v hvm2) (List.mem_cons_of_mem _ hin)

/-- After the full pipeline, no equation mentions a variable twice. -/
theorem norm_nodup (l : List Equation) :
    ∀ e ∈ normalize_equations l, (e.lhs.map Summand.variable_index).Nodup := by
  intro e he
  unfold normalize_equations at he
  simp only [List.mem_map] at he
  obtain ⟨e4, ⟨e3, ⟨e2, ⟨e1, ⟨e0, he0, rfl⟩, rfl⟩, rfl⟩, rfl⟩, rfl⟩ := he
  show ((replace_negative_factors (add_up_same_variables _)).lhs.map
    Summand.variable_index).Nodup
  unfold replace_negative_factors add_up_same_variables
  rw [rns_vars]
  exact (add_up_go_nodup _ []).1

theorem rns_nonneg (ls : List Summand) :
    ∀ s ∈ replace_negative_summands ls, 0 ≤ s.factor := by
  induction ls with
  | nil => simp [replace_negative_summands]
  | cons s rest ih =>
    intro s' hs'
    simp only [replace_negative_summands, List.mem_cons] at hs'
    rcases hs' with rfl | h2
    · split
      · show 0 ≤ -1 * s.factor
        rename_i hneg
        omega
      · rename_i hpos
        omega
    · exact ih s' h2

/-- After the full pipeline, every factor is non-negative. -/
theorem norm_nonneg (l : List Equation) :
    ∀ e ∈ normalize_equations l, ∀ s ∈ e.lhs, 0 ≤ s.factor := by
  intro e he
  unfold normalize_equations at he
  simp only [List.mem_map] at he
  obtain ⟨e4, ⟨e3, ⟨e2, ⟨e1, ⟨e0, he0, rfl⟩, rfl⟩, rfl⟩, rfl⟩, rfl⟩ := he
  exact rns_nonneg _

theorem replace_equal_id {e : Equation} (h : e.kind ≠ .Eq) :
    replace_equal_equations e = [e] := by
  simp [replace_equal_equations, h]

theorem replace_le_id {e : Equation} (h : e.kind ≠ .Le) :
    replace_le_equations e = e := by
  simp [replace_le_equations, h]

theorem replace_l_id {e : Equation} (h : e.kind ≠ .L) :
    replace_l_equations e = e := by
  simp [replace_l_equations, h]

theorem replace_g_id {e : Equation} (h : e.kind ≠ .G) :
    replace_g_equations e = e := by
  simp [replace_g_equations, h]

theorem sum_later_zero {v : Nat} {rest : List Summand}
    (h : v ∉ rest.map Summand.variable_index) : sum_later_factors v rest = 0 := by
  have haux : ∀ (xs : List Summand) (a : Int), v ∉ xs.map Summand.variable_index →
      xs.foldl (fun acc s => if s.variable_index = v then acc + s.factor else acc) a = a := by
    intro xs
    induction xs with
    | nil => intro a _; rfl
    | cons x rest2 ih =>
      intro a hx
      simp only [List.map_cons, List.mem_cons] at hx
      push_neg at hx
      have hxv : ¬ x.variable_index = v := fun hh => hx.1 hh.symm
      simp only [List.foldl_cons, if_neg hxv]
      exact ih a hx.2
  exact haux rest 0 h

theorem add_up_go_id : ∀ (ls : List Summand) (visited : List Nat),
    (ls.map Summand.variable_index).Nodup →
    (∀ v ∈ ls.map Summand.variable_index, v ∉ visited) →
    add_up_go visited ls = ls := by
  intro ls
  induction ls with
  | nil => intro visited _ _; rfl
  | cons s rest ih =>
    intro visited hnd hdis
    have hsv : s.variable_index ∉ visited :=
      hdis s.variable_index (by simp)
    have hcont : visited.contains s.variable_index = false := by
      rcases hb : visited.contains s.variable_index with _ | _
      · rfl
      · exact absurd ((contains_iff_mem_nat _ _).mp hb) hsv
    simp only [add_up_go, hcont, Bool.false_eq_true, if_false]
    simp only [List.map_cons, List.nodup_cons] at hnd
    rw [sum_later_zero hnd.1]
    have hrec : add_up_go (s.variable_index :: visited) rest = rest := by
      refine ih _ hnd.2 ?_
      intro v hv hmem
      rcases List.mem_cons.mp hmem with rfl | h2
      · exact hnd.1 hv
      · exact hdis v (List.mem_cons_of_mem _ hv) h2
    rw [hrec]
    congr 1
    cases s
    simp

theorem add_up_id {e : Equation}
    (h : (e.lhs.map Summand.variable_index).Nodup) :
    add_up_same_variables e = e := by
  unfold add_up_same_variables
  rw [add_up_go_id _ _ h (by simp)]

theorem rns_id : ∀ (ls : List Summand), (∀ s ∈ ls, 0 ≤ s.factor) →
    replace_negative_summands ls = ls := by
  intro ls
  induction ls with
  | nil => intro _; rfl
  | cons s rest ih =>
    intro h
    have hs : 0 ≤ s.factor := h s (List.mem_cons_self _ _)
    simp only [replace_negative_summands, if_neg (by omega : ¬ s.factor < 0)]
    rw [ih fun a ha => h a (List.mem_cons_of_mem _ ha)]

theorem nft_zero : ∀ (ls : List Summand), (∀ s ∈ ls, 0 ≤ s.factor) →
    negative_factor_total ls = 0 := by
  intro ls
  induction ls with
  | nil => intro _; rfl
  | cons s rest ih =>
    intro h
    have hs : 0 ≤ s.factor := h s (List.mem_cons_self _ _)
    simp only [negative_factor_total, if_neg (by omega : ¬ s.factor < 0)]
    rw [ih fun a ha => h a (List.mem_cons_of_mem _ ha)]
    omega

theorem replace_neg_id {e : Equation} (h : ∀ s ∈ e.lhs, 0 ≤ s.factor) :
    replace_negative_factors e = e := by
  unfold replace_negative_factors
  rw [rns_id _ h, nft_zero _ h]
  simp

/-- C7: the normalization pipeline of `PseudoBooleanFormula::new` is
idempotent — applying it to an already-normalized equation list yields an
equal equation list. -/
theorem C7_normalize_idempotent (l : List Equation) :
    normalize_equations (normalize_equations l) = normalize_equations l := by
  have hkind := norm_kind l
  have hnodup := norm_nodup l
  have hnn := norm_nonneg l
  generalize hG : normalize_equations l = L
  rw [hG] at hkind hnodup hnn
  unfold normalize_equations
  rw [flatMap_singleton fun e he => replace_equal_id (by
    rcases hkind e he with h | h <;> simp [h])]
  rw [map_self fun e he => replace_le_id (by
    rcases hkind e he with h | h <;> simp [h])]
  rw [map_self fun e he => replace_l_id (by
    rcases hkind e he with h | h <;> simp [h])]
  rw [map_self fun e he => replace_g_id (by
    rcases hkind e he with h | h <;> simp [h])]
  rw [map_self fun e he => add_up_id (hnodup e he)]
  rw [map_self fun e he => replace_neg_id (hnn e he)]

theorem pushAt_spec : ∀ (cbv : List (List Nat)) (v x : Nat) (cbv' : List (List Nat)),
    pushAt cbv v x = some cbv' →
    (∃ l, cbv[v]? = some l ∧ cbv'[v]? = some (l ++ [x])) ∧
    (∀ w, w ≠ v → cbv'[w]? = cbv[w]?) ∧ cbv'.length = cbv.length := by
  intro cbv
  induction cbv with
  | nil =>
    intro v x cbv' h
    simp [pushAt] at h
  | cons l rest ih =>
    intro v x cbv' h
    cases v with
    | zero =>
      simp only [pushAt] at h
      obtain rfl := Option.some.inj h
      refine ⟨⟨l, by simp, by simp⟩, ?_, rfl⟩
      intro w hw
      cases w with
      | zero => exact absurd rfl hw
      | succ w2 => simp
    | succ v2 =>
      simp only [pushAt] at h
      rcases hrec : pushAt rest v2 x with _ | rest2
      · rw [hrec] at h
        simp at h
      · rw [hrec] at h
        simp only [Option.map_some'] at h
        obtain rfl := Option.some.inj h
        obtain ⟨⟨l3, hl3, hl3'⟩, hne, hlen⟩ := ih v2 x rest2 hrec
        refine ⟨⟨l3, ?_, ?_⟩, ?_, ?_⟩
        · simpa using hl3
        · simpa using hl3'
        · intro w hw
          cases w with
          | zero => simp
          | succ w2 =>
            simp only [List.getElem?_cons_succ]
            exact hne w2 fun hh => hw (by rw [hh])
        · simp [hlen]

theorem cbv_le_refl (a : List (List Nat)) : cbv_le a a :=
  fun _ l hl => ⟨l, hl, fun _ hx => hx⟩

theorem cbv_le_trans {a b c : List (List Nat)} (h1 : cbv_le a b) (h2 : cbv_le b c) :
    cbv_le a c := by
  intro v l hl
  obtain ⟨l2, hl2, hs2⟩ := h1 v l hl
  obtain ⟨l3, hl3, hs3⟩ := h2 v l2 hl2
  exact ⟨l3, hl3, fun x hx => hs3 (hs2 hx)⟩

theorem pushAt_cbv_le {cbv : List (List Nat)} {v x : Nat} {cbv' : List (List Nat)}
    (h : pushAt cbv v x = some cbv') : cbv_le cbv cbv' := by
  intro w l hw
  obtain ⟨⟨l0, h1, h2⟩, hne, _⟩ := pushAt_spec cbv v x cbv' h
  by_cases hwv : w = v
  · subst hwv
    rw [hw] at h1
    obtain rfl := Option.some.inj h1
    exact ⟨l ++ [x], h2, by simp⟩
  · exact ⟨l, by rw [hne w hwv, hw], fun _ hx => hx⟩

theorem add_summand_none (cc : Nat) : ∀ lhs : List Summand,
    lhs.foldl (add_summand_step cc) none = none := by
  intro lhs
  induction lhs with
  | nil => rfl
  | cons s rest ih => simpa [add_summand_step] using ih

theorem foldl_add_summand_spec (cc : Nat) : ∀ (lhs : List Summand) (c : Constraint)
    (cbv : List (List Nat)) (c' : Constraint) (cbv' : List (List Nat)),
    lhs.foldl (add_summand_step cc) (some (c, cbv)) = some (c', cbv') →
    cbv_le cbv cbv' ∧
    c'.degree = c.degree ∧ c'.constraint_type = c.constraint_type ∧
    c'.index = c.index ∧
    (∀ s ∈ lhs, ∃ l : List Nat, cbv'[s.variable_index]? = some l ∧ cc ∈ l) := by
  intro lhs
  induction lhs with
  | nil =>
    intro c cbv c' cbv' h
    simp only [List.foldl_nil, Option.some.injEq, Prod.mk.injEq] at h
    obtain ⟨rfl, rfl⟩ := h
    exact ⟨cbv_le_refl _, rfl, rfl, rfl, by simp⟩
  | cons s rest ih =>
    intro c cbv c' cbv' h
    simp only [List.foldl_cons] at h
    rcases hpush : pushAt cbv s.variable_index cc with _ | cbv2
    · rw [show add_summand_step cc (some (c, cbv)) s = none from by
        simp [add_summand_step, hpush]] at h
      rw [add_summand_none] at h
      exact Option.noConfusion h
    · rw [show add_summand_step cc (some (c, cbv)) s = some ({ c with
        literals := c.literals.insert s.variable_index
          { index := s.variable_index, factor := as_u128 s.factor,
            positive := s.positive },
        unassigned_literals := c.unassigned_literals.insert s.variable_index
          { index := s.variable_index, factor := as_u128 s.factor,
            positive := s.positive } }, cbv2) from by
        simp [add_summand_step, hpush]] at h
      obtain ⟨hle, hdeg, hct, hidx, hmem⟩ := ih _ _ _ _ h
      refine ⟨cbv_le_trans (pushAt_cbv_le hpush) hle,
        by rw [hdeg], by rw [hct], by rw [hidx], ?_⟩
      intro s2 hs2
      rcases List.mem_cons.mp hs2 with rfl | h2
      · obtain ⟨⟨l0, hl0, hl0'⟩, _, _⟩ := pushAt_spec _ _ _ _ hpush
        obtain ⟨l', hl', hsub⟩ := hle _ _ hl0'
        exact ⟨l', hl', hsub (by simp)⟩
      · exact hmem s2 h2

theorem add_equation_spec {cs0 : List Constraint} {cbv0 : List (List Nat)}
    {e : Equation} {cs1 : List Constraint} {cbv1 : List (List Nat)}
    (h : add_equation_to_formula (cs0, cbv0) e = some (cs1, cbv1)) :
    ∃ c, cs1 = cs0 ++ [c] ∧
      (c.constraint_type = .GreaterEqual ∨ c.constraint_type = .NotEqual) ∧
      c.degree = (if e.rhs < 0 then 0 else e.rhs) ∧
      cbv_le cbv0 cbv1 ∧
      (∀ s ∈ e.lhs, ∃ l : List Nat,
        cbv1[s.variable_index]? = some l ∧ cs0.length ∈ l) := by
  unfold add_equation_to_formula at h
  rcases hty : get_constraint_type_from_equation e with _ | ctype
  · rw [hty] at h
    exact Option.noConfusion h
  · rw [hty] at h
    simp only at h
    split at h
    · exact Option.noConfusion h
    · rename_i c1 cbv hfold
      rw [Option.some.injEq, Prod.mk.injEq] at h
      obtain ⟨hcs, hcbv⟩ := h
      subst hcs
      subst hcbv
      obtain ⟨hle, hdeg, hct, hidx, hmem⟩ := foldl_add_summand_spec _ _ _ _ _ _ hfold
      have hty2 : ctype = .GreaterEqual ∨ ctype = .NotEqual := by
        unfold get_constraint_type_from_equation at hty
        cases hk : e.kind <;> rw [hk] at hty <;> simp at hty
        · exact Or.inl hty.symm
        · exact Or.inr hty.symm
      refine ⟨{ c1 with max_literal := c1.get_max_literal }, rfl, ?_, ?_, hle, ?_⟩
      · show c1.constraint_type = .GreaterEqual ∨ c1.constraint_type = .NotEqual
        rw [hct]
        exact hty2
      · show c1.degree = _
        rw [hdeg]
      · intro s hs
        exact hmem s hs

theorem foldlM_add_equation_spec : ∀ (es : List Equation) (cs0 : List Constraint)
    (cbv0 : List (List Nat)) (cs1 : List Constraint) (cbv1 : List (List Nat)),
    List.foldlM add_equation_to_formula (cs0, cbv0) es = some (cs1, cbv1) →
    (∃ tl, cs1 = cs0 ++ tl ∧ tl.length = es.length) ∧
    cbv_le cbv0 cbv1 ∧
    (∀ i e, es[i]? = some e →
      ∃ c, cs1[cs0.length + i]? = some c ∧
        (c.constraint_type = .GreaterEqual ∨ c.constraint_type = .NotEqual) ∧
        c.degree = (if e.rhs < 0 then 0 else e.rhs) ∧
        ∀ s ∈ e.lhs, ∃ l : List Nat, cbv1[s.variable_index]? = some l ∧
          (cs0.length + i) ∈ l) := by
  intro es
  induction es with
  | nil =>
    intro cs0 cbv0 cs1 cbv1 h
    simp only [List.foldlM_nil, pure, Option.some.injEq, Prod.mk.injEq] at h
    obtain ⟨rfl, rfl⟩ := h
    refine ⟨⟨[], by simp, rfl⟩, cbv_le_refl _, ?_⟩
    intro i e hie
    simp at hie
  | cons e rest ih =>
    intro cs0 cbv0 cs1 cbv1 h
    rw [List.foldlM_cons] at h
    rcases hstep : add_equation_to_formula (cs0, cbv0) e with _ | p
    · rw [hstep] at h
      exact Option.noConfusion h
    · obtain ⟨csm, cbvm⟩ := p
      rw [hstep] at h
      obtain ⟨c, hcs, hty, hdeg, hle0, hmem0⟩ := add_equation_spec hstep
      obtain ⟨⟨tl, htl, htlen⟩, hle1, hidx⟩ := ih _ _ _ _ h
      subst hcs
      have htl' : cs1 = cs0 ++ c :: tl := by
        rw [htl]
        simp
      refine ⟨⟨c :: tl, htl', by simp [htlen]⟩, cbv_le_trans hle0 hle1, ?_⟩
      intro i e2 hie
      cases i with
      | zero =>
        simp only [List.getElem?_cons_zero] at hie
        obtain rfl := Option.some.inj hie
        refine ⟨c, ?_, hty, hdeg, ?_⟩
        · rw [htl', Nat.add_zero]
          rw [List.getElem?_append_right (Nat.le_refl _)]
          simp
        · intro s hs
          obtain ⟨l, hl, hmem⟩ := hmem0 s hs
          obtain ⟨l', hl', hsub⟩ := hle1 _ _ hl
          exact ⟨l', hl', by simpa using hsub hmem⟩
      | succ i2 =>
        simp only [List.getElem?_cons_succ] at hie
        obtain ⟨c2, hc2, hty2, hdeg2, hmem2⟩ := hidx i2 e2 hie
        have hshift : cs0.length + (i2 + 1) = (cs0 ++ [c]).length + i2 := by
          simp
          omega
        refine ⟨c2, ?_, hty2, hdeg2, ?_⟩
        · rw [hshift]
          exact hc2
        · intro s hs
          obtain ⟨l, hl, hm⟩ := hmem2 s hs
          refine ⟨l, hl, ?_⟩
          rw [hshift]
          exact hm

/-- C6: every constraint `PseudoBooleanFormula::new` builds from a parsed
OPB file is `GreaterEqual` or `NotEqual`, every factor of the normalized
equations is non-negative, and the degree is the right-hand side clamped at
0 (so non-negative); an equation whose right-hand side stays negative is
kept as a constraint together with its variable incidences in
`constraints_by_variable`. -/
theorem C6_formula_construction (file : OPBFile) (φ : PseudoBooleanFormula)
    (h : PseudoBooleanFormula.new file = some φ) :
    (∀ e ∈ normalize_equations file.equations, ∀ s ∈ e.lhs, 0 ≤ s.factor) ∧
    φ.constraints.length = (normalize_equations file.equations).length ∧
    (∀ i e, (normalize_equations file.equations)[i]? = some e →
      ∃ c, φ.constraints[i]? = some c ∧
        (c.constraint_type = .GreaterEqual ∨ c.constraint_type = .NotEqual) ∧
        c.degree = (if e.rhs < 0 then 0 else e.rhs) ∧ 0 ≤ c.degree ∧
        ∀ s ∈ e.lhs, ∃ l : List Nat,
          φ.constraints_by_variable[s.variable_index]? = some l ∧ i ∈ l) := by
  refine ⟨norm_nonneg _, ?_, ?_⟩ <;>
  · simp only [PseudoBooleanFormula.new] at h
    split at h
    · exact Option.noConfusion h
    · split at h
      · exact Option.noConfusion h
      · rename_i cs cbv hfold
        obtain rfl := (Option.some.inj h).symm
        obtain ⟨⟨tl, htl, hlen⟩, _, hidx⟩ :=
          foldlM_add_equation_spec _ _ _ _ _ hfold
        simp only [List.nil_append] at htl
        subst htl
        first
          | exact hlen
          | (intro i e hie
             obtain ⟨c, hc, hty, hdeg, hmem⟩ := hidx i e hie
             simp only [List.length_nil, Nat.zero_add] at hc hmem
             exact ⟨c, hc, hty, hdeg, by rw [hdeg]; split <;> omega, hmem⟩)

/-- Witness for C6 on the file `1 x1 >= -1;`: `new` succeeds and the single
constraint has clamped degree 0. -/
theorem C6_formula_construction_witness :
    PseudoBooleanFormula.new exNegFile = some exNegFormula ∧
    ∀ e ∈ normalize_equations exNegFile.equations, ∀ s ∈ e.lhs, 0 ≤ s.factor :=
  ⟨by decide, (C6_formula_construction exNegFile exNegFormula (by decide)).1⟩


/-! ### Claims C1 and C5: end-to-end run and component decomposition -/

/-- C1: for the spec's worked input `#variable= 2 #constraint= 1` /
`x1 + x2 >= 1;` the solver reports model count 3, and printing the
resulting d-DNNF yields exactly the expected four lines — for every
behaviour of the external partition oracle, which this run never
consults. -/
theorem C1_example_end_to_end (oracle : PartitionOracle) :
    ∃ (pbf : PseudoBooleanFormula) (res : SolverResult)
      (out : String) (pr : DDNNFPrinter),
      PseudoBooleanFormula.new exC1File = some pbf ∧
      (Solver.new pbf).solve oracle 64 = some res ∧
      res.model_count = 3 ∧
      (DDNNFPrinter.new res.ddnnf).print 64 = some (out, pr) ∧
      out = "o 1 0\nt 2 0\n1 2 2 -1 0\n1 2 1 0\n" := by
  refine ⟨_, _, _, _, rfl, rfl, rfl, rfl, rfl⟩

/-- C5 counterexample: on `exC5File` the bootstrap simplification leaves
two active disjoint constraints and the unconstrained variables `x1`, `x2`
(indices 0 and 1).  Component decomposition then produces three
components — the two constraint components and ONE component `{0, 1}`
shared by both single variables — not one component per single variable:
no component is `{0}` and none is `{1}`. -/
theorem C5_counterexample :
    ∃ (pbf : PseudoBooleanFormula) (s1 s2 : Solver) (cbf : ComponentBasedFormula),
      PseudoBooleanFormula.new exC5File = some pbf ∧
      (Solver.new pbf).simplify 16 = some (true, s1) ∧
      Solver.to_disconnected_components nullPartition s1 64 = some (some cbf, s2) ∧
      cbf.components.map Component.vars = ([[2, 3], [4, 5], [0, 1]] : List NSet) ∧
      ¬ (∃ comp ∈ cbf.components, comp.vars = ([0] : NSet)) ∧
      ¬ (∃ comp ∈ cbf.components, comp.vars = ([1] : NSet)) := by
  refine ⟨_, _, _, _, rfl, rfl, rfl, rfl, by decide, by decide⟩

/-- C5 (amended): whenever `Hypergraph::create_partition` runs with a
non-empty `single_variables` set, all collected single variables are
placed into ONE shared extra component, appended after the partition
components: its variable set is exactly `single_variables`, it has zero
unsatisfied constraints, an empty constraint scope, and its
unassigned-variable count is the number of collected variables. -/
theorem C5_single_variables_shared_component (hg : Hypergraph) (s : Solver)
    (partvec : List Nat) (cbf : ComponentBasedFormula)
    (h : hg.create_partition s partvec = some cbf)
    (hs : hg.single_variables.size > 0) :
    ∃ comp : Component,
      cbf.components.getLast? = some comp ∧
      comp.vars = hg.single_variables ∧
      comp.number_unsat_constraints = 0 ∧
      comp.number_unassigned_variables = hg.single_variables.size ∧
      comp.constraint_indexes_in_scope = NSet.empty := by
  simp only [Hypergraph.create_partition] at h
  split at h
  · exact Option.noConfusion h
  · rw [Option.some.injEq] at h
    subst h
    rw [if_pos hs]
    refine ⟨{ vars := hg.single_variables, number_unsat_constraints := 0,
              number_unassigned_variables := hg.single_variables.size,
              constraint_indexes_in_scope := NSet.empty }, ?_, rfl, rfl, rfl, rfl⟩
    simp

/-- C5 amended-claim witness: the shared-single-variables component on a
concrete hypergraph whose `single_variables` are `{7, 9}` (with an empty
partition vector). -/
theorem C5_single_variables_shared_component_witness :
    ∃ (cbf : ComponentBasedFormula),
      exC5Hg.create_partition exC8Solver [] = some cbf ∧
      ∃ comp : Component,
        cbf.components.getLast? = some comp ∧
        comp.vars = exC5Hg.single_variables ∧
        comp.number_unsat_constraints = 0 ∧
        comp.number_unassigned_variables = exC5Hg.single_variables.size ∧
        comp.constraint_indexes_in_scope = NSet.empty :=
  ⟨_, rfl, C5_single_variables_shared_component exC5Hg exC8Solver [] _ rfl (by decide)⟩

/-! ### Claim C8: the shape of learned constraints -/

namespace SMap

theorem find?_insert {α : Type} (m : SMap α) (k : Nat) (v : α) (j : Nat) :
    (m.insert k v).find? j = if j = k then some v else m.find? j := by
  by_cases hj : j = k
  · subst hj
    rw [if_pos rfl]
    exact find?_insert_self m j v
  · rw [if_neg hj]
    exact find?_insert_ne m k v hj

end SMap

/-- `an_build_fold` preserves the learned-constraint shape invariant. -/
theorem LearnedShape.step {c : Constraint} (p : Nat × Option AnEntry)
    (hc : LearnedShape c) : LearnedShape (an_build_fold c p) := by
  rcases p with ⟨k, _ | ⟨kind, sign, dl⟩⟩
  · exact hc
  · obtain ⟨h1, h2, h3, h4⟩ := hc
    refine ⟨h1, h2, ?_, ?_⟩
    · intro j
      show ((c.literals.insert k ⟨k, 1, !sign⟩).find? j).isSome
        = ((c.assignments.insert k (sign, kind, dl)).find? j).isSome
      rw [SMap.find?_insert, SMap.find?_insert]
      by_cases hj : j = k
      · rw [if_pos hj, if_pos hj]
        rfl
      · rw [if_neg hj, if_neg hj]
        exact h3 j
    · intro j e he
      replace he :
          (c.assignments.insert k (sign, kind, dl)).find? j = some e := he
      show (c.literals.insert k ⟨k, 1, !sign⟩).find? j = some ⟨j, 1, !e.1⟩
      rw [SMap.find?_insert] at he
      rw [SMap.find?_insert]
      by_cases hj : j = k
      · rw [if_pos hj] at he
        rw [if_pos hj]
        rw [Option.some.injEq] at he
        subst hj
        rw [← he]
      · rw [if_neg hj] at he
        rw [if_neg hj]
        exact h4 j e he

/-- The reason-set folds of `Solver::analyze` preserve the shape
invariant. -/
theorem LearnedShape.build (l : List (Nat × Option AnEntry)) :
    ∀ c : Constraint, LearnedShape c → LearnedShape (l.foldl an_build_fold c) := by
  induction l with
  | nil => intro c hc; exact hc
  | cons p rest ih =>
    intro c hc
    rw [List.foldl_cons]
    exact ih _ (LearnedShape.step p hc)

/-- C8: every constraint produced by `Solver::analyze` is a `GreaterEqual`
constraint of degree 1 whose literal map holds exactly one literal per
surviving reason entry, each with factor 1 and the polarity opposite the
sign that variable was assigned. -/
theorem C8_learned_constraint_shape (s : Solver) (cvi : SMap AnEntry) (fuel : Nat)
    (c : Constraint) (s' : Solver) (h : s.analyze cvi fuel = some (c, s')) :
    LearnedShape c := by
  simp only [Solver.analyze] at h
  split at h
  · exact Option.noConfusion h
  split at h
  · exact Option.noConfusion h
  rename_i rp rd hloop
  split at h
  · exact Option.noConfusion h
  rw [Option.some.injEq, Prod.mk.injEq] at h
  obtain ⟨hc, -⟩ := h
  subst hc
  have base : LearnedShape
      { assignments := SMap.empty,
        index := .LearnedClauseIndex s.learned_clauses.length,
        unassigned_literals := SMap.empty, literals := SMap.empty,
        sum_true := 0, sum_unassigned := 0, degree := 1, factor_sum := 0,
        hash_value := 0, hash_value_old := true,
        constraint_type := .GreaterEqual,
        max_literal := { index := 0, factor := 0, positive := false } } :=
    ⟨rfl, rfl, fun _ => rfl, fun _ e he => Option.noConfusion he⟩
  have h2 := LearnedShape.build rd.enum _ (LearnedShape.build rp.enum _ base)
  exact ⟨h2.1, h2.2.1, h2.2.2.1, h2.2.2.2⟩

/-- C8 witness: `analyze` on the one-decision scenario `exC8Solver` /
`exC8Cvi` produces a learned constraint, and it has the proved shape. -/
theorem C8_learned_constraint_shape_witness :
    ∃ (c : Constraint) (s' : Solver),
      exC8Solver.analyze exC8Cvi 4 = some (c, s') ∧ LearnedShape c :=
  ⟨_, _, rfl, C8_learned_constraint_shape exC8Solver exC8Cvi 4 _ _ rfl⟩

/-! ### Claim C9: stack parity -/

theorem StacksEq.trans {a b c : Solver} (h1 : StacksEq a b) (h2 : StacksEq b c) :
    StacksEq a c :=
  ⟨h2.1.trans h1.1, h2.2.trans h1.2⟩

theorem StacksEq.balanced {a b : Solver} (h : StacksEq a b) (hb : StacksBalanced a) :
    StacksBalanced b := by
  unfold StacksBalanced at hb ⊢
  rw [h.1, h.2]
  exact hb

/-- The normal-constraint propagation loop never touches the result or
d-DNNF stacks. -/
theorem propagate_constraints_stacks (i : Nat) (sg : Bool) (k : AssignmentKind) :
    ∀ (cis : List Nat) (s : Solver) (queue : List PropQueueEntry)
      (out : (ConstraintIndex × Solver) ⊕ (Solver × List PropQueueEntry)),
      Solver.propagate_constraints i sg k s queue cis = some out →
      StacksEq s (psOut out) := by
  intro cis
  induction cis with
  | nil =>
    intro s queue out h
    simp only [Solver.propagate_constraints] at h
    rw [Option.some.injEq] at h
    subst h
    exact ⟨rfl, rfl⟩
  | cons ci rest ih =>
    intro s queue out h
    simp only [Solver.propagate_constraints] at h
    split at h
    · exact Option.noConfusion h
    split at h
    · exact Option.noConfusion h
    split at h
    all_goals
      first
        | (rw [Option.some.injEq] at h; subst h; exact ⟨rfl, rfl⟩)
        | exact ⟨(ih _ _ _ h).1, (ih _ _ _ h).2⟩

/-- The learned-clause propagation loop never touches the stacks. -/
theorem propagate_learned_stacks (i : Nat) (sg : Bool) (k : AssignmentKind) :
    ∀ (cis : List Nat) (s : Solver) (queue : List PropQueueEntry)
      (out : (ConstraintIndex × Solver) ⊕ (Solver × List PropQueueEntry)),
      Solver.propagate_learned i sg k s queue cis = some out →
      StacksEq s (psOut out) := by
  intro cis
  induction cis with
  | nil =>
    intro s queue out h
    simp only [Solver.propagate_learned] at h
    rw [Option.some.injEq] at h
    subst h
    exact ⟨rfl, rfl⟩
  | cons ci rest ih =>
    intro s queue out h
    simp only [Solver.propagate_learned] at h
    split at h
    · exact Option.noConfusion h
    split at h
    · exact Option.noConfusion h
    split at h
    all_goals
      first
        | (rw [Option.some.injEq] at h; subst h; exact ⟨rfl, rfl⟩)
        | exact ⟨(ih _ _ _ h).1, (ih _ _ _ h).2⟩

/-- The propagation queue loop never touches the stacks. -/
theorem propagate_loop_stacks :
    ∀ (fuel : Nat) (s : Solver) (queue : List PropQueueEntry)
      (r : Option ConstraintIndex) (s' : Solver),
      Solver.propagate_loop s queue fuel = some (r, s') → StacksEq s s' := by
  intro fuel
  induction fuel with
  | zero =>
    intro s queue r s' h
    rcases queue with _ | ⟨e, q⟩ <;> exact Option.noConfusion h
  | succ fuel ih =>
    intro s queue r s' h
    rcases queue with _ | ⟨⟨index, sign, kind, fl⟩, queue⟩
    · simp only [Solver.propagate_loop] at h
      rw [Option.some.injEq, Prod.mk.injEq] at h
      obtain ⟨-, hs⟩ := h
      subst hs
      exact ⟨rfl, rfl⟩
    · simp only [Solver.propagate_loop] at h
      split at h
      · exact ih _ _ _ _ h
      split at h
      · exact Option.noConfusion h
      · split at h
        · exact ih _ _ _ _ h
        · exact Option.noConfusion h
      · split at h
        · exact Option.noConfusion h
        split at h
        · exact Option.noConfusion h
        · rename_i conflict s2 hpc
          rw [Option.some.injEq, Prod.mk.injEq] at h
          obtain ⟨-, hs⟩ := h
          subst hs
          have hA := propagate_constraints_stacks _ _ _ _ _ _ _ hpc
          exact ⟨hA.1, hA.2⟩
        · rename_i s2 queue2 hpc
          split at h
          · exact Option.noConfusion h
          split at h
          · exact Option.noConfusion h
          · rename_i conflict s3 hpl
            rw [Option.some.injEq, Prod.mk.injEq] at h
            obtain ⟨-, hs⟩ := h
            subst hs
            have hA := propagate_constraints_stacks _ _ _ _ _ _ _ hpc
            have hB := propagate_learned_stacks _ _ _ _ _ _ _ hpl
            exact ⟨hB.1.trans hA.1, hB.2.trans hA.2⟩
          · rename_i s3 queue3 hpl
            have hA := propagate_constraints_stacks _ _ _ _ _ _ _ hpc
            have hB := propagate_learned_stacks _ _ _ _ _ _ _ hpl
            have hC := ih _ _ _ _ h
            exact ⟨hC.1.trans (hB.1.trans hA.1), hC.2.trans (hB.2.trans hA.2)⟩

/-- `Solver::propagate` never touches the stacks. -/
theorem propagate_stacks (s : Solver) (vi : Nat) (vs : Bool) (k : AssignmentKind)
    (fuel : Nat) (r : Option ConstraintIndex) (s' : Solver)
    (h : s.propagate vi vs k fuel = some (r, s')) : StacksEq s s' :=
  propagate_loop_stacks fuel s _ r s' h

/-- The constraint undo loop never touches the stacks. -/
theorem undo_in_constraints_stacks (la : VariableAssignment) :
    ∀ (cis : List Nat) (s s' : Solver),
      Solver.undo_in_constraints la s cis = some s' → StacksEq s s' := by
  intro cis
  induction cis with
  | nil =>
    intro s s' h
    simp only [Solver.undo_in_constraints] at h
    rw [Option.some.injEq] at h
    subst h
    exact ⟨rfl, rfl⟩
  | cons ci rest ih =>
    intro s s' h
    simp only [Solver.undo_in_constraints] at h
    split at h
    · exact Option.noConfusion h
    · split at h <;> exact ⟨(ih _ _ h).1, (ih _ _ h).2⟩

/-- The learned-clause undo loop never touches the stacks. -/
theorem undo_in_learned_stacks (la : VariableAssignment) :
    ∀ (cis : List Nat) (s s' : Solver),
      Solver.undo_in_learned la s cis = some s' → StacksEq s s' := by
  intro cis
  induction cis with
  | nil =>
    intro s s' h
    simp only [Solver.undo_in_learned] at h
    rw [Option.some.injEq] at h
    subst h
    exact ⟨rfl, rfl⟩
  | cons ci rest ih =>
    intro s s' h
    simp only [Solver.undo_in_learned] at h
    split at h
    · exact Option.noConfusion h
    · exact ⟨(ih _ _ h).1, (ih _ _ h).2⟩

/-- `Solver::undo_last_assignment` never touches the stacks. -/
theorem undo_last_assignment_stacks (s s' : Solver)
    (h : s.undo_last_assignment = some s') : StacksEq s s' := by
  simp only [Solver.undo_last_assignment] at h
  split at h
  · exact Option.noConfusion h
  · rw [Option.some.injEq] at h
    subst h
    exact ⟨rfl, rfl⟩
  · split at h
    · exact Option.noConfusion h
    split at h
    · exact Option.noConfusion h
    rename_i s2 hundo
    split at h
    · exact Option.noConfusion h
    have hA := undo_in_constraints_stacks _ _ _ _ hundo
    have hB := undo_in_learned_stacks _ _ _ _ h
    exact ⟨hB.1.trans hA.1, hB.2.trans hA.2⟩

/-- `Solver::analyze` only rebuilds the VSIDS scores: the stacks are
untouched. -/
theorem analyze_stacks (s : Solver) (cvi : SMap AnEntry) (fuel : Nat)
    (c : Constraint) (s' : Solver) (h : s.analyze cvi fuel = some (c, s')) :
    StacksEq s s' := by
  simp only [Solver.analyze] at h
  split at h
  · exact Option.noConfusion h
  split at h
  · exact Option.noConfusion h
  split at h
  · exact Option.noConfusion h
  rw [Option.some.injEq, Prod.mk.injEq] at h
  obtain ⟨-, hs⟩ := h
  subst hs
  exact ⟨rfl, rfl⟩

/-- `Solver::safe_conflict_clause` never touches the stacks. -/
theorem safe_conflict_clause_stacks (s : Solver) (ci : ConstraintIndex) (fuel : Nat)
    (s' : Solver) (h : s.safe_conflict_clause ci fuel = some s') : StacksEq s s' := by
  simp only [Solver.safe_conflict_clause] at h
  split at h
  · exact Option.noConfusion h
  split at h
  · exact Option.noConfusion h
  rename_i lc s1 han
  have hA := analyze_stacks _ _ _ _ _ han
  split at h
  · split at h
    · exact Option.noConfusion h
    rw [Option.some.injEq] at h
    subst h
    exact ⟨hA.1, hA.2⟩
  · rw [Option.some.injEq] at h
    subst h
    exact ⟨hA.1, hA.2⟩

/-- The cache write never touches the stacks. -/
theorem cache_insert_stacks (s : Solver) (mc : Nat) (node : DDNNFNode) (s' : Solver)
    (h : s.cache_insert mc node = some s') : StacksEq s s' := by
  simp only [Solver.cache_insert] at h
  split at h
  · split at h
    · exact Option.noConfusion h
    · rw [Option.some.injEq] at h
      subst h
      exact ⟨rfl, rfl⟩
  · rw [Option.some.injEq] at h
    subst h
    exact ⟨rfl, rfl⟩

/-- The fallback variable scan never touches the stacks. -/
theorem gnv_base_stacks (s : Solver) (r : Option Nat) (s' : Solver)
    (h : Solver.gnv_base s = some (r, s')) : StacksEq s s' := by
  simp only [Solver.gnv_base] at h
  split at h
  · exact Option.noConfusion h
  · rw [Option.some.injEq, Prod.mk.injEq] at h
    obtain ⟨-, hs⟩ := h
    subst hs
    exact ⟨rfl, rfl⟩

/-- `Solver::get_next_variable` never touches the stacks. -/
theorem get_next_variable_stacks (s : Solver) (r : Option Nat) (s' : Solver)
    (h : s.get_next_variable = some (r, s')) : StacksEq s s' := by
  simp only [Solver.get_next_variable] at h
  split at h
  · rw [Option.some.injEq, Prod.mk.injEq] at h
    obtain ⟨-, hs⟩ := h
    subst hs
    exact ⟨rfl, rfl⟩
  split at h
  · split at h
    · exact Option.noConfusion h
    · rw [Option.some.injEq, Prod.mk.injEq] at h
      obtain ⟨-, hs⟩ := h
      subst hs
      exact ⟨rfl, rfl⟩
    · exact ⟨(gnv_base_stacks _ _ _ h).1, (gnv_base_stacks _ _ _ h).2⟩
  · exact gnv_base_stacks _ _ _ h

/-- `Solver::decide` never touches the stacks. -/
theorem decide_stacks (s : Solver) (r : Option (Nat × Bool)) (s' : Solver)
    (h : s.decide = some (r, s')) : StacksEq s s' := by
  simp only [Solver.decide] at h
  split at h
  · rw [Option.some.injEq, Prod.mk.injEq] at h
    obtain ⟨-, hs⟩ := h
    subst hs
    exact ⟨rfl, rfl⟩
  · split at h
    · exact Option.noConfusion h
    · rename_i s1 hgnv
      rw [Option.some.injEq, Prod.mk.injEq] at h
      obtain ⟨-, hs⟩ := h
      subst hs
      exact get_next_variable_stacks _ _ _ hgnv
    · rename_i vi s1 hgnv
      rw [Option.some.injEq, Prod.mk.injEq] at h
      obtain ⟨-, hs⟩ := h
      subst hs
      exact ⟨(get_next_variable_stacks _ _ _ hgnv).1,
             (get_next_variable_stacks _ _ _ hgnv).2⟩

/-- `Solver::to_disconnected_components` never touches the stacks. -/
theorem to_disconnected_components_stacks (oracle : PartitionOracle) (s : Solver)
    (fuel : Nat) (r : Option ComponentBasedFormula) (s' : Solver)
    (h : Solver.to_disconnected_components oracle s fuel = some (r, s')) :
    StacksEq s s' := by
  simp only [Solver.to_disconnected_components] at h
  split at h
  · exact Option.noConfusion h
  split at h
  · split at h
    · exact Option.noConfusion h
    split at h
    · exact Option.noConfusion h
    · split at h
      · exact Option.noConfusion h
      · rw [Option.some.injEq, Prod.mk.injEq] at h
        obtain ⟨-, hs⟩ := h
        subst hs
        exact ⟨rfl, rfl⟩
    · split at h
      · split at h
        · exact Option.noConfusion h
        · rw [Option.some.injEq, Prod.mk.injEq] at h
          obtain ⟨-, hs⟩ := h
          subst hs
          exact ⟨rfl, rfl⟩
      · rw [Option.some.injEq, Prod.mk.injEq] at h
        obtain ⟨-, hs⟩ := h
        subst hs
        exact ⟨rfl, rfl⟩
  · rw [Option.some.injEq, Prod.mk.injEq] at h
    obtain ⟨-, hs⟩ := h
    subst hs
    exact ⟨rfl, rfl⟩

/-- `Solver::branch_components` never touches the stacks. -/
theorem branch_components_stacks (oracle : PartitionOracle) (s : Solver) (fuel : Nat)
    (b : Bool) (s' : Solver) (h : s.branch_components oracle fuel = some (b, s')) :
    StacksEq s s' := by
  simp only [Solver.branch_components] at h
  split at h
  · exact Option.noConfusion h
  · rename_i s1 htdc
    rw [Option.some.injEq, Prod.mk.injEq] at h
    obtain ⟨-, hs⟩ := h
    subst hs
    exact to_disconnected_components_stacks _ _ _ _ _ htdc
  · rename_i cbf s1 htdc
    split at h
    · exact Option.noConfusion h
    · rw [Option.some.injEq, Prod.mk.injEq] at h
      obtain ⟨-, hs⟩ := h
      subst hs
      have hA := to_disconnected_components_stacks _ _ _ _ _ htdc
      exact ⟨hA.1, hA.2⟩

/-- `bt_dl0_node` pushes exactly one node and leaves the result stack
alone. -/
theorem bt_dl0_node_stacks (la : VariableAssignment) (s1 : Solver) (node : DDNNFNode) :
    (bt_dl0_node la s1 node).result_stack = s1.result_stack ∧
    (bt_dl0_node la s1 node).ddnnf_stack.length = s1.ddnnf_stack.length + 1 := by
  unfold bt_dl0_node
  split
  · split
    · exact ⟨rfl, rfl⟩
    · exact ⟨rfl, rfl⟩
  · exact ⟨rfl, rfl⟩

/-- `bt_prop_node` pushes exactly one node and leaves the result stack
alone. -/
theorem bt_prop_node_stacks (la : VariableAssignment) (s1 : Solver) (node : DDNNFNode) :
    (bt_prop_node la s1 node).result_stack = s1.result_stack ∧
    (bt_prop_node la s1 node).ddnnf_stack.length = s1.ddnnf_stack.length + 1 := by
  unfold bt_prop_node
  split
  · exact ⟨rfl, rfl⟩
  · exact ⟨rfl, rfl⟩
  · exact ⟨rfl, rfl⟩

/-- The `d2` transformation only draws an id: the stacks are untouched. -/
theorem bt_d2_snd (la : VariableAssignment) (s : Solver) (d2 : DDNNFNode) :
    (bt_d2 la s d2).2.result_stack = s.result_stack ∧
    (bt_d2 la s d2).2.ddnnf_stack = s.ddnnf_stack := by
  cases d2 <;> exact ⟨rfl, rfl⟩

/-- The branch combination only draws an id: the stacks are untouched. -/
theorem bt_or_res_snd (s : Solver) (d1t d2t : DDNNFNode) :
    (bt_or_res s d1t d2t).2.result_stack = s.result_stack ∧
    (bt_or_res s d1t d2t).2.ddnnf_stack = s.ddnnf_stack := by
  unfold bt_or_res
  split
  · exact ⟨rfl, rfl⟩
  split
  · exact ⟨rfl, rfl⟩
  split
  · exact ⟨rfl, rfl⟩
  · exact ⟨rfl, rfl⟩

/-- The component pop loop removes the same number of entries from both
stacks. -/
theorem bt_pop_components_lengths :
    ∀ (n acc : Nat) (ch : List DDNNFNode) (zf : Bool) (rs : List Nat)
      (dd : List DDNNFNode)
      (out : Nat × List DDNNFNode × Bool × List Nat × List DDNNFNode),
      bt_pop_components n acc ch zf rs dd = some out →
      rs.length = out.2.2.2.1.length + n ∧ dd.length = out.2.2.2.2.length + n := by
  intro n
  induction n with
  | zero =>
    intro acc ch zf rs dd out h
    simp only [bt_pop_components] at h
    rw [Option.some.injEq] at h
    subst h
    exact ⟨rfl, rfl⟩
  | succ n ih =>
    intro acc ch zf rs dd out h
    rcases rs with _ | ⟨r, rs1⟩ <;> rcases dd with _ | ⟨d, dd1⟩ <;>
      simp only [bt_pop_components] at h
    · exact Option.noConfusion h
    · exact Option.noConfusion h
    · exact Option.noConfusion h
    · obtain ⟨h1, h2⟩ := ih _ _ _ _ _ _ h
      constructor <;> simp only [List.length_cons] <;> omega

/-- One backtrack iteration preserves the stack-parity invariant. -/
theorem backtrack_core_balanced (node_id : Nat) (t : Solver) (fuel : Nat)
    (st : BtStep) (h : Solver.backtrack_core node_id t fuel = some st)
    (hb : StacksBalanced t) : StacksBalanced (btOut st) := by
  have hblen : t.result_stack.length = t.ddnnf_stack.length := hb
  simp only [Solver.backtrack_core] at h
  split at h
  · -- empty assignment stack
    rw [Option.some.injEq] at h
    subst h
    exact hb
  · -- Assignment on top
    rename_i la hhead
    split at h
    · -- decision level 0
      split at h
      · exact Option.noConfusion h
      rename_i node dd hdd
      split at h
      · -- FalseLeave: push it back, done false
        rw [Option.some.injEq] at h
        subst h
        show t.result_stack.length = dd.length + 1
        rw [hdd] at hblen
        simp only [List.length_cons] at hblen
        omega
      · -- rebuild the node, undo, continue
        split at h
        · exact Option.noConfusion h
        rename_i s3 hundo
        rw [Option.some.injEq] at h
        subst h
        have hu := undo_last_assignment_stacks _ _ hundo
        have hn := bt_dl0_node_stacks la { t with ddnnf_stack := dd } node
        have e1 : s3.result_stack.length = t.result_stack.length := by
          rw [hu.1, hn.1]
        have e2 : s3.ddnnf_stack.length = dd.length + 1 := by
          rw [hu.2, hn.2]
        rw [hdd] at hblen
        simp only [List.length_cons] at hblen
        show s3.result_stack.length = s3.ddnnf_stack.length
        omega
    · -- decision level > 0
      split at h
      · -- Propagated
        split at h
        · exact Option.noConfusion h
        rename_i node dd hdd
        split at h
        · exact Option.noConfusion h
        rename_i s3 hundo
        rw [Option.some.injEq] at h
        subst h
        have hu := undo_last_assignment_stacks _ _ hundo
        have hn := bt_prop_node_stacks la { t with ddnnf_stack := dd } node
        have e1 : s3.result_stack.length = t.result_stack.length := by
          rw [hu.1, hn.1]
        have e2 : s3.ddnnf_stack.length = dd.length + 1 := by
          rw [hu.2, hn.2]
        rw [hdd] at hblen
        simp only [List.length_cons] at hblen
        show s3.result_stack.length = s3.ddnnf_stack.length
        omega
      · -- FirstDecision
        split at h
        · exact Option.noConfusion h
        rename_i s1 hundo
        split at h
        · exact Option.noConfusion h
        · -- no conflict: done true
          rename_i s2 hprop
          rw [Option.some.injEq] at h
          subst h
          have hu := undo_last_assignment_stacks _ _ hundo
          have hp := propagate_stacks _ _ _ _ _ _ _ hprop
          exact StacksEq.balanced (StacksEq.trans hu hp) hb
        · -- conflict: learn, push a zero pair, continue
          rename_i ci s2 hprop
          split at h
          · exact Option.noConfusion h
          rename_i s3 hsc
          rw [Option.some.injEq] at h
          subst h
          have hu := undo_last_assignment_stacks _ _ hundo
          have hp := propagate_stacks _ _ _ _ _ _ _ hprop
          have hs := safe_conflict_clause_stacks _ _ _ _ hsc
          have hbal : StacksBalanced s3 :=
            StacksEq.balanced (StacksEq.trans (StacksEq.trans hu hp) hs) hb
          have hx : s3.result_stack.length = s3.ddnnf_stack.length := hbal
          show s3.result_stack.length + 1 = s3.ddnnf_stack.length + 1
          omega
      · -- SecondDecision
        split at h
        · -- r1 :: r2 :: rs on the result stack
          rename_i r1 r2 rs hrs
          split at h
          · exact Option.noConfusion h
          rename_i d1 dd1 hdd1
          split at h
          · exact Option.noConfusion h
          rename_i d2 dd2
          split at h
          · exact Option.noConfusion h
          rename_i s5 hundo
          split at h
          · exact Option.noConfusion h
          rename_i s6 hcache
          rw [Option.some.injEq] at h
          subst h
          have hu := undo_last_assignment_stacks _ _ hundo
          have hcx := cache_insert_stacks _ _ _ _ hcache
          have e1 := hcx.1.trans hu.1
          have e2 := hcx.2.trans hu.2
          try simp only at e1 e2
          rw [(bt_or_res_snd _ _ _).1, (bt_d2_snd _ _ _).1] at e1
          try simp only at e1
          have e2l := congrArg List.length e2
          simp only [List.length_cons] at e2l
          rw [(bt_or_res_snd _ _ _).2, (bt_d2_snd _ _ _).2] at e2l
          try simp only at e2l
          rw [hrs, hdd1] at hblen
          simp only [List.length_cons] at hblen
          have e1l := congrArg List.length e1
          simp only [List.length_cons] at e1l
          show s6.result_stack.length = s6.ddnnf_stack.length
          omega
        · exact Option.noConfusion h
  · -- ComponentBranch on top
    rename_i lb hhead
    split at h
    · -- all components processed: pop and combine
      split at h
      · exact Option.noConfusion h
      rename_i br ch zf rs dd hpop
      rw [Option.some.injEq] at h
      subst h
      obtain ⟨h1, h2⟩ := bt_pop_components_lengths _ _ _ _ _ _ _ hpop
      simp only at h1 h2
      show rs.length + 1 = dd.length + 1
      omega
    · -- install the next component: done true, stacks untouched
      split at h
      · exact Option.noConfusion h
      rw [Option.some.injEq] at h
      subst h
      exact hb

/-- `backtrack_step` preserves the stack-parity invariant. -/
theorem backtrack_step_balanced (s0 : Solver) (fuel : Nat) (st : BtStep)
    (h : s0.backtrack_step fuel = some st) (hb : StacksBalanced s0) :
    StacksBalanced (btOut st) :=
  backtrack_core_balanced _ _ _ _ h hb

/-- `Solver::backtrack` preserves the stack-parity invariant. -/
theorem backtrack_balanced :
    ∀ (fuel : Nat) (s : Solver) (b : Bool) (s' : Solver),
      s.backtrack fuel = some (b, s') → StacksBalanced s → StacksBalanced s' := by
  intro fuel
  induction fuel with
  | zero =>
    intro s b s' h
    exact Option.noConfusion h
  | succ fuel ih =>
    intro s b s' h hb
    simp only [Solver.backtrack] at h
    split at h
    · exact Option.noConfusion h
    · rename_i b1 s1 hstep
      rw [Option.some.injEq, Prod.mk.injEq] at h
      obtain ⟨-, hs⟩ := h
      subst hs
      exact backtrack_step_balanced _ _ _ hstep hb
    · rename_i s1 hstep
      exact ih _ _ _ h (backtrack_step_balanced _ _ _ hstep hb)

/-- The classification pass of `Solver::simplify` never touches the
stacks. -/
theorem simplify_scan_stacks :
    ∀ (cs : List Constraint) (s : Solver) (pset : List (Nat × Bool × ConstraintIndex)),
      StacksEq s (Solver.simplify_scan s cs pset).2.1 := by
  intro cs
  induction cs with
  | nil => intro s pset; exact ⟨rfl, rfl⟩
  | cons c rest ih =>
    intro s pset
    simp only [Solver.simplify_scan]
    split
    · split
      · exact ⟨(ih _ _).1, (ih _ _).2⟩
      · exact ⟨(ih _ _).1, (ih _ _).2⟩
    · exact ⟨rfl, rfl⟩
    · exact ih _ _
    · exact ih _ _
    · exact ih _ _

/-- The propagation pass of `Solver::simplify` never touches the stacks. -/
theorem simplify_propagate_stacks :
    ∀ (pset : List (Nat × Bool × ConstraintIndex)) (s : Solver) (fuel : Nat)
      (b : Bool) (s' : Solver),
      Solver.simplify_propagate s pset fuel = some (b, s') → StacksEq s s' := by
  intro pset
  induction pset with
  | nil =>
    intro s fuel b s' h
    simp only [Solver.simplify_propagate] at h
    rw [Option.some.injEq, Prod.mk.injEq] at h
    obtain ⟨-, hs⟩ := h
    subst hs
    exact ⟨rfl, rfl⟩
  | cons p rest ih =>
    intro s fuel b s' h
    rcases p with ⟨i, sign, ci⟩
    simp only [Solver.simplify_propagate] at h
    split at h
    · exact Option.noConfusion h
    · rename_i c1 s1 hp
      rw [Option.some.injEq, Prod.mk.injEq] at h
      obtain ⟨-, hs⟩ := h
      subst hs
      exact propagate_stacks _ _ _ _ _ _ _ hp
    · rename_i s1 hp
      exact StacksEq.trans (propagate_stacks _ _ _ _ _ _ _ hp) (ih _ _ _ _ h)

/-- `Solver::simplify` never touches the stacks. -/
theorem simplify_stacks (s : Solver) (fuel : Nat) (b : Bool) (s' : Solver)
    (h : s.simplify fuel = some (b, s')) : StacksEq s s' := by
  simp only [Solver.simplify] at h
  split at h
  · rename_i s1 pset hscan
    rw [Option.some.injEq, Prod.mk.injEq] at h
    obtain ⟨-, hs⟩ := h
    subst hs
    have h0 := simplify_scan_stacks s.pseudo_boolean_formula.constraints s []
    rw [hscan] at h0
    exact ⟨h0.1, h0.2⟩
  · rename_i s1 pset hscan
    have h0 := simplify_scan_stacks s.pseudo_boolean_formula.constraints s []
    rw [hscan] at h0
    exact StacksEq.trans ⟨h0.1, h0.2⟩ (simplify_propagate_stacks _ _ _ _ _ h)

/-- The DLCS seeding loop of `Solver::new` never touches the stacks. -/
theorem new_dlcs_stacks (c : Constraint) :
    ∀ (l : List (Nat × Literal)) (s : Solver),
      StacksEq s (l.foldl (Solver.new_dlcs c) s) := by
  intro l
  induction l with
  | nil => intro s; exact ⟨rfl, rfl⟩
  | cons p rest ih =>
    intro s
    rw [List.foldl_cons]
    exact ⟨(ih _).1, (ih _).2⟩

/-- The constraint loop of `Solver::new` never touches the stacks. -/
theorem new_seed_stacks (s : Solver) (c : Constraint) :
    StacksEq s (Solver.new_seed s c) := by
  unfold Solver.new_seed
  split
  · exact ⟨(new_dlcs_stacks _ _ _).1, (new_dlcs_stacks _ _ _).2⟩
  · exact new_dlcs_stacks _ _ _

theorem new_seed_fold_stacks :
    ∀ (cs : List Constraint) (s : Solver), StacksEq s (cs.foldl Solver.new_seed s) := by
  intro cs
  induction cs with
  | nil => intro s; exact ⟨rfl, rfl⟩
  | cons c rest ih =>
    intro s
    rw [List.foldl_cons]
    exact StacksEq.trans (new_seed_stacks s c) (ih _)

/-- A fresh solver has equal (empty) stacks. -/
theorem solver_new_balanced (pbf : PseudoBooleanFormula) :
    StacksBalanced (Solver.new pbf) := by
  unfold Solver.new
  exact StacksEq.balanced (new_seed_fold_stacks _ _) rfl

/-- One iteration of the `count` loop preserves the stack-parity
invariant. -/
theorem count_step_balanced (oracle : PartitionOracle) (s : Solver) (fuel : Nat)
    (s' : Solver) (h : s.count_step oracle fuel = some (.inr s'))
    (hb : StacksBalanced s) : StacksBalanced s' := by
  have hblen : s.result_stack.length = s.ddnnf_stack.length := hb
  simp only [Solver.count_step] at h
  split at h
  · -- all constraints satisfied: push the pair, backtrack
    split at h
    · exact Option.noConfusion h
    · rename_i s2 hbt
      rcases hcf : s2.count_finish with _ | res
      · rw [hcf] at h
        exact Option.noConfusion h
      · rw [hcf, Option.map_some'] at h
        rw [Option.some.injEq] at h
        exact Sum.noConfusion h
    · rename_i s2 hbt
      rw [Option.some.injEq, Sum.inr.injEq] at h
      subst h
      refine backtrack_balanced _ _ _ _ hbt ?_
      show s.result_stack.length + 1 = s.ddnnf_stack.length + 1
      omega
  · split at h
    · exact Option.noConfusion h
    · -- cache hit: push the pair, backtrack
      rename_i mc node hcache
      split at h
      · exact Option.noConfusion h
      · rename_i s2 hbt
        rcases hcf : s2.count_finish with _ | res
        · rw [hcf] at h
          exact Option.noConfusion h
        · rw [hcf, Option.map_some'] at h
          rw [Option.some.injEq] at h
          exact Sum.noConfusion h
      · rename_i s2 hbt
        rw [Option.some.injEq, Sum.inr.injEq] at h
        subst h
        refine backtrack_balanced _ _ _ _ hbt ?_
        show s.result_stack.length + 1 = s.ddnnf_stack.length + 1
        omega
    · -- no cache hit
      rename_i hcache
      split at h
      · exact Option.noConfusion h
      · -- a component branch was installed
        rename_i s1 hbc
        rw [Option.some.injEq, Sum.inr.injEq] at h
        subst h
        exact StacksEq.balanced (branch_components_stacks _ _ _ _ _ hbc) hb
      · -- no decomposition: decide
        rename_i s1 hbc
        have hbc1 := branch_components_stacks _ _ _ _ _ hbc
        have hb1 : StacksBalanced s1 := StacksEq.balanced hbc1 hb
        have hb1len : s1.result_stack.length = s1.ddnnf_stack.length := hb1
        split at h
        · exact Option.noConfusion h
        · -- nothing to decide: push the zero pair, backtrack
          rename_i s2 hdec
          have hd := decide_stacks _ _ _ hdec
          have hb2 : StacksBalanced s2 := StacksEq.balanced hd hb1
          have hb2len : s2.result_stack.length = s2.ddnnf_stack.length := hb2
          split at h
          · exact Option.noConfusion h
          · rename_i s4 hbt
            rcases hcf : s4.count_finish with _ | res
            · rw [hcf] at h
              exact Option.noConfusion h
            · rw [hcf, Option.map_some'] at h
              rw [Option.some.injEq] at h
              exact Sum.noConfusion h
          · rename_i s4 hbt
            rw [Option.some.injEq, Sum.inr.injEq] at h
            subst h
            refine backtrack_balanced _ _ _ _ hbt ?_
            show s2.result_stack.length + 1 = s2.ddnnf_stack.length + 1
            omega
        · -- a decision was made: propagate it
          rename_i vi vs s2 hdec
          have hd := decide_stacks _ _ _ hdec
          have hb2 : StacksBalanced s2 := StacksEq.balanced hd hb1
          have hb2len : s2.result_stack.length = s2.ddnnf_stack.length := hb2
          split at h
          · exact Option.noConfusion h
          · -- no conflict: next iteration
            rename_i s3 hprop
            rw [Option.some.injEq, Sum.inr.injEq] at h
            subst h
            exact StacksEq.balanced (propagate_stacks _ _ _ _ _ _ _ hprop) hb2
          · -- conflict: learn, push the zero pair, backtrack
            rename_i ci s3 hprop
            have hp := propagate_stacks _ _ _ _ _ _ _ hprop
            have hb3 : StacksBalanced s3 := StacksEq.balanced hp hb2
            have hb3len : s3.result_stack.length = s3.ddnnf_stack.length := hb3
            split at h
            · exact Option.noConfusion h
            · rename_i s4 hsc
              have hs4 := safe_conflict_clause_stacks _ _ _ _ hsc
              have hb4 : StacksBalanced s4 := StacksEq.balanced hs4 hb3
              have hb4len : s4.result_stack.length = s4.ddnnf_stack.length := hb4
              split at h
              · exact Option.noConfusion h
              · rename_i s6 hbt
                rcases hcf : s6.count_finish with _ | res
                · rw [hcf] at h
                  exact Option.noConfusion h
                · rw [hcf, Option.map_some'] at h
                  rw [Option.some.injEq] at h
                  exact Sum.noConfusion h
              · rename_i s6 hbt
                rw [Option.some.injEq, Sum.inr.injEq] at h
                subst h
                refine backtrack_balanced _ _ _ _ hbt ?_
                show s4.result_stack.length + 1 = s4.ddnnf_stack.length + 1
                omega

/-- C9: the model-count stack and the d-DNNF stack are equally deep at
every step of the search, for every input formula and every reachable
solver state: a fresh solver has equal (empty) stacks, and the invariant
is preserved by the bootstrap simplification, by every iteration of the
main `count` loop (each push of a count is paired with a push of a node),
and by every `backtrack` call. -/
theorem C9_stack_parity :
    (∀ pbf : PseudoBooleanFormula, StacksBalanced (Solver.new pbf)) ∧
    (∀ (s : Solver) (fuel : Nat) (b : Bool) (s' : Solver),
      s.simplify fuel = some (b, s') → StacksBalanced s → StacksBalanced s') ∧
    (∀ (oracle : PartitionOracle) (s : Solver) (fuel : Nat) (s' : Solver),
      s.count_step oracle fuel = some (.inr s') → StacksBalanced s → StacksBalanced s') ∧
    (∀ (fuel : Nat) (s : Solver) (b : Bool) (s' : Solver),
      s.backtrack fuel = some (b, s') → StacksBalanced s → StacksBalanced s') :=
  ⟨solver_new_balanced,
   fun s fuel b s' h hb => StacksEq.balanced (simplify_stacks s fuel b s' h) hb,
   count_step_balanced,
   backtrack_balanced⟩

/-- C9 witness: the invariant transported through a concrete bootstrap
simplification run. -/
theorem C9_stack_parity_witness :
    ∃ s' : Solver, (Solver.new exNegFormula).simplify 4 = some (true, s') ∧
      StacksBalanced s' :=
  ⟨_, rfl, C9_stack_parity.2.1 (Solver.new exNegFormula) 4 true _ rfl rfl⟩

end P2D
